import Mathlib

/-!
# wblib: `TAnyBasic` (any.h) and `TPromise` / `TFuture` (promise.h)

A shallow embedding of the type-erased value container and of the one-shot
completion cell, followed by the properties proved about them.

Conventions of the embedding

* A C++ member function becomes a Lean function taking the object first and
  returning the new object (explicit state passing).
* Heap memory, the allocator and the calls made to the payload type's own
  copy / move / destroy operations live in an explicit `World`.
* A call either returns, throws, blocks the calling thread, or is undefined
  (`Outcome`).  A throwing mutator still returns the object it leaves behind.
-/

namespace WBMQTT

/-! ## Outcomes of a call -/

/-- How a call ends: it returns a value, throws an exception, blocks the calling
thread (a wait whose predicate is false), or has undefined behaviour (a read of
memory that holds no live object of the requested type, a null dereference). -/
inductive Outcome (ε α : Type) where
  | Return (a : α)
  | Throw (e : ε)
  | Block
  | Undefined

/-! ## any.h -/

/-- The C++ types a container may store, for one compilation target: the values
of each type, `sizeof(T)`, `NameOfType<T>()` and the size of a pointer
(`sizeof(void*)`, which is also `sizeof(std::size_t)` and their alignment). -/
class Target (Ty : Type) where
  /-- The values of the C++ type. -/
  Val : Ty → Type
  /-- The value of `sizeof(T)`. -/
  sizeof : Ty → Nat
  /-- The value of `NameOfType<T>()`, the demangled `typeid(T).name()`. -/
  NameOfType : Ty → String
  /-- The value of `sizeof(void*)`. -/
  PointerSize : Nat

/-- A live C++ object: its dynamic type and its value. -/
structure Object (Ty : Type) [Target Ty] where
  T : Ty
  Value : Target.Val T

/-- Reading an object through a `T*`, as `*static_cast<const T*>(p)` does: the
value when the object really is a `T`, nothing otherwise. -/
def Object.Cast {Ty : Type} [Target Ty] [DecidableEq Ty] (T : Ty) (o : Object Ty) :
    Option (Target.Val T) :=
  if h : o.T = T then some (h ▸ o.Value) else none

/-- The calls a container makes to its collaborators, in program order: the
allocator (`Allocate` with the size asked for and the block returned, `Free`)
and the payload type's copy constructor, move constructor, destructor and
constructor from arguments (`Construct`, the placement new of `EmplaceUnsafe`). -/
inductive Event (Ty : Type) where
  | Allocate (size : Nat) (memory : Nat)
  | Free (memory : Nat)
  | Copy (T : Ty)
  | Move (T : Ty)
  | Destroy (T : Ty)
  | Construct (T : Ty)

/-- A block handed out by the allocator: its size and the object living in it. -/
structure Block (Ty : Type) [Target Ty] where
  Size : Nat
  Content : Option (Object Ty)

/-- Everything outside the container that its operations touch: the live heap
blocks by address (newest first), the next address the allocator hands out, and
the trace of collaborator calls. -/
structure World (Ty : Type) [Target Ty] where
  Heap : List (Nat × Block Ty)
  Next : Nat
  Trace : List (Event Ty)

section Any

variable {Ty : Type} [Target Ty] [DecidableEq Ty]

/-- The object living at a heap address. -/
def World.Load (w : World Ty) (memory : Nat) : Option (Object Ty) :=
  (w.Heap.lookup memory).bind Block.Content

/-- Replace the object living at a heap address (placement new, or the end of
an object's lifetime). -/
def World.Store (w : World Ty) (memory : Nat) (o : Option (Object Ty)) : World Ty :=
  { w with Heap := w.Heap.map fun e => if e.1 = memory then (e.1, { e.2 with Content := o }) else e }

/-- Append a collaborator call to the trace. -/
def World.Log (w : World Ty) (e : Event Ty) : World Ty :=
  { w with Trace := w.Trace ++ [e] }

/-- The allocator policy, `Allocator::Allocate(size)`: a fresh block of `size`
bytes (the allocation is taken to succeed). -/
def Allocator.Allocate (size : Nat) (w : World Ty) : Nat × World Ty :=
  (w.Next,
   { Heap := (w.Next, { Size := size, Content := none }) :: w.Heap,
     Next := w.Next + 1,
     Trace := w.Trace ++ [Event.Allocate size w.Next] })

/-- The allocator policy, `Allocator::Free(memory)`. -/
def Allocator.Free (memory : Nat) (w : World Ty) : World Ty :=
  { w with Heap := w.Heap.filter (fun e => e.1 != memory),
           Trace := w.Trace ++ [Event.Free memory] }

/-- Embeds `TTypeWrapper<T>::Copy(memory, object)`: copy-construct a `T` from the
object read through `const T*`; the copy has the value of the original.  The
caller places the result at `memory`. -/
def TTypeWrapper.Copy (T : Ty) (object : Option (Object Ty)) (w : World Ty) :
    Option (Object Ty) × World Ty :=
  ((object.bind (Object.Cast T)).map (Object.mk T), w.Log (Event.Copy T))

/-- Embeds `TTypeWrapper<T>::Move(memory, object)`: move-construct a `T` from the
object read through `T*`; the new object has the value the source had. -/
def TTypeWrapper.Move (T : Ty) (object : Option (Object Ty)) (w : World Ty) :
    Option (Object Ty) × World Ty :=
  ((object.bind (Object.Cast T)).map (Object.mk T), w.Log (Event.Move T))

/-- Embeds `TTypeWrapper<T>::Destroy(object)`: run `~T()`; the caller ends the
lifetime of the object at that place. -/
def TTypeWrapper.Destroy (T : Ty) (w : World Ty) : World Ty :=
  w.Log (Event.Destroy T)

/-- Embeds `TAnyBasic`: the union `Inner` with its three views flattened into fields
(`Inner.Dynamic.Memory`, `Inner.Dynamic.Size`, `Inner.Static.Memory`,
`Inner.Static.Size`, `Inner.Memory.IsDynamic`) and the operation table `Type`.
The code reads a view only under the matching value of the flag, so the overlap
of the views is not observable.  `Type` is the per-type singleton
`TTypeWrapper<T>::Get()`, identified with `T`; `none` is `nullptr`. -/
structure TAnyBasic (Ty : Type) [Target Ty] where
  DynamicMemory : Nat
  DynamicSize : Nat
  StaticMemory : Option (Object Ty)
  StaticSize : Nat
  IsDynamic : Bool
  Type_ : Option Ty

/-- Embeds `sizeof Dynamic` for `struct { void* Memory; std::size_t Size; bool _; }`:
two words and a byte, padded to the word alignment. -/
def TAnyBasic.sizeofDynamic (Ty : Type) [Target Ty] : Nat :=
  3 * Target.PointerSize Ty

/-- Embeds `TAnyBasic::StaticCapacity()`: `sizeof(Inner.Static.Memory)`, where
`Static.Memory` is declared `uint8_t Memory[sizeof Dynamic - 2]`. -/
def TAnyBasic.StaticCapacity (Ty : Type) [Target Ty] : Nat :=
  TAnyBasic.sizeofDynamic Ty - 2

/-- Embeds `TAnyBasic::Empty()`. -/
def TAnyBasic.Empty (self : TAnyBasic Ty) : Bool :=
  self.Type_.isNone

/-- Embeds `TAnyBasic::Reset()`. -/
def TAnyBasic.Reset (self : TAnyBasic Ty) : TAnyBasic Ty :=
  { self with Type_ := none, IsDynamic := false, StaticSize := 0 }

/-- Embeds `TAnyBasic::InitDynamic(size)`. -/
def TAnyBasic.InitDynamic (self : TAnyBasic Ty) (size : Nat) (w : World Ty) :
    TAnyBasic Ty × World Ty :=
  let r := Allocator.Allocate size w
  ({ self with DynamicMemory := r.1, DynamicSize := size, IsDynamic := true }, r.2)

/-- Embeds `TAnyBasic::InitStatic(uint8_t size)`: the argument is converted to one
byte. -/
def TAnyBasic.InitStatic (self : TAnyBasic Ty) (size : Nat) : TAnyBasic Ty :=
  { self with StaticSize := size % 256, IsDynamic := false }

/-- Embeds `TAnyBasic::CopyDynamic(object, size)`; `Type` has been set by the caller. -/
def TAnyBasic.CopyDynamic (self : TAnyBasic Ty) (object : Option (Object Ty)) (size : Nat)
    (w : World Ty) : TAnyBasic Ty × World Ty :=
  let r := self.InitDynamic size w
  match r.1.Type_ with
  | some T =>
    let c := TTypeWrapper.Copy T object r.2
    (r.1, c.2.Store r.1.DynamicMemory c.1)
  | none => r

/-- Embeds `TAnyBasic::CopyStatic(object, size)`; `Type` has been set by the caller. -/
def TAnyBasic.CopyStatic (self : TAnyBasic Ty) (object : Option (Object Ty)) (size : Nat)
    (w : World Ty) : TAnyBasic Ty × World Ty :=
  let s := self.InitStatic size
  match s.Type_ with
  | some T =>
    let c := TTypeWrapper.Copy T object w
    ({ s with StaticMemory := c.1 }, c.2)
  | none => (s, w)

/-- Embeds `TAnyBasic::MoveDynamic(object, size)`; `Type` has been set by the caller. -/
def TAnyBasic.MoveDynamic (self : TAnyBasic Ty) (object : Option (Object Ty)) (size : Nat)
    (w : World Ty) : TAnyBasic Ty × World Ty :=
  let r := self.InitDynamic size w
  match r.1.Type_ with
  | some T =>
    let c := TTypeWrapper.Move T object r.2
    (r.1, c.2.Store r.1.DynamicMemory c.1)
  | none => r

/-- Embeds `TAnyBasic::MoveStatic(object, size)`; `Type` has been set by the caller. -/
def TAnyBasic.MoveStatic (self : TAnyBasic Ty) (object : Option (Object Ty)) (size : Nat)
    (w : World Ty) : TAnyBasic Ty × World Ty :=
  let s := self.InitStatic size
  match s.Type_ with
  | some T =>
    let c := TTypeWrapper.Move T object w
    ({ s with StaticMemory := c.1 }, c.2)
  | none => (s, w)

/-- Embeds `TAnyBasic::Copy<T>(const T& object)`. -/
def TAnyBasic.Copy (self : TAnyBasic Ty) (T : Ty) (object : Target.Val T) (w : World Ty) :
    TAnyBasic Ty × World Ty :=
  let s := { self with Type_ := some T }
  if Target.sizeof T > TAnyBasic.StaticCapacity Ty then
    s.CopyDynamic (some ⟨T, object⟩) (Target.sizeof T) w
  else
    s.CopyStatic (some ⟨T, object⟩) (Target.sizeof T) w

/-- Embeds `TAnyBasic::Move<T>(T&& object)`. -/
def TAnyBasic.Move (self : TAnyBasic Ty) (T : Ty) (object : Target.Val T) (w : World Ty) :
    TAnyBasic Ty × World Ty :=
  let s := { self with Type_ := some T }
  if Target.sizeof T > TAnyBasic.StaticCapacity Ty then
    s.MoveDynamic (some ⟨T, object⟩) (Target.sizeof T) w
  else
    s.MoveStatic (some ⟨T, object⟩) (Target.sizeof T) w

/-- Embeds `TAnyBasic::Data()`, followed by the read of the object at that place: the
heap block at `Inner.Dynamic.Memory` or the inline buffer, by the flag. -/
def TAnyBasic.Data (self : TAnyBasic Ty) (w : World Ty) : Option (Object Ty) :=
  if self.IsDynamic then w.Load self.DynamicMemory else self.StaticMemory

/-- Embeds `TAnyBasic::DeleteDirty()`. -/
def TAnyBasic.DeleteDirty (self : TAnyBasic Ty) (w : World Ty) : TAnyBasic Ty × World Ty :=
  match self.Type_ with
  | some T =>
    let w1 := TTypeWrapper.Destroy T w
    if self.IsDynamic then
      (self, Allocator.Free self.DynamicMemory (w1.Store self.DynamicMemory none))
    else
      ({ self with StaticMemory := none }, w1)
  | none => (self, w)

/-- Embeds `TAnyBasic::Clean()`. -/
def TAnyBasic.Clean (self : TAnyBasic Ty) (w : World Ty) : TAnyBasic Ty × World Ty :=
  let r := self.DeleteDirty w
  (r.1.Reset, r.2)

/-- Embeds `TAnyBasic::GetSize()`. -/
def TAnyBasic.GetSize (self : TAnyBasic Ty) : Nat :=
  if self.IsDynamic then self.DynamicSize else self.StaticSize

/-- Embeds `TAnyBasic::Is<T>()`: `Type && Type->IsSame<T>()`, where `IsSame` compares
`typeid` of the wrapper's type with `typeid(T)`. -/
def TAnyBasic.Is (self : TAnyBasic Ty) (T : Ty) : Bool :=
  match self.Type_ with
  | some S => decide (S = T)
  | none => false

/-- The exceptions thrown by `TAnyBasic`; `TAnyTypesMismatchError` is built
from `(storedType, castingType)`. -/
inductive TAnyCastError where
  | TAnyEmptyError
  | TAnyTypesMismatchError (storedType castingType : String)
  deriving DecidableEq

/-- Embeds `TAnyBasic::As<T>()` (const and mutable share the body).  The reference it
returns is read at once: the value of the `T` living at `Data()`, undefined when
no live `T` is there. -/
def TAnyBasic.As (self : TAnyBasic Ty) (T : Ty) (w : World Ty) :
    Outcome TAnyCastError (Target.Val T) :=
  if self.Empty then
    Outcome.Throw TAnyCastError.TAnyEmptyError
  else if !self.Is T then
    match self.Type_ with
    | some S => Outcome.Throw (TAnyCastError.TAnyTypesMismatchError (Target.NameOfType S) (Target.NameOfType T))
    | none => Outcome.Undefined
  else
    match (self.Data w).bind (Object.Cast T) with
    | some v => Outcome.Return v
    | none => Outcome.Undefined

/-- The bytes of a container before any constructor has run (indeterminate). -/
abbrev TAnyBasic.Raw (Ty : Type) [Target Ty] := TAnyBasic Ty

/-- Embeds `TAnyBasic::TAnyBasic()`. -/
def TAnyBasic.ctor (raw : TAnyBasic.Raw Ty) : TAnyBasic Ty :=
  raw.Reset

/-- Embeds `TAnyBasic::TAnyBasic(const T& object)`. -/
def TAnyBasic.ctorCopy (raw : TAnyBasic.Raw Ty) (T : Ty) (object : Target.Val T) (w : World Ty) :
    TAnyBasic Ty × World Ty :=
  (TAnyBasic.ctor raw).Copy T object w

/-- Embeds `TAnyBasic::TAnyBasic(T&& object)`. -/
def TAnyBasic.ctorMove (raw : TAnyBasic.Raw Ty) (T : Ty) (object : Target.Val T) (w : World Ty) :
    TAnyBasic Ty × World Ty :=
  (TAnyBasic.ctor raw).Move T object w

/-- Embeds `TAnyBasic::operator=(const T& object)`; the returned `As<T>()` reference
is not part of the state. -/
def TAnyBasic.assignCopy (self : TAnyBasic Ty) (T : Ty) (object : Target.Val T) (w : World Ty) :
    TAnyBasic Ty × World Ty :=
  let r := self.Clean w
  r.1.Copy T object r.2

/-- Embeds `TAnyBasic::operator=(T&& object)`; the returned `As<T>()` reference is not
part of the state. -/
def TAnyBasic.assignMove (self : TAnyBasic Ty) (T : Ty) (object : Target.Val T) (w : World Ty) :
    TAnyBasic Ty × World Ty :=
  let r := self.Clean w
  r.1.Move T object r.2

/-- Embeds `TAnyBasic::AssignDynamic(data, size)`. -/
def TAnyBasic.AssignDynamic (self : TAnyBasic Ty) (data : Nat) (size : Nat) : TAnyBasic Ty :=
  { self with DynamicMemory := data, DynamicSize := size, IsDynamic := true }

/-- Embeds `TAnyBasic::AssignStatic(object, uint8_t size)`: `InitStatic(size)` and a
`memcpy` of `size` bytes from the source buffer.  The object of the source
buffer arrives when all its `sizeof` bytes are copied. -/
def TAnyBasic.AssignStatic (self : TAnyBasic Ty) (object : Option (Object Ty)) (size : Nat) :
    TAnyBasic Ty :=
  { self.InitStatic size with
    StaticMemory := object.bind fun o => if Target.sizeof o.T ≤ size % 256 then some o else none }

/-- Embeds `TAnyBasic::Copy(const TAnyBasic& other)`. -/
def TAnyBasic.CopyAny (self other : TAnyBasic Ty) (w : World Ty) : TAnyBasic Ty × World Ty :=
  if other.Empty then (self, w)
  else
    let s := { self with Type_ := other.Type_ }
    if other.IsDynamic then
      s.CopyDynamic (w.Load other.DynamicMemory) other.DynamicSize w
    else
      s.CopyStatic other.StaticMemory other.StaticSize w

/-- Embeds `TAnyBasic::Move(TAnyBasic&& other)`.  Returns (this container, the
source); it calls neither the allocator nor the payload type, so the world is
not touched. -/
def TAnyBasic.MoveAny (self other : TAnyBasic Ty) : TAnyBasic Ty × TAnyBasic Ty :=
  if other.Empty then (self, other)
  else
    let s := { self with Type_ := other.Type_ }
    if other.IsDynamic then
      (s.AssignDynamic other.DynamicMemory other.DynamicSize, other.Reset)
    else
      (s.AssignStatic other.StaticMemory other.StaticSize, other.Reset)

/-- A write of the object at `Data()`: into the heap block at
`Inner.Dynamic.Memory` or into the inline buffer, by the flag. -/
def TAnyBasic.SetData (self : TAnyBasic Ty) (o : Option (Object Ty)) (w : World Ty) :
    TAnyBasic Ty × World Ty :=
  if self.IsDynamic then (self, w.Store self.DynamicMemory o)
  else ({ self with StaticMemory := o }, w)

/-- Embeds `TAnyBasic::EmplaceUnsafe<T>(args...)`.  `object` is the value that
`T(args...)` constructs; the placement new puts it at `Data()`.  Returns what
the final `return As<T>()` gives, and the state. -/
def TAnyBasic.EmplaceUnsafe (self : TAnyBasic Ty) (T : Ty) (object : Target.Val T)
    (w : World Ty) : Outcome TAnyCastError (Target.Val T) × (TAnyBasic Ty × World Ty) :=
  let s := { self with Type_ := some T }
  let r := if Target.sizeof T > TAnyBasic.StaticCapacity Ty then
      s.InitDynamic (Target.sizeof T) w
    else
      (s.InitStatic (Target.sizeof T), w)
  let c := r.1.SetData (some ⟨T, object⟩) (r.2.Log (Event.Construct T))
  (c.1.As T c.2, c)

/-- Embeds `TAnyBasic::Emplace<T>(args...)`. -/
def TAnyBasic.Emplace (self : TAnyBasic Ty) (T : Ty) (object : Target.Val T) (w : World Ty) :
    Outcome TAnyCastError (Target.Val T) × (TAnyBasic Ty × World Ty) :=
  let r := self.Clean w
  r.1.EmplaceUnsafe T object r.2

/-- Embeds `TAnyBasic::TAnyBasic(const TAnyBasic& other)`. -/
def TAnyBasic.ctorCopyAny (raw : TAnyBasic.Raw Ty) (other : TAnyBasic Ty) (w : World Ty) :
    TAnyBasic Ty × World Ty :=
  (TAnyBasic.ctor raw).CopyAny other w

/-- Embeds `TAnyBasic::TAnyBasic(TAnyBasic&& other)`.  Returns (new container,
the source). -/
def TAnyBasic.ctorMoveAny (raw : TAnyBasic.Raw Ty) (other : TAnyBasic Ty) :
    TAnyBasic Ty × TAnyBasic Ty :=
  (TAnyBasic.ctor raw).MoveAny other

/-- Embeds `TAnyBasic::operator=(const TAnyBasic& rhs)`.  `sameObject` is the
outcome of the test `&rhs == this`, in which case `rhs` is this container. -/
def TAnyBasic.assignCopyAny (self rhs : TAnyBasic Ty) (sameObject : Bool) (w : World Ty) :
    TAnyBasic Ty × World Ty :=
  if !sameObject then
    let r := self.Clean w
    r.1.CopyAny rhs r.2
  else (self, w)

/-- Embeds `TAnyBasic::operator=(TAnyBasic&& rhs)`.  `sameObject` is the outcome
of the test `&rhs == this`, in which case `rhs` is this container.  Returns
((this container, the source), world). -/
def TAnyBasic.assignMoveAny (self rhs : TAnyBasic Ty) (sameObject : Bool) (w : World Ty) :
    (TAnyBasic Ty × TAnyBasic Ty) × World Ty :=
  if !sameObject then
    let r := self.Clean w
    (r.1.MoveAny rhs, r.2)
  else ((self, self), w)

/-- Embeds `TAnyBasic::~TAnyBasic()`: the world the destroyed container leaves. -/
def TAnyBasic.dtor (self : TAnyBasic Ty) (w : World Ty) : World Ty :=
  (self.DeleteDirty w).2

/-- An assignment through the reference that `As<T>()` returns,
`self.As<T>() = value`: the stored object takes the value, nothing else moves. -/
def TAnyBasic.AssignThrough (self : TAnyBasic Ty) (T : Ty) (value : Target.Val T)
    (w : World Ty) : Outcome TAnyCastError Unit × (TAnyBasic Ty × World Ty) :=
  match self.As T w with
  | Outcome.Return _ => (Outcome.Return (), self.SetData (some ⟨T, value⟩) w)
  | Outcome.Throw e => (Outcome.Throw e, (self, w))
  | Outcome.Block => (Outcome.Block, (self, w))
  | Outcome.Undefined => (Outcome.Undefined, (self, w))

/-- The type `std::string` of a target: its name among the types, the
constructor `std::string(const char*)` from the text of a NUL-terminated C
string, and the text of a string; the constructor keeps the text. -/
class StdString (Ty : Type) [Target Ty] where
  /-- The type `std::string`. -/
  string : Ty
  /-- The constructor `std::string(const char* c_string)`. -/
  construct : String → Target.Val string
  /-- The text of a `std::string`. -/
  text : Target.Val string → String
  /-- The constructor keeps the text of the C string. -/
  text_construct : ∀ c_string : String, text (construct c_string) = c_string

/-- Embeds `TAnyBasic::TAnyBasic(const char* c_string)`, which delegates to
`TAnyBasic(std::string(c_string))`, the overload taking `T&&`. -/
def TAnyBasic.ctorCString [StdString Ty] (raw : TAnyBasic.Raw Ty) (c_string : String)
    (w : World Ty) : TAnyBasic Ty × World Ty :=
  TAnyBasic.ctorMove raw StdString.string (StdString.construct c_string) w

/-- Embeds `TAnyBasic::operator=(const char* c_string)`:
`return operator=(std::string(c_string))`, the overload taking `T&&`. -/
def TAnyBasic.assignCString [StdString Ty] (self : TAnyBasic Ty) (c_string : String)
    (w : World Ty) : TAnyBasic Ty × World Ty :=
  self.assignMove StdString.string (StdString.construct c_string) w

/-- The types `std::array<T, N>` of a target: the name of each among the types,
the value-initialised `std::array<T, N>()`, the element access `a[i]` and the
element assignment `a[i] = x`, which changes the element `i` and no other. -/
class StdArray (Ty : Type) [Target Ty] where
  /-- The type `std::array<T, N>`. -/
  array : Ty → Nat → Ty
  /-- The value-initialised `std::array<T, N>()`. -/
  construct : (T : Ty) → (N : Nat) → Target.Val (array T N)
  /-- The element `a[i]`. -/
  get : {T : Ty} → {N : Nat} → Target.Val (array T N) → Fin N → Target.Val T
  /-- The array after `a[i] = x`. -/
  set : {T : Ty} → {N : Nat} → Target.Val (array T N) → Fin N → Target.Val T →
    Target.Val (array T N)
  /-- An element assignment changes that element and no other. -/
  get_set : ∀ {T : Ty} {N : Nat} (a : Target.Val (array T N)) (i j : Fin N) (x : Target.Val T),
    get (set a i x) j = if j = i then x else get a j

/-- The call `std::copy(std::begin(c_array), std::end(c_array), array.begin())`:
the elements of the C array are assigned to the array one by one, in order. -/
def StdArray.copy [StdArray Ty] {T : Ty} {N : Nat} (c_array : Fin N → Target.Val T)
    (array : Target.Val (StdArray.array T N)) : Target.Val (StdArray.array T N) :=
  (List.finRange N).foldl (fun a i => StdArray.set a i (c_array i)) array

/-- The body shared by the two array overloads, after the `Clean()` of the
assignment: `auto& array = EmplaceUnsafe<std::array<T, N>>()` and the
`std::copy` through that reference, which writes the object at `Data()`. -/
def TAnyBasic.EmplaceCArray [StdArray Ty] (self : TAnyBasic Ty) (T : Ty) (N : Nat)
    (c_array : Fin N → Target.Val T) (w : World Ty) : TAnyBasic Ty × World Ty :=
  let r := self.EmplaceUnsafe (StdArray.array T N) (StdArray.construct T N) w
  match r.1 with
  | Outcome.Return array =>
    r.2.1.SetData (some ⟨StdArray.array T N, StdArray.copy c_array array⟩) r.2.2
  | _ => r.2

/-- Embeds `TAnyBasic::TAnyBasic(const T (&c_array)[N])`.  It has no member
initialiser, so `EmplaceUnsafe` runs on the raw bytes: `Reset()` is not called. -/
def TAnyBasic.ctorCArray [StdArray Ty] (raw : TAnyBasic.Raw Ty) (T : Ty) (N : Nat)
    (c_array : Fin N → Target.Val T) (w : World Ty) : TAnyBasic Ty × World Ty :=
  TAnyBasic.EmplaceCArray raw T N c_array w

/-- Embeds `TAnyBasic::operator=(T (&c_array)[N])`. -/
def TAnyBasic.assignCArray [StdArray Ty] (self : TAnyBasic Ty) (T : Ty) (N : Nat)
    (c_array : Fin N → Target.Val T) (w : World Ty) : TAnyBasic Ty × World Ty :=
  let r := self.Clean w
  r.1.EmplaceCArray T N c_array r.2

/-! ### Programs over containers

A program owns container objects and makes calls on them.  The calls below are
the whole public surface of `TAnyBasic`; a call on a container object that does
not exist (never constructed, or already destroyed) cannot be written and is
skipped. -/

/-- The container objects of a program in order of construction (a destroyed
object leaves `none`) and the world they share. -/
structure Containers (Ty : Type) [Target Ty] where
  Objects : List (Option (TAnyBasic Ty))
  World : World Ty

/-- The program that has made no call yet: no object, nothing allocated, an
empty trace. -/
def Containers.init : Containers Ty :=
  { Objects := [], World := { Heap := [], Next := 0, Trace := [] } }

/-- The live container object number `i`. -/
def Containers.Object (M : Containers Ty) (i : Nat) : Option (TAnyBasic Ty) :=
  M.Objects[i]?.join

/-- The calls of a program: the constructors (each on the raw bytes `raw` of
the new object; `ctorCopyAny` and `ctorMoveAny` from the object `j`), the
mutators of the object `i` (`assignCopyAny` and `assignMoveAny` from the object
`j`, which may be `i` itself), an assignment through the reference returned by
`As<T>()`, the destructor, and any const member (`Empty`, `GetSize`, `Data`,
`Is<T>`, `As<T>`, `operator bool`). -/
inductive AnyCall (Ty : Type) [Target Ty] where
  | ctor (raw : TAnyBasic Ty)
  | ctorCopy (raw : TAnyBasic Ty) (T : Ty) (object : Target.Val T)
  | ctorMove (raw : TAnyBasic Ty) (T : Ty) (object : Target.Val T)
  | ctorCArray (raw : TAnyBasic Ty) (T : Ty) (N : Nat) (c_array : Fin N → Target.Val T)
  | ctorCString (raw : TAnyBasic Ty) (c_string : String)
  | ctorCopyAny (raw : TAnyBasic Ty) (j : Nat)
  | ctorMoveAny (raw : TAnyBasic Ty) (j : Nat)
  | Emplace (i : Nat) (T : Ty) (object : Target.Val T)
  | assignCopy (i : Nat) (T : Ty) (object : Target.Val T)
  | assignMove (i : Nat) (T : Ty) (object : Target.Val T)
  | assignCArray (i : Nat) (T : Ty) (N : Nat) (c_array : Fin N → Target.Val T)
  | assignCString (i : Nat) (c_string : String)
  | assignCopyAny (i j : Nat)
  | assignMoveAny (i j : Nat)
  | Clean (i : Nat)
  | AssignThrough (i : Nat) (T : Ty) (value : Target.Val T)
  | dtor (i : Nat)
  | Const (i : Nat)

/-- A new object joins the program. -/
def Containers.New (M : Containers Ty) (r : TAnyBasic Ty × WBMQTT.World Ty) : Containers Ty :=
  { Objects := M.Objects ++ [some r.1], World := r.2 }

/-- The object `i` and the world are replaced. -/
def Containers.Put (M : Containers Ty) (i : Nat) (r : TAnyBasic Ty × WBMQTT.World Ty) :
    Containers Ty :=
  { Objects := M.Objects.set i (some r.1), World := r.2 }

/-- The effect of a call on the objects and the world.  The test `&rhs == this`
of the container assignments holds when the two objects are the same one. -/
def Containers.step [StdString Ty] [StdArray Ty] (M : Containers Ty) :
    AnyCall Ty → Containers Ty
  | AnyCall.ctor raw => M.New (TAnyBasic.ctor raw, M.World)
  | AnyCall.ctorCopy raw T object => M.New (TAnyBasic.ctorCopy raw T object M.World)
  | AnyCall.ctorMove raw T object => M.New (TAnyBasic.ctorMove raw T object M.World)
  | AnyCall.ctorCArray raw T N c_array => M.New (TAnyBasic.ctorCArray raw T N c_array M.World)
  | AnyCall.ctorCString raw c_string => M.New (TAnyBasic.ctorCString raw c_string M.World)
  | AnyCall.ctorCopyAny raw j =>
    match M.Object j with
    | some other => M.New (TAnyBasic.ctorCopyAny raw other M.World)
    | none => M
  | AnyCall.ctorMoveAny raw j =>
    match M.Object j with
    | some other =>
      { Objects := M.Objects.set j (some (TAnyBasic.ctorMoveAny raw other).2) ++
          [some (TAnyBasic.ctorMoveAny raw other).1],
        World := M.World }
    | none => M
  | AnyCall.Emplace i T object =>
    match M.Object i with
    | some self => M.Put i (self.Emplace T object M.World).2
    | none => M
  | AnyCall.assignCopy i T object =>
    match M.Object i with
    | some self => M.Put i (self.assignCopy T object M.World)
    | none => M
  | AnyCall.assignMove i T object =>
    match M.Object i with
    | some self => M.Put i (self.assignMove T object M.World)
    | none => M
  | AnyCall.assignCArray i T N c_array =>
    match M.Object i with
    | some self => M.Put i (self.assignCArray T N c_array M.World)
    | none => M
  | AnyCall.assignCString i c_string =>
    match M.Object i with
    | some self => M.Put i (self.assignCString c_string M.World)
    | none => M
  | AnyCall.assignCopyAny i j =>
    match M.Object i, M.Object j with
    | some self, some rhs => M.Put i (self.assignCopyAny rhs (decide (i = j)) M.World)
    | _, _ => M
  | AnyCall.assignMoveAny i j =>
    match M.Object i, M.Object j with
    | some self, some rhs =>
      { Objects := (M.Objects.set j
            (some (self.assignMoveAny rhs (decide (i = j)) M.World).1.2)).set i
          (some (self.assignMoveAny rhs (decide (i = j)) M.World).1.1),
        World := (self.assignMoveAny rhs (decide (i = j)) M.World).2 }
    | _, _ => M
  | AnyCall.Clean i =>
    match M.Object i with
    | some self => M.Put i (self.Clean M.World)
    | none => M
  | AnyCall.AssignThrough i T value =>
    match M.Object i with
    | some self => M.Put i (self.AssignThrough T value M.World).2
    | none => M
  | AnyCall.dtor i =>
    match M.Object i with
    | some self => { Objects := M.Objects.set i none, World := self.dtor M.World }
    | none => M
  | AnyCall.Const _ => M

/-- Run a sequence of calls. -/
def Containers.run [StdString Ty] [StdArray Ty] (M : Containers Ty)
    (calls : List (AnyCall Ty)) : Containers Ty :=
  calls.foldl Containers.step M

end Any

/-! ## promise.h -/

/-- The exceptions a promise or a future raises: the four classes of
exceptions.h, and `Exception e`, an exception `e` leaving `TValue::Get` (stored
by `Throw`, or thrown by the stored function). -/
inductive TPromiseError (E : Type) where
  | TPromiseException
  | TBrokenPromiseException
  | TPromiseRepeatedAssignmentException
  | TPromiseFutureException
  | Exception (e : E)
  deriving DecidableEq

/-- Embeds `TValue<T>` with its implementations.  `TExceptionWrapper<T, E>` has the
member `E Exception`, where `E` is deduced from the argument of `Throw(E&&)`:
for an rvalue argument `E` is an object type and the wrapper owns the object
(`TExceptionWrapper`); for an lvalue argument `E` is an lvalue reference type
and the member is a reference to the caller's object (`TExceptionWrapperRef`):
`Alive` tells, in an environment, whether the lifetime of that object has not
ended, `Exception` is the object as it is in an environment, and `Copy` is the
copy constructor of the referenced (static) type, which keeps only the part of
the object that belongs to that type.  `TFunctionWrapper<T>` owns a
`std::function<T()>`, a callable that acts on its environment `W` and returns
or throws; `TValueWrapper<T>` owns a value (the only value of `void` is `()`). -/
inductive TValue (T E W : Type) where
  | TExceptionWrapper (Exception : E)
  | TFunctionWrapper (Function : W → Except E T × W)
  | TValueWrapper (Value : T)
  | TExceptionWrapperRef (Alive : W → Bool) (Exception : W → E) (Copy : E → E)

section Promise

variable {T E W : Type}

/-- Embeds `TValue<T>::IsException()`. -/
def TValue.IsException : TValue T E W → Bool
  | TValue.TExceptionWrapper _ => true
  | TValue.TFunctionWrapper _ => false
  | TValue.TValueWrapper _ => false
  | TValue.TExceptionWrapperRef _ _ _ => true

/-- Embeds `TValue<T>::Get()`: `throw Exception`, `return Function()`, `return Value`.
The expression `throw Exception` copy-initialises the exception object from the
member as an object of its static type: the owned object itself, or for a
reference member the copy, by the referenced type's copy constructor, of the
object referred to; reading a reference to an object whose lifetime has ended
is undefined (`none`). -/
def TValue.Get : TValue T E W → W → Option (Except E T) × W
  | TValue.TExceptionWrapper e, w => (some (Except.error e), w)
  | TValue.TFunctionWrapper f, w => (some (f w).1, (f w).2)
  | TValue.TValueWrapper v, w => (some (Except.ok v), w)
  | TValue.TExceptionWrapperRef alive e copy, w =>
    (if alive w then some (Except.error (copy (e w))) else none, w)

/-- Embeds `TDataBase<T>`: the completion cell.  `Ready` and `Broken` are the two
atomic flags, `Value` the `unique_ptr<TValue<T>>` (`none` is `nullptr`), and
`ConditionVariable` counts the `notify_all()` calls issued on the condition
variable.  The mutex is not represented: every member function runs alone. -/
structure TDataBase (T E W : Type) where
  Ready : Bool
  Broken : Bool
  Value : Option (TValue T E W)
  ConditionVariable : Nat

/-- Embeds `TDataGeneric<T>` adds member functions only (`SetValue`, or `Notify` for
`void`). -/
abbrev TDataGeneric (T E W : Type) := TDataBase T E W

/-- Embeds `TDataBase::TDataBase()`: `Ready(false), Broken(false), Value(nullptr)`. -/
def TDataBase.ctor : TDataBase T E W :=
  { Ready := false, Broken := false, Value := none, ConditionVariable := 0 }

/-- Embeds `TDataBase::IsReady()`. -/
def TDataBase.IsReady (d : TDataBase T E W) : Bool := d.Ready

/-- Embeds `TDataBase::IsBroken()`. -/
def TDataBase.IsBroken (d : TDataBase T E W) : Bool := d.Broken

/-- Embeds `TDataBase::Wait()`: the thread stays blocked while the predicate
`Ready || Broken` is false; past the wait, a broken cell throws. -/
def TDataBase.Wait (d : TDataBase T E W) : Outcome (TPromiseError E) Unit :=
  if d.Ready || d.Broken then
    if d.Broken then Outcome.Throw TPromiseError.TBrokenPromiseException
    else Outcome.Return ()
  else Outcome.Block

/-- Embeds `TDataBase::WaitFor(timeout)`: `wait_for` returns the value of the predicate
`Ready || Broken` when the wait ends; no other thread runs during the call, so
that is its value on the current cell, whatever the timeout. -/
def TDataBase.WaitFor (d : TDataBase T E W) (_timeout : Nat) : Outcome (TPromiseError E) Bool :=
  if d.Ready || d.Broken then
    if d.Broken then Outcome.Throw TPromiseError.TBrokenPromiseException
    else Outcome.Return true
  else Outcome.Return false

/-- Embeds `TDataBase::IsException()`: `Wait(); return Value->IsException();`. -/
def TDataBase.IsException (d : TDataBase T E W) : Outcome (TPromiseError E) Bool :=
  match d.Wait with
  | Outcome.Return _ =>
    match d.Value with
    | some v => Outcome.Return v.IsException
    | none => Outcome.Undefined
  | Outcome.Throw e => Outcome.Throw e
  | Outcome.Block => Outcome.Block
  | Outcome.Undefined => Outcome.Undefined

/-- Embeds `TDataBase::GetValue()`: `Wait(); return Value->Get();`.  `Get` runs in the
caller's environment `w` and may change it. -/
def TDataBase.GetValue (d : TDataBase T E W) (w : W) : Outcome (TPromiseError E) T × W :=
  match d.Wait with
  | Outcome.Return _ =>
    match d.Value with
    | some v =>
      match v.Get w with
      | (some (Except.ok t), w1) => (Outcome.Return t, w1)
      | (some (Except.error e), w1) => (Outcome.Throw (TPromiseError.Exception e), w1)
      | (none, w1) => (Outcome.Undefined, w1)
    | none => (Outcome.Undefined, w)
  | Outcome.Throw e => (Outcome.Throw e, w)
  | Outcome.Block => (Outcome.Block, w)
  | Outcome.Undefined => (Outcome.Undefined, w)

/-- Embeds `TDataBase::SetException<E>(E&& exception)` for an rvalue argument: `E`
is deduced as an object type, and `TExceptionWrapper<T, E>` owns the object
`exception` that its member is initialised with. -/
def TDataBase.SetException (d : TDataBase T E W) (exception : E) :
    Outcome (TPromiseError E) Unit × TDataBase T E W :=
  if d.Ready then
    (Outcome.Throw TPromiseError.TPromiseRepeatedAssignmentException, d)
  else
    (Outcome.Return (),
     { d with Value := some (TValue.TExceptionWrapper exception),
              Ready := true,
              ConditionVariable := d.ConditionVariable + 1 })

/-- Embeds `TDataBase::SetException<E>(E&& exception)` for an lvalue argument: `E`
is deduced as an lvalue reference type, so the member `E Exception` of
`TExceptionWrapper<T, E>` is a reference to the caller's object and nothing is
copied into the cell.  `Alive`, `exception` and `Copy` describe that object and
the static type of the argument (see `TValue`). -/
def TDataBase.SetExceptionRef (d : TDataBase T E W) (Alive : W → Bool) (exception : W → E)
    (Copy : E → E) : Outcome (TPromiseError E) Unit × TDataBase T E W :=
  if d.Ready then
    (Outcome.Throw TPromiseError.TPromiseRepeatedAssignmentException, d)
  else
    (Outcome.Return (),
     { d with Value := some (TValue.TExceptionWrapperRef Alive exception Copy),
              Ready := true,
              ConditionVariable := d.ConditionVariable + 1 })

/-- Embeds `TDataBase::SetFunction(function)`. -/
def TDataBase.SetFunction (d : TDataBase T E W) (function : W → Except E T × W) :
    Outcome (TPromiseError E) Unit × TDataBase T E W :=
  if d.Ready then
    (Outcome.Throw TPromiseError.TPromiseRepeatedAssignmentException, d)
  else
    (Outcome.Return (),
     { d with Value := some (TValue.TFunctionWrapper function),
              Ready := true,
              ConditionVariable := d.ConditionVariable + 1 })

/-- Embeds `TDataBase::HandlePromiseDestruction()`. -/
def TDataBase.HandlePromiseDestruction (d : TDataBase T E W) : TDataBase T E W :=
  if !d.Ready then { d with Broken := true } else d

/-- Embeds `TDataGeneric<T>::SetValue(value)`. -/
def TDataGeneric.SetValue (d : TDataGeneric T E W) (value : T) :
    Outcome (TPromiseError E) Unit × TDataGeneric T E W :=
  if d.Ready then
    (Outcome.Throw TPromiseError.TPromiseRepeatedAssignmentException, d)
  else
    (Outcome.Return (),
     { d with Value := some (TValue.TValueWrapper value),
              Ready := true,
              ConditionVariable := d.ConditionVariable + 1 })

/-- Embeds `TDataGeneric<void>::Notify()`. -/
def TDataGeneric.Notify (d : TDataGeneric Unit E W) :
    Outcome (TPromiseError E) Unit × TDataGeneric Unit E W :=
  if d.Ready then
    (Outcome.Return (), d)
  else
    (Outcome.Return (),
     { d with Value := some (TValue.TValueWrapper ()),
              Ready := true,
              ConditionVariable := d.ConditionVariable + 1 })

/-- The cells created by `std::make_shared<TData>()`, by address.  A cell is
kept for good: one without holders can no longer be observed. -/
abbrev Cells (T E W : Type) := List (TDataGeneric T E W)

/-- Embeds `std::make_shared<TData>()`: a new cell at a fresh address. -/
def Cells.make_shared (s : Cells T E W) : Nat × Cells T E W :=
  (s.length, s ++ [TDataBase.ctor])

/-- A call of a const member function through a non-null `shared_ptr`. -/
def Cells.Read {α : Type} (s : Cells T E W) (a : Nat)
    (f : TDataGeneric T E W → Outcome (TPromiseError E) α) : Outcome (TPromiseError E) α :=
  match s[a]? with
  | some d => f d
  | none => Outcome.Undefined

/-- A call of a mutating member function through a non-null `shared_ptr`. -/
def Cells.Call (s : Cells T E W) (a : Nat)
    (f : TDataGeneric T E W → Outcome (TPromiseError E) Unit × TDataGeneric T E W) :
    Outcome (TPromiseError E) Unit × Cells T E W :=
  match s[a]? with
  | some d => ((f d).1, s.set a (f d).2)
  | none => (Outcome.Undefined, s)

/-- Embeds `TFutureGeneric<T>`: it is a `std::shared_ptr<TDataGeneric<T>>`, the address
of its cell or `nullptr` (`none`). -/
structure TFuture where
  Data : Option Nat
  deriving DecidableEq

/-- Embeds `TFutureBase::IsReady()`. -/
def TFuture.IsReady (f : TFuture) (s : Cells T E W) : Outcome (TPromiseError E) Bool :=
  match f.Data with
  | none => Outcome.Throw TPromiseError.TPromiseFutureException
  | some a => s.Read a fun d => Outcome.Return d.IsReady

/-- Embeds `TFutureBase::IsBroken()`. -/
def TFuture.IsBroken (f : TFuture) (s : Cells T E W) : Outcome (TPromiseError E) Bool :=
  match f.Data with
  | none => Outcome.Throw TPromiseError.TPromiseFutureException
  | some a => s.Read a fun d => Outcome.Return d.IsBroken

/-- Embeds `TFutureBase::Wait()`. -/
def TFuture.Wait (f : TFuture) (s : Cells T E W) : Outcome (TPromiseError E) Unit :=
  match f.Data with
  | none => Outcome.Throw TPromiseError.TPromiseFutureException
  | some a => s.Read a fun d => d.Wait

/-- Embeds `TFutureBase::WaitFor(timeout)`. -/
def TFuture.WaitFor (f : TFuture) (timeout : Nat) (s : Cells T E W) :
    Outcome (TPromiseError E) Bool :=
  match f.Data with
  | none => Outcome.Throw TPromiseError.TPromiseFutureException
  | some a => s.Read a fun d => d.WaitFor timeout

/-- Embeds `TFutureBase::IsException()`. -/
def TFuture.IsException (f : TFuture) (s : Cells T E W) : Outcome (TPromiseError E) Bool :=
  match f.Data with
  | none => Outcome.Throw TPromiseError.TPromiseFutureException
  | some a => s.Read a fun d => d.IsException

/-- Embeds `TFutureGeneric<T>::GetValue()`, and `TFutureGeneric<void>::Sync()` at
`T = Unit`. -/
def TFuture.GetValue (f : TFuture) (s : Cells T E W) (w : W) : Outcome (TPromiseError E) T × W :=
  match f.Data with
  | none => (Outcome.Throw TPromiseError.TPromiseFutureException, w)
  | some a =>
    match s[a]? with
    | some d => d.GetValue w
    | none => (Outcome.Undefined, w)

/-- Embeds `TPromiseBase<T>`: its only member is `std::shared_ptr<TData> Data`. -/
structure TPromise where
  Data : Option Nat
  deriving DecidableEq

/-- Embeds `TPromiseBase::TPromiseBase()`: `Data(std::make_shared<TData>())`. -/
def TPromise.ctor (s : Cells T E W) : TPromise × Cells T E W :=
  ({ Data := some s.make_shared.1 }, s.make_shared.2)

/-- Embeds `TPromise::Null()`: `TPromise(nullptr)`. -/
def TPromise.Null : TPromise := { Data := none }

/-- Embeds `TPromiseBase(TPromiseBase&&) = default`: the new promise takes `Data`, the
source is left with `nullptr`.  Returns (new promise, source). -/
def TPromise.moveCtor (other : TPromise) : TPromise × TPromise :=
  ({ Data := other.Data }, { Data := none })

/-- Embeds `TPromiseBase& operator=(TPromiseBase&&) = default` between two distinct
promises: `Data` is move-assigned, so the reference to the previous cell is
dropped without any call on that cell.  Returns (assigned promise, source). -/
def TPromise.moveAssign (_self other : TPromise) : TPromise × TPromise :=
  ({ Data := other.Data }, { Data := none })

/-- Embeds `TPromiseBase::~TPromiseBase()`. -/
def TPromise.dtor (p : TPromise) (s : Cells T E W) : Cells T E W :=
  match p.Data with
  | some a => (s.Call a fun d => (Outcome.Return (), d.HandlePromiseDestruction)).2
  | none => s

/-- Embeds `TPromiseBase::GetFuture()`. -/
def TPromise.GetFuture (p : TPromise) : Outcome (TPromiseError E) TFuture :=
  match p.Data with
  | none => Outcome.Throw TPromiseError.TPromiseException
  | some a => Outcome.Return { Data := some a }

/-- Embeds `TPromiseBase::Throw<E>(E&& exception)` for an rvalue argument, the
object `exception`. -/
def TPromise.Throw (p : TPromise) (exception : E) (s : Cells T E W) :
    Outcome (TPromiseError E) Unit × Cells T E W :=
  match p.Data with
  | none => (Outcome.Throw TPromiseError.TPromiseException, s)
  | some a => s.Call a fun d => d.SetException exception

/-- Embeds `TPromiseBase::Throw<E>(E&& exception)` for an lvalue argument: the
reference is forwarded to `SetException`. -/
def TPromise.ThrowRef (p : TPromise) (Alive : W → Bool) (exception : W → E) (Copy : E → E)
    (s : Cells T E W) : Outcome (TPromiseError E) Unit × Cells T E W :=
  match p.Data with
  | none => (Outcome.Throw TPromiseError.TPromiseException, s)
  | some a => s.Call a fun d => d.SetExceptionRef Alive exception Copy

/-- Embeds `TPromiseBase::SetFunction(function)`. -/
def TPromise.SetFunction (p : TPromise) (function : W → Except E T × W) (s : Cells T E W) :
    Outcome (TPromiseError E) Unit × Cells T E W :=
  match p.Data with
  | none => (Outcome.Throw TPromiseError.TPromiseException, s)
  | some a => s.Call a fun d => d.SetFunction function

/-- Embeds `TPromise<T>::SetValue(value)`. -/
def TPromise.SetValue (p : TPromise) (value : T) (s : Cells T E W) :
    Outcome (TPromiseError E) Unit × Cells T E W :=
  match p.Data with
  | none => (Outcome.Throw TPromiseError.TPromiseException, s)
  | some a => s.Call a fun d => TDataGeneric.SetValue d value

/-- Embeds `TPromise<void>::Complete()`. -/
def TPromise.Complete (p : TPromise) (s : Cells Unit E W) :
    Outcome (TPromiseError E) Unit × Cells Unit E W :=
  match p.Data with
  | none => (Outcome.Throw TPromiseError.TPromiseException, s)
  | some a => s.Call a fun d => TDataGeneric.Notify d

/-- Embeds `TPromiseBase::GetExceptionFuture<E>(E&& exception)` for an rvalue
argument, the object `exception`. -/
def TPromise.GetExceptionFuture (exception : E) (s : Cells T E W) : TFuture × Cells T E W :=
  let data := s.make_shared
  ({ Data := some data.1 }, (data.2.Call data.1 fun d => d.SetException exception).2)

/-- Embeds `TPromiseBase::GetExceptionFuture<E>(E&& exception)` for an lvalue
argument. -/
def TPromise.GetExceptionFutureRef (Alive : W → Bool) (exception : W → E) (Copy : E → E)
    (s : Cells T E W) : TFuture × Cells T E W :=
  let data := s.make_shared
  ({ Data := some data.1 },
   (data.2.Call data.1 fun d => d.SetExceptionRef Alive exception Copy).2)

/-- Embeds `TPromiseBase::GetFutureFromFunction(function)`. -/
def TPromise.GetFutureFromFunction (function : W → Except E T × W) (s : Cells T E W) :
    TFuture × Cells T E W :=
  let data := s.make_shared
  ({ Data := some data.1 }, (data.2.Call data.1 fun d => d.SetFunction function).2)

/-- Embeds `TPromise<T>::GetValueFuture(value)`. -/
def TPromise.GetValueFuture (value : T) (s : Cells T E W) : TFuture × Cells T E W :=
  let data := s.make_shared
  ({ Data := some data.1 }, (data.2.Call data.1 fun d => TDataGeneric.SetValue d value).2)

/-- Embeds `TPromise<void>::GetCompletedFuture()`. -/
def TPromise.GetCompletedFuture (s : Cells Unit E W) : TFuture × Cells Unit E W :=
  let data := s.make_shared
  ({ Data := some data.1 }, (data.2.Call data.1 fun d => TDataGeneric.Notify d).2)

/-- Embeds `TFutureGeneric(TFutureGeneric&&) = default`: the base
`std::shared_ptr` is move-constructed, so the new future takes the cell and the
source is left with `nullptr`.  Returns (new future, source). -/
def TFuture.moveCtor (other : TFuture) : TFuture × TFuture :=
  ({ Data := other.Data }, { Data := none })

/-- Embeds `TFutureGeneric::Share()`:
`std::make_shared<TFutureGeneric>(std::move(*this))`.  Returns (the future the
shared pointer owns, this future afterwards). -/
def TFuture.Share (self : TFuture) : TFuture × TFuture :=
  TFuture.moveCtor self

/-- Embeds `TPromiseBase::IsFulfilled()`: `return Data->IsReady();`.  There is no
test of `Data`: on a promise without a cell the call dereferences a null
`shared_ptr`, which is undefined. -/
def TPromise.IsFulfilled (p : TPromise) (s : Cells T E W) : Outcome (TPromiseError E) Bool :=
  match p.Data with
  | none => Outcome.Undefined
  | some a => s.Read a fun d => Outcome.Return d.IsReady

/-- Embeds `TPromiseBase::operator bool()`: `return bool(Data);`. -/
def TPromise.operatorBool (p : TPromise) : Bool :=
  p.Data.isSome

/-! ### Programs over the handle API

A program owns promise objects and makes calls on them and on futures.  The
calls below are the whole public surface of promise.h; a call on a promise
object that does not exist (never created, or already destroyed) cannot be
written and is skipped. -/

/-- The cells made so far and the promise objects of the program in order of
creation; a destroyed promise object leaves `none`. -/
structure Program (T E W : Type) where
  Cells : Cells T E W
  Promises : List (Option TPromise)

/-- The program that has made no call yet. -/
def Program.init : Program T E W :=
  { Cells := [], Promises := [] }

/-- The live promise object number `i`. -/
def Program.Promise (P : Program T E W) (i : Nat) : Option TPromise :=
  P.Promises[i]?.join

/-- The const member functions of a future. -/
inductive FutureCall where
  | IsReady
  | IsBroken
  | Wait
  | WaitFor (timeout : Nat)
  | IsException
  | GetValue

/-- The calls shared by `TPromise<T>` and `TPromise<void>`: construction,
`Null()`, move construction from promise `i`, move assignment to promise `i`
from promise `j`, destruction of promise `i`, the members of `TPromiseBase`
(`GetFuture`, `IsFulfilled`, `IsWaited` and `operator bool` are const; `Throw`
and `GetExceptionFuture` with an rvalue argument, `ThrowRef` and
`GetExceptionFutureRef` with an lvalue argument), and any const call on any
future. -/
inductive BaseCall (T E W : Type) where
  | ctor
  | Null
  | moveCtor (i : Nat)
  | moveAssign (i j : Nat)
  | dtor (i : Nat)
  | GetFuture (i : Nat)
  | IsFulfilled (i : Nat)
  | IsWaited (i : Nat)
  | operatorBool (i : Nat)
  | Throw (i : Nat) (exception : E)
  | SetFunction (i : Nat) (function : W → Except E T × W)
  | GetExceptionFuture (exception : E)
  | GetFutureFromFunction (function : W → Except E T × W)
  | Future (f : TFuture) (call : FutureCall)
  | ThrowRef (i : Nat) (Alive : W → Bool) (exception : W → E) (Copy : E → E)
  | GetExceptionFutureRef (Alive : W → Bool) (exception : W → E) (Copy : E → E)

/-- The calls of a program over `TPromise<T>`. -/
inductive TypedCall (T E W : Type) where
  | Base (call : BaseCall T E W)
  | SetValue (i : Nat) (value : T)
  | GetValueFuture (value : T)

/-- The calls of a program over `TPromise<void>`. -/
inductive VoidCall (E W : Type) where
  | Base (call : BaseCall Unit E W)
  | Complete (i : Nat)
  | GetCompletedFuture

/-- The effect of a shared call on the cells and the promise objects.  Const
calls (`GetFuture`, `IsFulfilled`, `IsWaited`, `operator bool`, every call on a
future) change neither.  Move assignment of
a promise to itself leaves it as it is. -/
def Program.stepBase (P : Program T E W) : BaseCall T E W → Program T E W
  | BaseCall.ctor =>
    { Cells := (TPromise.ctor P.Cells).2, Promises := P.Promises ++ [some (TPromise.ctor P.Cells).1] }
  | BaseCall.Null =>
    { P with Promises := P.Promises ++ [some TPromise.Null] }
  | BaseCall.moveCtor i =>
    match P.Promise i with
    | some p => { P with Promises := P.Promises.set i (some p.moveCtor.2) ++ [some p.moveCtor.1] }
    | none => P
  | BaseCall.moveAssign i j =>
    match P.Promise i, P.Promise j with
    | some p, some q =>
      if i = j then P
      else { P with Promises := (P.Promises.set i (some (p.moveAssign q).1)).set j
                                  (some (p.moveAssign q).2) }
    | _, _ => P
  | BaseCall.dtor i =>
    match P.Promise i with
    | some p => { Cells := p.dtor P.Cells, Promises := P.Promises.set i none }
    | none => P
  | BaseCall.GetFuture _ => P
  | BaseCall.IsFulfilled _ => P
  | BaseCall.IsWaited _ => P
  | BaseCall.operatorBool _ => P
  | BaseCall.Throw i exception =>
    match P.Promise i with
    | some p => { P with Cells := (p.Throw exception P.Cells).2 }
    | none => P
  | BaseCall.SetFunction i function =>
    match P.Promise i with
    | some p => { P with Cells := (p.SetFunction function P.Cells).2 }
    | none => P
  | BaseCall.GetExceptionFuture exception =>
    { P with Cells := (TPromise.GetExceptionFuture exception P.Cells).2 }
  | BaseCall.GetFutureFromFunction function =>
    { P with Cells := (TPromise.GetFutureFromFunction function P.Cells).2 }
  | BaseCall.Future _ _ => P
  | BaseCall.ThrowRef i Alive exception Copy =>
    match P.Promise i with
    | some p => { P with Cells := (p.ThrowRef Alive exception Copy P.Cells).2 }
    | none => P
  | BaseCall.GetExceptionFutureRef Alive exception Copy =>
    { P with Cells := (TPromise.GetExceptionFutureRef Alive exception Copy P.Cells).2 }

/-- The effect of a call of a program over `TPromise<T>`. -/
def Program.step (P : Program T E W) : TypedCall T E W → Program T E W
  | TypedCall.Base call => P.stepBase call
  | TypedCall.SetValue i value =>
    match P.Promise i with
    | some p => { P with Cells := (p.SetValue value P.Cells).2 }
    | none => P
  | TypedCall.GetValueFuture value =>
    { P with Cells := (TPromise.GetValueFuture value P.Cells).2 }

/-- The effect of a call of a program over `TPromise<void>`. -/
def Program.stepVoid (P : Program Unit E W) : VoidCall E W → Program Unit E W
  | VoidCall.Base call => P.stepBase call
  | VoidCall.Complete i =>
    match P.Promise i with
    | some p => { P with Cells := (p.Complete P.Cells).2 }
    | none => P
  | VoidCall.GetCompletedFuture =>
    { P with Cells := (TPromise.GetCompletedFuture P.Cells).2 }

/-- Run a sequence of calls over `TPromise<T>`. -/
def Program.run (P : Program T E W) (calls : List (TypedCall T E W)) : Program T E W :=
  calls.foldl Program.step P

/-- Run a sequence of calls over `TPromise<void>`. -/
def Program.runVoid (P : Program Unit E W) (calls : List (VoidCall E W)) : Program Unit E W :=
  calls.foldl Program.stepVoid P

/-- The three states of a cell, as the data model names them. -/
inductive CellState where
  | Pending
  | Ready
  | Broken
  deriving DecidableEq

/-- The cell is in the given state: Pending is both flags clear and no stored
result, Ready is the Ready flag alone with a stored result, Broken is the Broken
flag alone and no stored result. -/
def TDataBase.InState (d : TDataBase T E W) : CellState → Bool
  | CellState.Pending => !d.Ready && !d.Broken && d.Value.isNone
  | CellState.Ready => d.Ready && !d.Broken && d.Value.isSome
  | CellState.Broken => d.Broken && !d.Ready && d.Value.isNone

/-- Call `GetValue()` on a future `k` times in a row, collecting what each call
gives and threading the environment. -/
def TFuture.GetValueTimes (f : TFuture) (s : Cells T E W) :
    Nat → W → List (Outcome (TPromiseError E) T) × W
  | 0, w => ([], w)
  | k + 1, w =>
    let r := f.GetValue s w
    let rest := TFuture.GetValueTimes f s k r.2
    (r.1 :: rest.1, rest.2)

/-- A callable instrumented with a call counter: each invocation runs
`function` and adds one to the counter carried next to the environment. -/
def Counted (function : W → Except E T × W) : W × Nat → Except E T × (W × Nat) :=
  fun e => ((function e.1).1, ((function e.1).2, e.2 + 1))

end Promise

end WBMQTT

/-! ## Vocabulary of the statements and worked examples -/

namespace WBMQTT
section Fulfilments
variable {T E W : Type}

/-- A fulfilment call of a typed promise: `SetValue`, `Throw` (with an rvalue
argument) or `SetFunction` with its argument. -/
inductive Fulfilment (T E W : Type) where
  | SetValue (value : T)
  | Throw (exception : E)
  | SetFunction (function : W → Except E T × W)

/-- Make a fulfilment call on a promise. -/
def TPromise.Fulfil (p : TPromise) (s : Cells T E W) :
    Fulfilment T E W → Outcome (TPromiseError E) Unit × Cells T E W
  | Fulfilment.SetValue value => p.SetValue value s
  | Fulfilment.Throw exception => p.Throw exception s
  | Fulfilment.SetFunction function => p.SetFunction function s

/-- Make a sequence of fulfilment calls on a promise, collecting what each call
gives. -/
def TPromise.FulfilAll (p : TPromise) :
    List (Fulfilment T E W) → Cells T E W → List (Outcome (TPromiseError E) Unit) × Cells T E W
  | [], s => ([], s)
  | c :: cs, s =>
    let r := p.Fulfil s c
    let rest := TPromise.FulfilAll p cs r.2
    (r.1 :: rest.1, rest.2)

end Fulfilments
end WBMQTT

namespace WBMQTT
section Retrieval
variable {T E W : Type}

/-- What a retrieval gives once a fulfilment call has been stored: the value,
the exception, or what running the function in the caller's environment gives. -/
def Fulfilment.Result : Fulfilment T E W → W → Outcome (TPromiseError E) T × W
  | Fulfilment.SetValue value, w => (Outcome.Return value, w)
  | Fulfilment.Throw exception, w => (Outcome.Throw (TPromiseError.Exception exception), w)
  | Fulfilment.SetFunction function, w =>
    match function w with
    | (Except.ok t, w1) => (Outcome.Return t, w1)
    | (Except.error e, w1) => (Outcome.Throw (TPromiseError.Exception e), w1)

/-- The environments a callable goes through when invoked `k` times in a row. -/
def Invocations (function : W → Except E T × W) : Nat → W → List (Except E T) × W
  | 0, w => ([], w)
  | k + 1, w =>
    let rest := Invocations function k (function w).2
    ((function w).1 :: rest.1, rest.2)

/-- The outcome of `GetValue()` for a given result of `TValue::Get()`. -/
def Outcome.ofExcept : Except E T → Outcome (TPromiseError E) T
  | Except.ok t => Outcome.Return t
  | Except.error e => Outcome.Throw (TPromiseError.Exception e)

/-- A callable that returns the number of times it has been invoked before and
counts the invocation: the environment is the invocation counter. -/
def CountingFunction : Nat → Except String Nat × Nat :=
  fun n => (Except.ok n, n + 1)

/-- No cell made yet, for a program whose environment is an invocation counter. -/
def NoCells : Cells Nat String Nat := []

/-- No cell made yet, for a program whose environment carries a counter next to
an invocation counter. -/
def NoCellsCounted : Cells Nat String (Nat × Nat) := []

/-- A cell whose promise was destroyed before any fulfilment. -/
def BrokenCell : TDataGeneric Nat String Nat :=
  TDataBase.HandlePromiseDestruction TDataBase.ctor

end Retrieval
end WBMQTT

namespace WBMQTT

/-- The cell a `SetValue(5)` leaves Ready. -/
def ReadyCell : TDataGeneric Nat String Nat :=
  (TDataGeneric.SetValue TDataBase.ctor 5).2

/-- The program that made one promise and called `SetValue(5)` on it. -/
def AfterSetValue : Program Nat String Nat :=
  Program.init.run [TypedCall.Base BaseCall.ctor, TypedCall.SetValue 0 5]

end WBMQTT

namespace WBMQTT
section Invariant
variable {T E W : Type}

/-- Make a fulfilment call on a cell. -/
def TDataBase.Fulfil (d : TDataGeneric T E W) :
    Fulfilment T E W → Outcome (TPromiseError E) Unit × TDataGeneric T E W
  | Fulfilment.SetValue value => TDataGeneric.SetValue d value
  | Fulfilment.Throw exception => d.SetException exception
  | Fulfilment.SetFunction function => d.SetFunction function

/-- The `TValue` a fulfilment call stores. -/
def Fulfilment.Wrapper : Fulfilment T E W → TValue T E W
  | Fulfilment.SetValue value => TValue.TValueWrapper value
  | Fulfilment.Throw exception => TValue.TExceptionWrapper exception
  | Fulfilment.SetFunction function => TValue.TFunctionWrapper function

/-- The cell is well formed: a result is stored exactly when the Ready flag is
set, and the two flags are not both set. -/
def TDataBase.WellFormed (d : TDataBase T E W) : Prop :=
  d.Value.isSome = d.Ready ∧ (d.Ready && d.Broken) = false

/-- The address held by the live promise object number `i`. -/
def Program.Owner (P : Program T E W) (i : Nat) : Option Nat :=
  (P.Promise i).bind TPromise.Data

/-- The invariant of a program: every cell is well formed; a cell held by a
live promise object exists and is not Broken; no two live promise objects hold
the same cell. -/
structure Program.Inv (P : Program T E W) : Prop where
  cells : ∀ (a : Nat) (d : TDataBase T E W), P.Cells[a]? = some d → d.WellFormed
  owned : ∀ (i a : Nat), P.Owner i = some a →
    ∃ d : TDataBase T E W, P.Cells[a]? = some d ∧ d.Broken = false
  unique : ∀ (i j a : Nat), P.Owner i = some a → P.Owner j = some a → i = j

end Invariant

/-- Three C++ types of a 64-bit target, for worked examples: `int`,
`std::string` and `std::array<int, 16>`. -/
inductive CxxType where
  | int
  | string
  | array16
  deriving DecidableEq

instance : Target CxxType where
  Val := fun T => match T with
    | CxxType.int => Int
    | CxxType.string => String
    | CxxType.array16 => List Int
  sizeof := fun T => match T with
    | CxxType.int => 4
    | CxxType.string => 32
    | CxxType.array16 => 64
  NameOfType := fun T => match T with
    | CxxType.int => "int"
    | CxxType.string => "std::string"
    | CxxType.array16 => "std::array<int, 16ul>"
  PointerSize := 8

/-- The bytes of a container that no constructor has touched yet. -/
def RawContainer : TAnyBasic CxxType :=
  { DynamicMemory := 0, DynamicSize := 0, StaticMemory := none, StaticSize := 0,
    IsDynamic := false, Type_ := none }

/-- A world with an empty heap and an empty trace. -/
def FreshWorld : World CxxType :=
  { Heap := [], Next := 1, Trace := [] }

end WBMQTT

/-! ## Vocabulary of the container statements -/

namespace WBMQTT

/-- No cell made yet, for a program over `TPromise<void>`. -/
def NoCellsVoid : Cells Unit String Nat := []

section VoidCalls
variable {E W : Type}

/-- Call `Complete()` on a promise `k` times in a row, collecting what each call
gives. -/
def TPromise.CompleteTimes (p : TPromise) :
    Nat → Cells Unit E W → List (Outcome (TPromiseError E) Unit) × Cells Unit E W
  | 0, s => ([], s)
  | k + 1, s =>
    let r := p.Complete s
    let rest := TPromise.CompleteTimes p k r.2
    (r.1 :: rest.1, rest.2)

end VoidCalls

end WBMQTT

namespace WBMQTT
section AnyVocabulary
variable {Ty : Type} [Target Ty] [DecidableEq Ty]

/-- The offset of `Inner.Static.Size`: it follows the `sizeof Dynamic - 2` bytes
of `Inner.Static.Memory`. -/
def TAnyBasic.offsetofStaticSize (Ty : Type) [Target Ty] : Nat :=
  TAnyBasic.StaticCapacity Ty

/-- The offset of `Inner.Memory.IsDynamic`: it follows the `sizeof Dynamic - 1`
bytes of `Inner.Memory._`. -/
def TAnyBasic.offsetofIsDynamic (Ty : Type) [Target Ty] : Nat :=
  TAnyBasic.sizeofDynamic Ty - 1

/-- The allocator calls of a trace, in order: the size asked for and the block
returned by each `Allocate`. -/
def Allocated : List (Event Ty) → List (Nat × Nat)
  | [] => []
  | Event.Allocate size memory :: t => (size, memory) :: Allocated t
  | _ :: t => Allocated t

/-- The blocks passed to `Free` in a trace, in order. -/
def Freed : List (Event Ty) → List Nat
  | [] => []
  | Event.Free memory :: t => memory :: Freed t
  | _ :: t => Freed t

/-- The calls that the destruction of the payload makes (`DeleteDirty`): none
for an empty container, the destructor of the stored type, and `Free` of the
block for a heap payload. -/
def TAnyBasic.Teardown (self : TAnyBasic Ty) : List (Event Ty) :=
  match self.Type_ with
  | none => []
  | some T =>
    if self.IsDynamic then [Event.Destroy T, Event.Free self.DynamicMemory]
    else [Event.Destroy T]

/-- The calls that storing a new `T` makes: `Allocate(sizeof(T))` returning the
block `memory` when `T` goes to the heap, then the given call of `T`. -/
def Setup (T : Ty) (memory : Nat) (call : Event Ty) : List (Event Ty) :=
  if Target.sizeof T > TAnyBasic.StaticCapacity Ty then
    [Event.Allocate (Target.sizeof T) memory, call]
  else [call]

/-- The container holds the value `v` of type `T` in the world `w`: its
operation table is that of `T`, the object at `Data()` is `v`, `GetSize()` is
`sizeof(T)`, and `Inner.Static.Size` is a byte. -/
def TAnyBasic.Holds (self : TAnyBasic Ty) (T : Ty) (v : Target.Val T) (w : World Ty) : Prop :=
  self.Type_ = some T ∧ self.Data w = some ⟨T, v⟩ ∧ self.GetSize = Target.sizeof T ∧
    self.StaticSize < 256

end AnyVocabulary

instance : StdString CxxType where
  string := CxxType.string
  construct := fun c_string => c_string
  text := fun s => s
  text_construct := fun _ => rfl

end WBMQTT

namespace WBMQTT
section Frames
variable {Ty : Type} [Target Ty] [DecidableEq Ty]

/-- The block at address `m` is kept from `w` to `w1`: the same object lives
there, and the allocator has not gone back. -/
def World.Keeps (m : Nat) (w w1 : World Ty) : Prop :=
  w1.Load m = w.Load m ∧ w.Next ≤ w1.Next

/-- The container does not point to the block at address `m`. -/
def TAnyBasic.Avoids (self : TAnyBasic Ty) (m : Nat) : Prop :=
  self.IsDynamic = true → self.DynamicMemory ≠ m

/-- The invariant of the allocator: every live block was handed out earlier,
so the next block handed out is none of them. -/
def World.Fresh (w : World Ty) : Prop :=
  ∀ e ∈ w.Heap, e.1 < w.Next

instance (w : World Ty) : Decidable w.Fresh := by
  unfold World.Fresh
  infer_instance

end Frames
end WBMQTT

namespace WBMQTT
section Mutations
variable {Ty : Type} [Target Ty] [DecidableEq Ty]

/-- A mutation of a container `b`: an assignment through the reference that
`As<T>()` returns, `Emplace<T>`, the assignment of a value by copy or by move,
the copy assignment or move assignment from some other container, `Clean()`. -/
inductive Mutation (Ty : Type) [Target Ty] where
  | AssignThrough (T : Ty) (value : Target.Val T)
  | Emplace (T : Ty) (object : Target.Val T)
  | assignCopy (T : Ty) (object : Target.Val T)
  | assignMove (T : Ty) (object : Target.Val T)
  | assignCopyAny (rhs : TAnyBasic Ty)
  | assignMoveAny (rhs : TAnyBasic Ty)
  | Clean

/-- Apply a mutation to a container. -/
def TAnyBasic.Mutate (self : TAnyBasic Ty) (w : World Ty) :
    Mutation Ty → TAnyBasic Ty × World Ty
  | Mutation.AssignThrough T value => (self.AssignThrough T value w).2
  | Mutation.Emplace T object => (self.Emplace T object w).2
  | Mutation.assignCopy T object => self.assignCopy T object w
  | Mutation.assignMove T object => self.assignMove T object w
  | Mutation.assignCopyAny rhs => self.assignCopyAny rhs false w
  | Mutation.assignMoveAny rhs =>
    ((self.assignMoveAny rhs false w).1.1, (self.assignMoveAny rhs false w).2)
  | Mutation.Clean => self.Clean w

/-- Apply a sequence of mutations to a container. -/
def TAnyBasic.MutateAll (self : TAnyBasic Ty) (w : World Ty) :
    List (Mutation Ty) → TAnyBasic Ty × World Ty
  | [] => (self, w)
  | μ :: ms => TAnyBasic.MutateAll (self.Mutate w μ).1 (self.Mutate w μ).2 ms

/-- The mutation brings no pointer to the block at address `m`: the container
that a move assignment takes its record from does not point to it. -/
def Mutation.Avoids : Mutation Ty → Nat → Prop
  | Mutation.assignMoveAny rhs, m => rhs.Avoids m
  | _, _ => True

end Mutations
end WBMQTT

namespace WBMQTT

/-- A container constructed from the `std::string` `"hello"` in a fresh world
of the example target (a heap payload), with the world it leaves. -/
def HelloContainer : TAnyBasic CxxType × World CxxType :=
  TAnyBasic.ctorCopy RawContainer CxxType.string ("hello" : String) FreshWorld

/-- A container constructed from the `int` 7 (an inline payload). -/
def IntContainer : TAnyBasic CxxType × World CxxType :=
  TAnyBasic.ctorCopy RawContainer CxxType.int (7 : Int) FreshWorld

end WBMQTT

/-! ## Vocabulary of the handle and container invariants -/

namespace WBMQTT
section HandleVocabulary
variable {E : Type}

/-- Call `GetFuture()` on a promise `n` times in a row, collecting what each
call gives; the call leaves the promise as it is. -/
def TPromise.GetFutureTimes (p : TPromise) : Nat → List (Outcome (TPromiseError E) TFuture)
  | 0 => []
  | n + 1 => p.GetFuture :: TPromise.GetFutureTimes p n

end HandleVocabulary

section ContainerInvariant
variable {Ty : Type} [Target Ty] [DecidableEq Ty]

/-- The storage invariant of a container: it is `Empty()` iff it has no
operation table; an empty container has `GetSize() == 0` and the inline flag;
one that holds a `T` has `GetSize() == sizeof(T)` and the heap flag iff
`GetSize() > StaticCapacity()`. -/
def TAnyBasic.Consistent (self : TAnyBasic Ty) : Prop :=
  (self.Empty = true ↔ self.Type_ = none) ∧
  (self.Empty = true → self.GetSize = 0 ∧ self.IsDynamic = false) ∧
  (∀ T : Ty, self.Type_ = some T →
    self.GetSize = Target.sizeof T ∧
    (self.IsDynamic = true ↔ self.GetSize > TAnyBasic.StaticCapacity Ty))

/-- The calls that a container copy of `rhs` makes to store the new payload:
none for an empty `rhs`; `Allocate(rhs.Inner.Dynamic.Size)` returning `memory`
when `rhs` is on the heap, then the copy constructor of the stored type. -/
def TAnyBasic.CopySetup (rhs : TAnyBasic Ty) (memory : Nat) : List (Event Ty) :=
  match rhs.Type_ with
  | none => []
  | some T =>
    if rhs.IsDynamic then [Event.Allocate rhs.DynamicSize memory, Event.Copy T]
    else [Event.Copy T]

/-- The call stores a payload: an `Allocate`, or a constructor of the payload
type (copy, move or from arguments); not a destructor and not a `Free`. -/
def Event.Stores : Event Ty → Bool
  | Event.Allocate _ _ => true
  | Event.Copy _ => true
  | Event.Move _ => true
  | Event.Construct _ => true
  | _ => false

end ContainerInvariant

/-- The types of a 64-bit target built from `int`, `char`, `std::string` and
`std::array<T, N>`, for worked examples with arrays. -/
inductive TypeExpr where
  | int
  | char
  | string
  | array (T : TypeExpr) (N : Nat)
  deriving DecidableEq

/-- The values of a type: an array is its elements by index. -/
def TypeExpr.Val : TypeExpr → Type
  | TypeExpr.int => Int
  | TypeExpr.char => Char
  | TypeExpr.string => String
  | TypeExpr.array T N => Fin N → TypeExpr.Val T

/-- The `sizeof` of a type. -/
def TypeExpr.sizeof : TypeExpr → Nat
  | TypeExpr.int => 4
  | TypeExpr.char => 1
  | TypeExpr.string => 32
  | TypeExpr.array T N => if N = 0 then 1 else N * TypeExpr.sizeof T

/-- The name of a type. -/
def TypeExpr.NameOfType : TypeExpr → String
  | TypeExpr.int => "int"
  | TypeExpr.char => "char"
  | TypeExpr.string => "std::string"
  | TypeExpr.array T N => "std::array<" ++ TypeExpr.NameOfType T ++ ", " ++ toString N ++ "ul>"

/-- The value-initialised object of a type. -/
def TypeExpr.zero : (T : TypeExpr) → TypeExpr.Val T
  | TypeExpr.int => (0 : Int)
  | TypeExpr.char => Char.ofNat 0
  | TypeExpr.string => ""
  | TypeExpr.array T _ => fun _ => TypeExpr.zero T

instance : Target TypeExpr where
  Val := TypeExpr.Val
  sizeof := TypeExpr.sizeof
  NameOfType := TypeExpr.NameOfType
  PointerSize := 8

instance : StdString TypeExpr where
  string := TypeExpr.string
  construct := fun c_string => c_string
  text := fun s => s
  text_construct := fun _ => rfl

instance : StdArray TypeExpr where
  array := TypeExpr.array
  construct := fun T N => TypeExpr.zero (TypeExpr.array T N)
  get := fun a i => a i
  set := fun a i x => fun j => if j = i then x else a j
  get_set := fun _ _ _ _ => rfl

/-- The bytes of a container that no constructor has touched yet, holding
whatever was there: a heap flag, a type pointer, sizes. -/
def GarbageContainer : TAnyBasic TypeExpr :=
  { DynamicMemory := 7, DynamicSize := 99, StaticMemory := none, StaticSize := 200,
    IsDynamic := true, Type_ := some TypeExpr.int }

/-- A world with an empty heap and an empty trace. -/
def EmptyWorld : World TypeExpr :=
  { Heap := [], Next := 1, Trace := [] }

/-- The C array `int[3]` with the elements 10, 20, 30. -/
def ThreeInts : Fin 3 → Target.Val TypeExpr.int :=
  fun i => ((10 * (i.val + 1) : Nat) : Int)

/-- The C array `int[8]` with the elements 0, 1, ..., 7 (32 bytes: a heap
payload). -/
def EightInts : Fin 8 → Target.Val TypeExpr.int :=
  fun i => ((i.val : Nat) : Int)

end WBMQTT

namespace WBMQTT

/-- The calls of a worked example on the example target: three containers are
constructed (from the C string `"hello"`, from the `int` 7, from an `int[8]`),
the third is moved onto the second, the first is copied onto the third, and
the second is cleaned. -/
def ExampleCalls : List (AnyCall TypeExpr) :=
  [AnyCall.ctorCString GarbageContainer "hello",
   AnyCall.ctorCopy GarbageContainer TypeExpr.int (7 : Int),
   AnyCall.ctorCArray GarbageContainer TypeExpr.int 8 EightInts,
   AnyCall.assignMoveAny 1 2,
   AnyCall.assignCopyAny 2 0,
   AnyCall.Clean 1]

/-- The program after the calls of the worked example. -/
def ExampleProgram : Containers TypeExpr :=
  Containers.init.run ExampleCalls

/-- The record of the first container of the worked example: a `std::string`
in the heap block 0. -/
def HelloObject : TAnyBasic TypeExpr :=
  { DynamicMemory := 0, DynamicSize := 32, StaticMemory := none, StaticSize := 0,
    IsDynamic := true, Type_ := some TypeExpr.string }

/-- The record of the third container of the worked example: the copy of the
`std::string`, in the heap block 2. -/
def HelloCopyObject : TAnyBasic TypeExpr :=
  { DynamicMemory := 2, DynamicSize := 32, StaticMemory := none, StaticSize := 0,
    IsDynamic := true, Type_ := some TypeExpr.string }

end WBMQTT

/-! ## json_utils.h -/

namespace WBMQTT

/-- The members of `Json::Value` (jsoncpp, not part of this repository) that
`JSON::Get` calls: `isMember(key)` and `operator[](key)`. -/
class JsonValue (J : Type) where
  /-- The call `root.isMember(key)`. -/
  isMember : J → String → Bool
  /-- The call `root[key]`. -/
  index : J → String → J

/-- The specialisations `JSON::Is<T>` and `JSON::As<T>` for a type `T`, and the
text of `WBMQTT::NameOfType<T>()`. -/
class JsonType (J : Type) (T : Type) where
  /-- The specialisation `JSON::Is<T>(value)`. -/
  Is : J → Bool
  /-- The specialisation `JSON::As<T>(value)`. -/
  As : J → T
  /-- The text of `WBMQTT::NameOfType<T>()`. -/
  NameOfType : String

/-- The exception classes that `JSON::Get` throws: `std::runtime_error` with its
message. -/
inductive JSON.Exception where
  | runtime_error (what : String)
  deriving DecidableEq

/-- Embeds `JSON::Get<T>(root, key, value)`.  Returns what the call gives and the
variable `value` afterwards. -/
def JSON.Get {J T : Type} [JsonValue J] [JsonType J T] (root : J) (key : String) (value : T) :
    Outcome JSON.Exception Bool × T :=
  if !JsonValue.isMember root key then (Outcome.Return false, value)
  else
    let v := JsonValue.index root key
    if !(JsonType.Is T v) then
      (Outcome.Throw (JSON.Exception.runtime_error
        (key ++ " is not a " ++ JsonType.NameOfType J T ++ " value")), value)
    else (Outcome.Return true, JsonType.As v)

/-- A small JSON document model for worked examples: integers, strings, objects
and null. -/
inductive JsonExample where
  | nullValue
  | intValue (i : Int)
  | stringValue (s : String)
  | objectValue (members : List (String × JsonExample))

/-- The member of an object with the given name, if any. -/
def JsonExample.member : JsonExample → String → Option JsonExample
  | JsonExample.objectValue members, key => members.lookup key
  | _, _ => none

instance : JsonValue JsonExample where
  isMember := fun root key => (root.member key).isSome
  index := fun root key => (root.member key).getD JsonExample.nullValue

instance : JsonType JsonExample Int where
  Is := fun v => match v with
    | JsonExample.intValue _ => true
    | _ => false
  As := fun v => match v with
    | JsonExample.intValue i => i
    | _ => 0
  NameOfType := "int"

/-- The document with the members `"n": 42` and `"s": "text"`. -/
def ExampleRoot : JsonExample :=
  JsonExample.objectValue
    [("n", JsonExample.intValue 42), ("s", JsonExample.stringValue "text")]

/-- The program that made two promises. -/
def TwoPromises : Program Nat String Nat :=
  Program.init.run [TypedCall.Base BaseCall.ctor, TypedCall.Base BaseCall.ctor]

end WBMQTT

/-! ## Vocabulary of the ownership of heap blocks -/

namespace WBMQTT
section Ownership
variable {Ty : Type} [Target Ty] [DecidableEq Ty]

/-- The heap block a container owns: `Inner.Dynamic.Memory` when it is in heap
state. -/
def TAnyBasic.Block (self : TAnyBasic Ty) : Option Nat :=
  if self.IsDynamic then some self.DynamicMemory else none

/-- The blocks owned by the live containers of a program, one entry for each
live container in heap state, in order of the objects. -/
def Containers.Owned (M : Containers Ty) : List Nat :=
  M.Objects.filterMap fun o => o.bind TAnyBasic.Block

/-- The blocks that are allocated and not freed. -/
def World.Blocks (w : World Ty) : List Nat :=
  w.Heap.map Prod.fst

/-- The blocks returned by the `Allocate` calls of a trace, in order. -/
def AllocatedBlocks (t : List (Event Ty)) : List Nat :=
  (Allocated t).map Prod.snd

/-- Every container object of the program has been destroyed. -/
def Containers.AllDestroyed (M : Containers Ty) : Prop :=
  ∀ o ∈ M.Objects, o = none

/-- From `w` to `w1` the block `m` (if any) was freed, once, and nothing else
happened to the allocator. -/
def World.Frees (w w1 : World Ty) (m : Option Nat) : Prop :=
  w1.Next = w.Next ∧ AllocatedBlocks w1.Trace = AllocatedBlocks w.Trace ∧
  Freed w1.Trace = Freed w.Trace ++ m.toList ∧
  ∀ k, w1.Blocks.count k = if m = some k then 0 else w.Blocks.count k

/-- From `w` to `w1` the block `b` (if any) was allocated, as the next block of
the allocator, and nothing else happened to the allocator. -/
def World.Allocs (w w1 : World Ty) (b : Option Nat) : Prop :=
  (b = none ∨ b = some w.Next) ∧ w1.Next = w.Next + b.toList.length ∧
  AllocatedBlocks w1.Trace = AllocatedBlocks w.Trace ++ b.toList ∧
  Freed w1.Trace = Freed w.Trace ∧ w1.Blocks = b.toList ++ w.Blocks

/-- The ledger of a program balances: a block is allocated at most once and
before the allocator's next block; a block is live exactly as often as live
containers own it; every allocated block is freed or live, not both and not
twice; an empty container is not in heap state. -/
structure Containers.Balanced (M : Containers Ty) : Prop where
  fresh : ∀ k, M.World.Next ≤ k → (AllocatedBlocks M.World.Trace).count k = 0
  owned : ∀ k, M.Owned.count k = M.World.Blocks.count k
  once : ∀ k, (AllocatedBlocks M.World.Trace).count k ≤ 1
  ledger : ∀ k, (AllocatedBlocks M.World.Trace).count k =
    (Freed M.World.Trace).count k + M.World.Blocks.count k
  typed : ∀ x : TAnyBasic Ty, some x ∈ M.Objects → x.Type_ = none → x.IsDynamic = false

end Ownership
end WBMQTT

/-! ## Vocabulary of the error examples -/

namespace WBMQTT

end WBMQTT

/-! # Theorems -/

namespace WBMQTT
section HeapLemmas
variable {Ty : Type} [Target Ty]

theorem World.Load_Store_Allocate (size : Nat) (w : World Ty) (e : Event Ty)
    (o : Option (Object Ty)) :
    (((Allocator.Allocate size w).2.Log e).Store (Allocator.Allocate size w).1 o).Load
      (Allocator.Allocate size w).1 = o := by
  simp only [World.Load, World.Store, World.Log, Allocator.Allocate, List.map_cons, if_true,
    List.lookup_cons, beq_self_eq_true, Option.some_bind]

end HeapLemmas

section AnyProofs
variable {Ty : Type} [Target Ty] [DecidableEq Ty]

theorem Object.Cast_mk (T : Ty) (v : Target.Val T) : Object.Cast T (Object.mk T v) = some v := by
  simp [Object.Cast]

theorem TAnyBasic.Copy_Is_As (self : TAnyBasic Ty) (T : Ty) (v : Target.Val T) (w : World Ty) :
    (self.Copy T v w).1.Type_ = some T ∧
      (self.Copy T v w).1.As T (self.Copy T v w).2 = Outcome.Return v := by
  unfold TAnyBasic.Copy
  split
  · simp [TAnyBasic.CopyDynamic, TAnyBasic.InitDynamic, TAnyBasic.Is, TAnyBasic.As,
      TAnyBasic.Empty, TAnyBasic.Data, TTypeWrapper.Copy, Object.Cast_mk,
      World.Load_Store_Allocate]
  · simp [TAnyBasic.CopyStatic, TAnyBasic.InitStatic, TAnyBasic.Is, TAnyBasic.As,
      TAnyBasic.Empty, TAnyBasic.Data, TTypeWrapper.Copy, Object.Cast_mk]

theorem TAnyBasic.Move_Is_As (self : TAnyBasic Ty) (T : Ty) (v : Target.Val T) (w : World Ty) :
    (self.Move T v w).1.Type_ = some T ∧
      (self.Move T v w).1.As T (self.Move T v w).2 = Outcome.Return v := by
  unfold TAnyBasic.Move
  split
  · simp [TAnyBasic.MoveDynamic, TAnyBasic.InitDynamic, TAnyBasic.Is, TAnyBasic.As,
      TAnyBasic.Empty, TAnyBasic.Data, TTypeWrapper.Move, Object.Cast_mk,
      World.Load_Store_Allocate]
  · simp [TAnyBasic.MoveStatic, TAnyBasic.InitStatic, TAnyBasic.Is, TAnyBasic.As,
      TAnyBasic.Empty, TAnyBasic.Data, TTypeWrapper.Move, Object.Cast_mk]

theorem TAnyBasic.Is_of_Type (self : TAnyBasic Ty) (T : Ty) (h : self.Type_ = some T) :
    self.Is T = true := by
  simp [TAnyBasic.Is, h]

theorem TAnyBasic.As_mismatch (self : TAnyBasic Ty) (T U : Ty) (h : self.Type_ = some T)
    (hne : T ≠ U) (w : World Ty) :
    self.As U w = Outcome.Throw
      (TAnyCastError.TAnyTypesMismatchError (Target.NameOfType T) (Target.NameOfType U)) := by
  simp [TAnyBasic.As, TAnyBasic.Empty, TAnyBasic.Is, h, hne]

/-- C1. Round trip: for every type `T`, of any size, and every value `v` of `T`, a container
constructed from `v` by copy or by move, or assigned from `v` by copy or by move over any
previous content, satisfies `Is<T>() == true` and `As<T>()` returns `v`. -/
theorem C1_round_trip (T : Ty) (v : Target.Val T) (raw self : TAnyBasic Ty) (w : World Ty) :
    ((TAnyBasic.ctorCopy raw T v w).1.Is T = true ∧
      (TAnyBasic.ctorCopy raw T v w).1.As T (TAnyBasic.ctorCopy raw T v w).2 = Outcome.Return v) ∧
    ((TAnyBasic.ctorMove raw T v w).1.Is T = true ∧
      (TAnyBasic.ctorMove raw T v w).1.As T (TAnyBasic.ctorMove raw T v w).2 = Outcome.Return v) ∧
    ((self.assignCopy T v w).1.Is T = true ∧
      (self.assignCopy T v w).1.As T (self.assignCopy T v w).2 = Outcome.Return v) ∧
    ((self.assignMove T v w).1.Is T = true ∧
      (self.assignMove T v w).1.As T (self.assignMove T v w).2 = Outcome.Return v) := by
  refine ⟨⟨?_, ?_⟩, ⟨?_, ?_⟩, ⟨?_, ?_⟩, ⟨?_, ?_⟩⟩
  · exact TAnyBasic.Is_of_Type _ T (TAnyBasic.Copy_Is_As _ T v w).1
  · exact (TAnyBasic.Copy_Is_As _ T v w).2
  · exact TAnyBasic.Is_of_Type _ T (TAnyBasic.Move_Is_As _ T v w).1
  · exact (TAnyBasic.Move_Is_As _ T v w).2
  · exact TAnyBasic.Is_of_Type _ T (TAnyBasic.Copy_Is_As _ T v _).1
  · exact (TAnyBasic.Copy_Is_As _ T v _).2
  · exact TAnyBasic.Is_of_Type _ T (TAnyBasic.Move_Is_As _ T v _).1
  · exact (TAnyBasic.Move_Is_As _ T v _).2

/-- C2. Type safety of `As`: for distinct types `T` and `U` and every value `v` of `T`,
`As<U>()` on a container constructed or assigned from `v` (by copy or by move) throws
`TAnyTypesMismatchError` built from the name of the stored type `T` and the name of the
requested type `U`, in that order; it returns nothing. -/
theorem C2_type_safety (T U : Ty) (hne : T ≠ U) (v : Target.Val T) (raw self : TAnyBasic Ty)
    (w : World Ty) :
    (TAnyBasic.ctorCopy raw T v w).1.As U (TAnyBasic.ctorCopy raw T v w).2 =
      Outcome.Throw
        (TAnyCastError.TAnyTypesMismatchError (Target.NameOfType T) (Target.NameOfType U)) ∧
    (TAnyBasic.ctorMove raw T v w).1.As U (TAnyBasic.ctorMove raw T v w).2 =
      Outcome.Throw
        (TAnyCastError.TAnyTypesMismatchError (Target.NameOfType T) (Target.NameOfType U)) ∧
    (self.assignCopy T v w).1.As U (self.assignCopy T v w).2 =
      Outcome.Throw
        (TAnyCastError.TAnyTypesMismatchError (Target.NameOfType T) (Target.NameOfType U)) ∧
    (self.assignMove T v w).1.As U (self.assignMove T v w).2 =
      Outcome.Throw
        (TAnyCastError.TAnyTypesMismatchError (Target.NameOfType T) (Target.NameOfType U)) := by
  refine ⟨?_, ?_, ?_, ?_⟩
  · exact TAnyBasic.As_mismatch _ T U (TAnyBasic.Copy_Is_As _ T v w).1 hne _
  · exact TAnyBasic.As_mismatch _ T U (TAnyBasic.Move_Is_As _ T v w).1 hne _
  · exact TAnyBasic.As_mismatch _ T U (TAnyBasic.Copy_Is_As _ T v _).1 hne _
  · exact TAnyBasic.As_mismatch _ T U (TAnyBasic.Move_Is_As _ T v _).1 hne _

end AnyProofs

/-- C2 at a concrete input: an `int` 42 copied into a container, read as `std::string`. -/
theorem C2_type_safety_witness :
    CxxType.int ≠ CxxType.string ∧
    (TAnyBasic.ctorCopy RawContainer CxxType.int (42 : Int) FreshWorld).1.As CxxType.string
        (TAnyBasic.ctorCopy RawContainer CxxType.int (42 : Int) FreshWorld).2 =
      Outcome.Throw (TAnyCastError.TAnyTypesMismatchError "int" "std::string") :=
  ⟨by decide,
   (C2_type_safety CxxType.int CxxType.string (by decide) (42 : Int) RawContainer RawContainer
     FreshWorld).1⟩


end WBMQTT

namespace WBMQTT
section CellLemmas
variable {T E W : Type}

theorem Cells.Call_get (s : Cells T E W) (a b : Nat)
    (f : TDataGeneric T E W → Outcome (TPromiseError E) Unit × TDataGeneric T E W) :
    (s.Call a f).2[b]? = if a = b then s[a]?.map (fun d => (f d).2) else s[b]? := by
  unfold Cells.Call
  cases h : s[a]? with
  | none =>
    by_cases hab : a = b
    · subst hab; simp [h]
    · simp [hab]
  | some d =>
    have hlt : a < s.length := (List.getElem?_eq_some.mp h).1
    by_cases hab : a = b
    · subst hab; simp [List.getElem?_set, hlt]
    · simp [List.getElem?_set, hab]

theorem Cells.make_shared_get (s : Cells T E W) (b : Nat) :
    s.make_shared.2[b]? = if b < s.length then s[b]? else if b = s.length then some TDataBase.ctor else none := by
  unfold Cells.make_shared
  simp only [List.getElem?_append]
  split
  · rfl
  · rename_i h
    by_cases hb : b = s.length
    · subst hb; simp
    · have : 0 < b - s.length := by omega
      simp [hb]
      omega

theorem TDataBase.ctor_WellFormed : (TDataBase.ctor : TDataBase T E W).WellFormed := by
  simp [TDataBase.WellFormed, TDataBase.ctor]

theorem TDataBase.SetException_safe (d : TDataBase T E W) (e : E) (h : d.WellFormed) (hb : d.Broken = false) :
    (d.SetException e).2.WellFormed ∧ (d.SetException e).2.Broken = false := by
  unfold TDataBase.SetException
  split <;> simp_all [TDataBase.WellFormed]

theorem TDataBase.SetExceptionRef_safe (d : TDataBase T E W) (Alive : W → Bool)
    (e : W → E) (Copy : E → E) (h : d.WellFormed) (hb : d.Broken = false) :
    (d.SetExceptionRef Alive e Copy).2.WellFormed ∧
      (d.SetExceptionRef Alive e Copy).2.Broken = false := by
  unfold TDataBase.SetExceptionRef
  split <;> simp_all [TDataBase.WellFormed]

theorem TDataBase.SetFunction_safe (d : TDataBase T E W) (f : W → Except E T × W) (h : d.WellFormed) (hb : d.Broken = false) :
    (d.SetFunction f).2.WellFormed ∧ (d.SetFunction f).2.Broken = false := by
  unfold TDataBase.SetFunction
  split <;> simp_all [TDataBase.WellFormed]

theorem TDataGeneric.SetValue_safe (d : TDataBase T E W) (v : T) (h : d.WellFormed) (hb : d.Broken = false) :
    (TDataGeneric.SetValue d v).2.WellFormed ∧ (TDataGeneric.SetValue d v).2.Broken = false := by
  unfold TDataGeneric.SetValue
  split <;> simp_all [TDataBase.WellFormed]

theorem TDataGeneric.Notify_safe (d : TDataBase Unit E W) (h : d.WellFormed) (hb : d.Broken = false) :
    (TDataGeneric.Notify d).2.WellFormed ∧ (TDataGeneric.Notify d).2.Broken = false := by
  unfold TDataGeneric.Notify
  split <;> simp_all [TDataBase.WellFormed]

theorem TDataBase.HandlePromiseDestruction_WellFormed (d : TDataBase T E W) (h : d.WellFormed) :
    d.HandlePromiseDestruction.WellFormed := by
  unfold TDataBase.HandlePromiseDestruction
  split <;> simp_all [TDataBase.WellFormed]

/-- A write through an owned address by a function that keeps a well-formed unbroken cell so. -/
theorem Program.Inv_Call (P : Program T E W) (hP : P.Inv) (i a : Nat) (ho : P.Owner i = some a)
    (f : TDataGeneric T E W → Outcome (TPromiseError E) Unit × TDataGeneric T E W)
    (hf : ∀ d : TDataBase T E W, d.WellFormed → d.Broken = false → (f d).2.WellFormed ∧ (f d).2.Broken = false) :
    Program.Inv { P with Cells := (P.Cells.Call a f).2 } := by
  obtain ⟨d0, hd0, hb0⟩ := hP.owned i a ho
  have hw0 := hP.cells a d0 hd0
  refine ⟨?_, ?_, ?_⟩
  · intro b d hb
    simp only [Cells.Call_get] at hb
    split at hb
    · simp [hd0] at hb
      rw [← hb]; exact (hf d0 hw0 hb0).1
    · exact hP.cells b d hb
  · intro j b hj
    have hj' : P.Owner j = some b := hj
    obtain ⟨d, hd, hbd⟩ := hP.owned j b hj'
    simp only [Cells.Call_get]
    split
    · rename_i hab; subst hab
      simp [hd0]
      exact (hf d0 hw0 hb0).2
    · exact ⟨d, hd, hbd⟩
  · intro j k b hj hk
    exact hP.unique j k b hj hk

end CellLemmas
end WBMQTT

namespace WBMQTT
section HandleLemmas
variable {T E W : Type}

theorem Program.Owner_eq (P : Program T E W) (i : Nat) :
    P.Owner i = (P.Promises[i]?.join).bind TPromise.Data := rfl

theorem Program.Owner_lt (P : Program T E W) (i a : Nat) (h : P.Owner i = some a) :
    i < P.Promises.length := by
  rw [Program.Owner_eq] at h
  by_contra hlt
  rw [List.getElem?_eq_none (by omega)] at h
  simp at h

theorem Program.Promise_Owner (P : Program T E W) (i : Nat) (p : TPromise) (h : P.Promise i = some p) :
    P.Owner i = p.Data := by
  simp [Program.Owner, h]

theorem Program.Promise_lt (P : Program T E W) (i : Nat) (p : TPromise) (h : P.Promise i = some p) :
    i < P.Promises.length := by
  unfold Program.Promise at h
  by_contra hlt
  rw [List.getElem?_eq_none (by omega)] at h
  simp at h

/-- Changing only the promise objects keeps the invariant when no new address becomes owned and
ownership stays exclusive. -/
theorem Program.Inv_Promises (P : Program T E W) (hP : P.Inv) (ps : List (Option TPromise))
    (h : ∀ j a, Program.Owner { P with Promises := ps } j = some a → ∃ i, P.Owner i = some a)
    (hu : ∀ j k a, Program.Owner { P with Promises := ps } j = some a →
      Program.Owner { P with Promises := ps } k = some a → j = k) :
    Program.Inv { P with Promises := ps } := by
  refine ⟨hP.cells, ?_, hu⟩
  intro j a hj
  obtain ⟨i, hi⟩ := h j a hj
  exact hP.owned i a hi

theorem Program.Owner_append (P : Program T E W) (x : Option TPromise) (j : Nat) (cs : WBMQTT.Cells T E W) :
    Program.Owner { Cells := cs, Promises := P.Promises ++ [x] } j =
      if j < P.Promises.length then P.Owner j
      else if j = P.Promises.length then x.bind TPromise.Data else none := by
  simp only [Program.Owner, Program.Promise, List.getElem?_append]
  split
  · rfl
  · rename_i hlt
    by_cases hj : j = P.Promises.length
    · subst hj; simp
    · have : 0 < j - P.Promises.length := by omega
      simp [hj]
      rw [List.getElem?_eq_none (by simp; omega)]
      simp

theorem Program.Owner_set (P : Program T E W) (i : Nat) (x : Option TPromise) (j : Nat) (cs : WBMQTT.Cells T E W)
    (hi : i < P.Promises.length) :
    Program.Owner { Cells := cs, Promises := P.Promises.set i x } j =
      if i = j then x.bind TPromise.Data else P.Owner j := by
  simp only [Program.Owner, Program.Promise, List.getElem?_set, hi, if_true]
  split <;> simp

theorem Program.Inv_Null (P : Program T E W) (hP : P.Inv) :
    (P.stepBase BaseCall.Null).Inv := by
  have key : ∀ j a, Program.Owner { P with Promises := P.Promises ++ [some TPromise.Null] } j = some a →
      P.Owner j = some a := by
    intro j a hj
    rw [Program.Owner_append] at hj
    split at hj
    · exact hj
    · split at hj <;> simp [TPromise.Null] at hj
  apply Program.Inv_Promises P hP
  · intro j a hj; exact ⟨j, key j a hj⟩
  · intro j k a hj hk; exact hP.unique j k a (key j a hj) (key k a hk)

theorem Program.Inv_moveCtor (P : Program T E W) (hP : P.Inv) (i : Nat) :
    (P.stepBase (BaseCall.moveCtor i)).Inv := by
  cases hp : P.Promise i with
  | none => simpa [Program.stepBase, hp] using hP
  | some p =>
    simp only [Program.stepBase, hp]
    have hlt := P.Promise_lt i p hp
    have hpo := P.Promise_Owner i p hp
    simp only [TPromise.moveCtor]
    have key : ∀ j a, Program.Owner { P with Promises := P.Promises.set i (some { Data := none }) ++ [some { Data := p.Data }] } j = some a →
        (j < P.Promises.length ∧ j ≠ i ∧ P.Owner j = some a) ∨ (j = P.Promises.length ∧ P.Owner i = some a) := by
      intro j a hj
      have := Program.Owner_append { P with Promises := P.Promises.set i (some { Data := none }) } (some { Data := p.Data }) j P.Cells
      simp only [List.length_set] at this
      rw [this] at hj
      split at hj
      · rename_i hjl
        rw [Program.Owner_set P i _ j P.Cells hlt] at hj
        split at hj
        · simp at hj
        · rename_i hne
          exact Or.inl ⟨hjl, fun h => hne h.symm, hj⟩
      · split at hj
        · rename_i hje
          right; refine ⟨hje, ?_⟩
          rw [hpo]; simpa using hj
        · simp at hj
    apply Program.Inv_Promises P hP
    · intro j a hj
      rcases key j a hj with ⟨_, _, h⟩ | ⟨_, h⟩
      · exact ⟨j, h⟩
      · exact ⟨i, h⟩
    · intro j k a hj hk
      rcases key j a hj with ⟨h1, h2, h3⟩ | ⟨h1, h3⟩ <;> rcases key k a hk with ⟨g1, g2, g3⟩ | ⟨g1, g3⟩
      · exact hP.unique j k a h3 g3
      · exact absurd (hP.unique j i a h3 g3) h2
      · exact absurd (hP.unique k i a g3 h3) g2
      · omega

theorem Program.Inv_moveAssign (P : Program T E W) (hP : P.Inv) (i j : Nat) :
    (P.stepBase (BaseCall.moveAssign i j)).Inv := by
  cases hp : P.Promise i with
  | none => simpa [Program.stepBase, hp] using hP
  | some p =>
    cases hq : P.Promise j with
    | none => simpa [Program.stepBase, hp, hq] using hP
    | some q =>
      simp only [Program.stepBase, hp, hq]
      split
      · exact hP
      · rename_i hij
        have hlti := P.Promise_lt i p hp
        have hltj := P.Promise_lt j q hq
        have hqo := P.Promise_Owner j q hq
        simp only [TPromise.moveAssign]
        have key : ∀ k a, Program.Owner { P with Promises := (P.Promises.set i (some { Data := q.Data })).set j (some { Data := none }) } k = some a →
            k ≠ j ∧ ((k = i ∧ P.Owner j = some a) ∨ (k ≠ i ∧ P.Owner k = some a)) := by
          intro k a hk
          have h1 := Program.Owner_set { P with Promises := P.Promises.set i (some { Data := q.Data }) } j (some { Data := none }) k P.Cells
            (by simpa using hltj)
          rw [h1] at hk
          split at hk
          · simp at hk
          · rename_i hjk
            refine ⟨fun h => hjk h.symm, ?_⟩
            rw [Program.Owner_set P i _ k P.Cells hlti] at hk
            split at hk
            · rename_i hik
              left; refine ⟨hik.symm, ?_⟩
              rw [hqo]; simpa using hk
            · rename_i hik
              right; exact ⟨fun h => hik h.symm, hk⟩
        apply Program.Inv_Promises P hP
        · intro k a hk
          rcases (key k a hk).2 with ⟨_, h⟩ | ⟨_, h⟩
          · exact ⟨j, h⟩
          · exact ⟨k, h⟩
        · intro k l a hk hl
          obtain ⟨hkj, hk'⟩ := key k a hk
          obtain ⟨hlj, hl'⟩ := key l a hl
          rcases hk' with ⟨h1, h2⟩ | ⟨h1, h2⟩ <;> rcases hl' with ⟨g1, g2⟩ | ⟨g1, g2⟩
          · omega
          · exact absurd (hP.unique l j a g2 h2) hlj
          · exact absurd (hP.unique k j a h2 g2) hkj
          · exact hP.unique k l a h2 g2

end HandleLemmas
end WBMQTT

namespace WBMQTT
section InvariantSteps
variable {T E W : Type}

/-- A new cell at a fresh address, well formed after the call made on it, owned by nobody. -/
theorem Program.Inv_make_shared (P : Program T E W) (hP : P.Inv)
    (f : TDataGeneric T E W → Outcome (TPromiseError E) Unit × TDataGeneric T E W)
    (hf : (f TDataBase.ctor).2.WellFormed) :
    Program.Inv { P with Cells := (P.Cells.make_shared.2.Call P.Cells.make_shared.1 f).2 } := by
  have hget : ∀ b, (P.Cells.make_shared.2.Call P.Cells.make_shared.1 f).2[b]? =
      if b < P.Cells.length then P.Cells[b]? else
        if b = P.Cells.length then some (f TDataBase.ctor).2 else none := by
    intro b
    rw [Cells.Call_get]
    simp only [Cells.make_shared_get]
    have h1 : P.Cells.make_shared.1 = P.Cells.length := rfl
    rw [h1]
    by_cases hb : P.Cells.length = b
    · subst hb; simp
    · have hb2 : ¬ b = P.Cells.length := fun h => hb h.symm
      simp [hb, hb2]
  refine ⟨?_, ?_, hP.unique⟩
  · intro b d hb
    rw [hget] at hb
    split at hb
    · exact hP.cells b d hb
    · split at hb
      · simp at hb; rw [← hb]; exact hf
      · simp at hb
  · intro j b hj
    obtain ⟨d, hd, hbd⟩ := hP.owned j b hj
    have hlt : b < P.Cells.length := (List.getElem?_eq_some.mp hd).1
    refine ⟨d, ?_, hbd⟩
    show (P.Cells.make_shared.2.Call P.Cells.make_shared.1 f).2[b]? = some d
    rw [hget]; simp [hlt, hd]

theorem Program.Inv_ctor (P : Program T E W) (hP : P.Inv) :
    (P.stepBase BaseCall.ctor).Inv := by
  simp only [Program.stepBase, TPromise.ctor]
  have hget : ∀ b, P.Cells.make_shared.2[b]? =
      if b < P.Cells.length then P.Cells[b]? else
        if b = P.Cells.length then some TDataBase.ctor else none := Cells.make_shared_get P.Cells
  have hown : ∀ j a, Program.Owner (Program.mk P.Cells.make_shared.2
        (P.Promises ++ [some { Data := some P.Cells.make_shared.1 }])) j = some a →
      (P.Owner j = some a) ∨ (j = P.Promises.length ∧ a = P.Cells.length) := by
    intro j a hj
    rw [Program.Owner_append] at hj
    split at hj
    · exact Or.inl hj
    · split at hj
      · rename_i hje
        right; refine ⟨hje, ?_⟩
        have : P.Cells.make_shared.1 = P.Cells.length := rfl
        simp [this] at hj
        exact hj.symm
      · simp at hj
  have hbound : ∀ j a, P.Owner j = some a → a < P.Cells.length := by
    intro j a hj
    obtain ⟨d, hd, _⟩ := hP.owned j a hj
    exact (List.getElem?_eq_some.mp hd).1
  refine ⟨?_, ?_, ?_⟩
  · intro b d hb
    have hb' : P.Cells.make_shared.2[b]? = some d := hb
    rw [hget] at hb'
    split at hb'
    · exact hP.cells b d hb'
    · split at hb'
      · simp at hb'; rw [← hb']; exact TDataBase.ctor_WellFormed
      · simp at hb'
  · intro j a hj
    show ∃ d : TDataBase T E W, P.Cells.make_shared.2[a]? = some d ∧ d.Broken = false
    rcases hown j a hj with h | ⟨_, h⟩
    · obtain ⟨d, hd, hbd⟩ := hP.owned j a h
      have hlt : a < P.Cells.length := (List.getElem?_eq_some.mp hd).1
      exact ⟨d, by rw [hget]; simp [hlt, hd], hbd⟩
    · subst h
      exact ⟨TDataBase.ctor, by rw [hget]; simp, rfl⟩
  · intro j k a hj hk
    rcases hown j a hj with h | ⟨h1, h2⟩ <;> rcases hown k a hk with g | ⟨g1, g2⟩
    · exact hP.unique j k a h g
    · have := hbound j a h; omega
    · have := hbound k a g; omega
    · omega

theorem Program.Inv_dtor (P : Program T E W) (hP : P.Inv) (i : Nat) :
    (P.stepBase (BaseCall.dtor i)).Inv := by
  cases hp : P.Promise i with
  | none => simpa [Program.stepBase, hp] using hP
  | some p =>
    simp only [Program.stepBase, hp]
    have hlt := P.Promise_lt i p hp
    have hpo := P.Promise_Owner i p hp
    have hown : ∀ j a, Program.Owner { Cells := p.dtor P.Cells, Promises := P.Promises.set i none } j = some a →
        j ≠ i ∧ P.Owner j = some a := by
      intro j a hj
      rw [Program.Owner_set P i _ j _ hlt] at hj
      split at hj
      · simp at hj
      · rename_i hne; exact ⟨fun h => hne h.symm, hj⟩
    cases hd : p.Data with
    | none =>
      have hc : p.dtor P.Cells = P.Cells := by simp [TPromise.dtor, hd]
      rw [hc] at hown ⊢
      refine ⟨hP.cells, ?_, ?_⟩
      · intro j a hj; exact hP.owned j a (hown j a hj).2
      · intro j k a hj hk; exact hP.unique j k a (hown j a hj).2 (hown k a hk).2
    | some c =>
      have hc : p.dtor P.Cells = (P.Cells.Call c fun d => (Outcome.Return (), d.HandlePromiseDestruction)).2 := by
        simp [TPromise.dtor, hd]
      rw [hc] at hown ⊢
      rw [hd] at hpo
      refine ⟨?_, ?_, ?_⟩
      · intro b d hb
        have hb' : (P.Cells.Call c fun d => (Outcome.Return (), d.HandlePromiseDestruction)).2[b]? = some d := hb
        rw [Cells.Call_get] at hb'
        split at hb'
        · cases hcell : P.Cells[c]? with
          | none => simp [hcell] at hb'
          | some d0 =>
            simp [hcell] at hb'
            rw [← hb']
            exact TDataBase.HandlePromiseDestruction_WellFormed d0 (hP.cells c d0 hcell)
        · exact hP.cells b d hb'
      · intro j a hj
        obtain ⟨hji, hja⟩ := hown j a hj
        obtain ⟨d, hd, hbd⟩ := hP.owned j a hja
        refine ⟨d, ?_, hbd⟩
        show (P.Cells.Call c fun d => (Outcome.Return (), d.HandlePromiseDestruction)).2[a]? = some d
        rw [Cells.Call_get]
        have hca : c ≠ a := by
          intro h; subst h
          exact hji (hP.unique j i c hja hpo)
        simp [hca, hd]
      · intro j k a hj hk
        exact hP.unique j k a (hown j a hj).2 (hown k a hk).2

theorem Program.Inv_stepBase (P : Program T E W) (hP : P.Inv) (call : BaseCall T E W) :
    (P.stepBase call).Inv := by
  cases call with
  | ctor => exact P.Inv_ctor hP
  | Null => exact P.Inv_Null hP
  | moveCtor i => exact P.Inv_moveCtor hP i
  | moveAssign i j => exact P.Inv_moveAssign hP i j
  | dtor i => exact P.Inv_dtor hP i
  | GetFuture i => exact hP
  | IsFulfilled i => exact hP
  | IsWaited i => exact hP
  | operatorBool i => exact hP
  | Throw i e =>
    cases hp : P.Promise i with
    | none => simpa [Program.stepBase, hp] using hP
    | some p =>
      simp only [Program.stepBase, hp]
      cases hd : p.Data with
      | none => simpa [TPromise.Throw, hd] using hP
      | some a =>
        simp only [TPromise.Throw, hd]
        have ho : P.Owner i = some a := by rw [P.Promise_Owner i p hp, hd]
        exact P.Inv_Call hP i a ho _ (fun d h hb => d.SetException_safe e h hb)
  | SetFunction i f =>
    cases hp : P.Promise i with
    | none => simpa [Program.stepBase, hp] using hP
    | some p =>
      simp only [Program.stepBase, hp]
      cases hd : p.Data with
      | none => simpa [TPromise.SetFunction, hd] using hP
      | some a =>
        simp only [TPromise.SetFunction, hd]
        have ho : P.Owner i = some a := by rw [P.Promise_Owner i p hp, hd]
        exact P.Inv_Call hP i a ho _ (fun d h hb => d.SetFunction_safe f h hb)
  | GetExceptionFuture e =>
    exact P.Inv_make_shared hP _ (TDataBase.SetException_safe _ e TDataBase.ctor_WellFormed rfl).1
  | GetFutureFromFunction f =>
    exact P.Inv_make_shared hP _ (TDataBase.SetFunction_safe _ f TDataBase.ctor_WellFormed rfl).1
  | Future f c => exact hP
  | ThrowRef i alive e copy =>
    cases hp : P.Promise i with
    | none => simpa [Program.stepBase, hp] using hP
    | some p =>
      simp only [Program.stepBase, hp]
      cases hd : p.Data with
      | none => simpa [TPromise.ThrowRef, hd] using hP
      | some a =>
        simp only [TPromise.ThrowRef, hd]
        have ho : P.Owner i = some a := by rw [P.Promise_Owner i p hp, hd]
        exact P.Inv_Call hP i a ho _ (fun d h hb => d.SetExceptionRef_safe alive e copy h hb)
  | GetExceptionFutureRef alive e copy =>
    exact P.Inv_make_shared hP _
      (TDataBase.SetExceptionRef_safe _ alive e copy TDataBase.ctor_WellFormed rfl).1

theorem Program.Inv_step (P : Program T E W) (hP : P.Inv) (call : TypedCall T E W) :
    (P.step call).Inv := by
  cases call with
  | Base c => exact P.Inv_stepBase hP c
  | SetValue i v =>
    cases hp : P.Promise i with
    | none => simpa [Program.step, hp] using hP
    | some p =>
      simp only [Program.step, hp]
      cases hd : p.Data with
      | none => simpa [TPromise.SetValue, hd] using hP
      | some a =>
        simp only [TPromise.SetValue, hd]
        have ho : P.Owner i = some a := by rw [P.Promise_Owner i p hp, hd]
        exact P.Inv_Call hP i a ho _ (fun d h hb => TDataGeneric.SetValue_safe d v h hb)
  | GetValueFuture v =>
    exact P.Inv_make_shared hP _ (TDataGeneric.SetValue_safe _ v TDataBase.ctor_WellFormed rfl).1

theorem Program.Inv_stepVoid (P : Program Unit E W) (hP : P.Inv) (call : VoidCall E W) :
    (P.stepVoid call).Inv := by
  cases call with
  | Base c => exact P.Inv_stepBase hP c
  | Complete i =>
    cases hp : P.Promise i with
    | none => simpa [Program.stepVoid, hp] using hP
    | some p =>
      simp only [Program.stepVoid, hp]
      cases hd : p.Data with
      | none => simpa [TPromise.Complete, hd] using hP
      | some a =>
        simp only [TPromise.Complete, hd]
        have ho : P.Owner i = some a := by rw [P.Promise_Owner i p hp, hd]
        exact P.Inv_Call hP i a ho _ (fun d h hb => TDataGeneric.Notify_safe d h hb)
  | GetCompletedFuture =>
    exact P.Inv_make_shared hP _ (TDataGeneric.Notify_safe _ TDataBase.ctor_WellFormed rfl).1

theorem Program.Inv_init : (Program.init : Program T E W).Inv := by
  refine ⟨?_, ?_, ?_⟩
  · intro a d h; simp [Program.init] at h
  · intro i a h; simp [Program.init, Program.Owner, Program.Promise] at h
  · intro i j a h; simp [Program.init, Program.Owner, Program.Promise] at h

theorem Program.Inv_run (P : Program T E W) (hP : P.Inv) (calls : List (TypedCall T E W)) :
    (P.run calls).Inv := by
  induction calls generalizing P with
  | nil => exact hP
  | cons c cs ih => exact ih (P.step c) (P.Inv_step hP c)

theorem Program.Inv_runVoid (P : Program Unit E W) (hP : P.Inv) (calls : List (VoidCall E W)) :
    (P.runVoid calls).Inv := by
  induction calls generalizing P with
  | nil => exact hP
  | cons c cs ih => exact ih (P.stepVoid c) (P.Inv_stepVoid hP c)

end InvariantSteps
end WBMQTT

namespace WBMQTT
section Delivery
variable {T E W : Type}

theorem Cells.Call_at (s : Cells T E W) (a : Nat) (d : TDataGeneric T E W)
    (f : TDataGeneric T E W → Outcome (TPromiseError E) Unit × TDataGeneric T E W)
    (h : s[a]? = some d) :
    (s.Call a f).1 = (f d).1 ∧ (s.Call a f).2[a]? = some (f d).2 := by
  refine ⟨by simp [Cells.Call, h], ?_⟩
  rw [Cells.Call_get]; simp [h]

theorem Cells.Call_unchanged (s : Cells T E W) (a : Nat) (d : TDataGeneric T E W)
    (f : TDataGeneric T E W → Outcome (TPromiseError E) Unit × TDataGeneric T E W)
    (h : s[a]? = some d) (hf : (f d).2 = d) : (s.Call a f).2 = s := by
  simp only [Cells.Call, h, hf]
  apply List.ext_getElem?
  intro b
  rw [List.getElem?_set]
  split
  · rename_i hab; subst hab
    have hlt : a < s.length := (List.getElem?_eq_some.mp h).1
    simp [hlt, h]
  · rfl

theorem TPromise.ctor_get (s : Cells T E W) :
    ∃ a, (TPromise.ctor s).1.Data = some a ∧ (TPromise.ctor s).2[a]? = some TDataBase.ctor :=
  ⟨s.length, rfl, by simp [TPromise.ctor, Cells.make_shared]⟩

/-- C3. Value delivery: after `p = TPromise<T>()`, `f = p.GetFuture()` and `p.SetValue(v)`, made
on top of any cells, `SetValue` returned, and the future reports `IsReady() == true`,
`IsBroken() == false`, `IsException() == false`, `GetValue()` returns `v` (leaving the
environment alone) and `Wait()` returns without raising. -/
theorem C3_value_delivery (s : Cells T E W) (v : T) (w : W) :
    ((TPromise.ctor s).1.GetFuture : Outcome (TPromiseError E) TFuture) =
        Outcome.Return { Data := (TPromise.ctor s).1.Data } ∧
    ((TPromise.ctor s).1.SetValue v (TPromise.ctor s).2).1 = Outcome.Return () ∧
    TFuture.IsReady { Data := (TPromise.ctor s).1.Data }
        ((TPromise.ctor s).1.SetValue v (TPromise.ctor s).2).2 = Outcome.Return true ∧
    TFuture.IsBroken { Data := (TPromise.ctor s).1.Data }
        ((TPromise.ctor s).1.SetValue v (TPromise.ctor s).2).2 = Outcome.Return false ∧
    TFuture.IsException { Data := (TPromise.ctor s).1.Data }
        ((TPromise.ctor s).1.SetValue v (TPromise.ctor s).2).2 = Outcome.Return false ∧
    TFuture.GetValue { Data := (TPromise.ctor s).1.Data }
        ((TPromise.ctor s).1.SetValue v (TPromise.ctor s).2).2 w = (Outcome.Return v, w) ∧
    TFuture.Wait { Data := (TPromise.ctor s).1.Data }
        ((TPromise.ctor s).1.SetValue v (TPromise.ctor s).2).2 = Outcome.Return () := by
  obtain ⟨a, ha, hd⟩ := TPromise.ctor_get s
  have hc := Cells.Call_at (TPromise.ctor s).2 a TDataBase.ctor
    (fun d => TDataGeneric.SetValue d v) hd
  simp only [TPromise.GetFuture, TPromise.SetValue, ha, TFuture.IsReady, TFuture.IsBroken,
    TFuture.IsException, TFuture.GetValue, TFuture.Wait, Cells.Read, hc.1, hc.2]
  simp [TDataGeneric.SetValue, TDataBase.ctor, TDataBase.IsReady, TDataBase.IsBroken,
    TDataBase.IsException, TDataBase.GetValue, TDataBase.Wait, TValue.IsException, TValue.Get]

end Delivery
end WBMQTT

namespace WBMQTT
section Writers
variable {T E W : Type}

theorem TPromise.Fulfil_Ready (p : TPromise) (s : Cells T E W) (a : Nat) (d : TDataGeneric T E W)
    (hp : p.Data = some a) (hd : s[a]? = some d) (hr : d.Ready = true) (c : Fulfilment T E W) :
    p.Fulfil s c = (Outcome.Throw TPromiseError.TPromiseRepeatedAssignmentException, s) := by
  cases c with
  | SetValue v =>
    have h1 := Cells.Call_at s a d (fun d => TDataGeneric.SetValue d v) hd
    have h2 := Cells.Call_unchanged s a d (fun d => TDataGeneric.SetValue d v) hd
      (by simp [TDataGeneric.SetValue, hr])
    simp only [TPromise.Fulfil, TPromise.SetValue, hp]
    refine Prod.ext ?_ h2
    rw [h1.1]; simp [TDataGeneric.SetValue, hr]
  | Throw e =>
    have h1 := Cells.Call_at s a d (fun d => d.SetException e) hd
    have h2 := Cells.Call_unchanged s a d (fun d => d.SetException e) hd
      (by simp [TDataBase.SetException, hr])
    simp only [TPromise.Fulfil, TPromise.Throw, hp]
    refine Prod.ext ?_ h2
    rw [h1.1]; simp [TDataBase.SetException, hr]
  | SetFunction fn =>
    have h1 := Cells.Call_at s a d (fun d => d.SetFunction fn) hd
    have h2 := Cells.Call_unchanged s a d (fun d => d.SetFunction fn) hd
      (by simp [TDataBase.SetFunction, hr])
    simp only [TPromise.Fulfil, TPromise.SetFunction, hp]
    refine Prod.ext ?_ h2
    rw [h1.1]; simp [TDataBase.SetFunction, hr]

theorem TPromise.Fulfil_first (p : TPromise) (s : Cells T E W) (a : Nat) (d : TDataGeneric T E W)
    (hp : p.Data = some a) (hd : s[a]? = some d) (hr : d.Ready = false) (c : Fulfilment T E W) :
    (p.Fulfil s c).1 = Outcome.Return () ∧
      ∃ d1 : TDataGeneric T E W, (p.Fulfil s c).2[a]? = some d1 ∧ d1.Ready = true ∧
        d1.Broken = d.Broken ∧
        d1.Value = some c.Wrapper := by
  cases c with
  | SetValue v =>
    have h1 := Cells.Call_at s a d (fun d => TDataGeneric.SetValue d v) hd
    simp only [TPromise.Fulfil, TPromise.SetValue, hp, h1.1, h1.2]
    simp [TDataGeneric.SetValue, hr, Fulfilment.Wrapper]
  | Throw e =>
    have h1 := Cells.Call_at s a d (fun d => d.SetException e) hd
    simp only [TPromise.Fulfil, TPromise.Throw, hp, h1.1, h1.2]
    simp [TDataBase.SetException, hr, Fulfilment.Wrapper]
  | SetFunction fn =>
    have h1 := Cells.Call_at s a d (fun d => d.SetFunction fn) hd
    simp only [TPromise.Fulfil, TPromise.SetFunction, hp, h1.1, h1.2]
    simp [TDataBase.SetFunction, hr, Fulfilment.Wrapper]

theorem TDataBase.GetValue_Wrapper (d : TDataBase T E W) (c : Fulfilment T E W)
    (hr : d.Ready = true) (hb : d.Broken = false) (hv : d.Value = some c.Wrapper) (w : W) :
    d.GetValue w = c.Result w := by
  simp only [TDataBase.GetValue, TDataBase.Wait, hr, hb, hv]
  cases c with
  | SetValue v => rfl
  | Throw e => rfl
  | SetFunction fn =>
    simp only [Fulfilment.Wrapper, TValue.Get, Fulfilment.Result]
    cases h : fn w with
    | mk r w1 => cases r <;> simp

theorem TPromise.FulfilAll_Ready (p : TPromise) (s : Cells T E W) (a : Nat) (d : TDataGeneric T E W)
    (hp : p.Data = some a) (hd : s[a]? = some d) (hr : d.Ready = true)
    (cs : List (Fulfilment T E W)) :
    p.FulfilAll cs s =
      (cs.map fun _ => Outcome.Throw TPromiseError.TPromiseRepeatedAssignmentException, s) := by
  induction cs with
  | nil => rfl
  | cons c cs ih =>
    simp only [TPromise.FulfilAll, TPromise.Fulfil_Ready p s a d hp hd hr c, ih, List.map_cons]

/-- C4. Single writer, typed promise: when the first `SetValue`, `Throw` or `SetFunction` on a
promise whose cell is Pending has made it Ready, every later `SetValue`, `Throw` or
`SetFunction`, in any number and order, raises `TPromiseRepeatedAssignmentException`, the cells
are left exactly as the first call left them, and `GetValue()` on a future of the promise
still yields the result of the first call. -/
theorem C4_single_writer (p : TPromise) (s : Cells T E W) (a : Nat) (d : TDataGeneric T E W)
    (hp : p.Data = some a) (hd : s[a]? = some d)
    (hpending : d.InState CellState.Pending = true)
    (first : Fulfilment T E W) (later : List (Fulfilment T E W)) :
    (p.Fulfil s first).1 = Outcome.Return () ∧
    (p.FulfilAll later (p.Fulfil s first).2).1 =
      later.map (fun _ => Outcome.Throw TPromiseError.TPromiseRepeatedAssignmentException) ∧
    (p.FulfilAll later (p.Fulfil s first).2).2 = (p.Fulfil s first).2 ∧
    ∀ (f : TFuture) (w : W), f.Data = p.Data →
      f.GetValue (p.FulfilAll later (p.Fulfil s first).2).2 w = first.Result w := by
  simp only [TDataBase.InState, Bool.and_eq_true, Bool.not_eq_true'] at hpending
  obtain ⟨⟨hr, hb⟩, _⟩ := hpending
  obtain ⟨h1, d1, hd1, hr1, hb1, hv1⟩ := TPromise.Fulfil_first p s a d hp hd hr first
  have h := TPromise.FulfilAll_Ready p (p.Fulfil s first).2 a d1 hp hd1 hr1 later
  refine ⟨h1, ?_, ?_, ?_⟩
  · rw [h]
  · rw [h]
  · intro f w hf
    rw [h]
    simp only [TFuture.GetValue, hf, hp, hd1]
    exact TDataBase.GetValue_Wrapper d1 first hr1 (by rw [hb1, hb]) hv1 w

/-- C5. Abandonment: when a promise whose cell is still Pending is destroyed, every future
obtained from it reports `IsBroken() == true` and `IsReady() == false`, and `Wait()`,
`WaitFor(d)` for every `d`, `GetValue()` / `Sync()` and `IsException()` each raise
`TBrokenPromiseException`. -/
theorem C5_abandonment (p : TPromise) (f : TFuture) (s : Cells T E W) (a : Nat)
    (d : TDataGeneric T E W)
    (hf : (p.GetFuture : Outcome (TPromiseError E) TFuture) = Outcome.Return f)
    (hd : s[a]? = some d) (hp : p.Data = some a)
    (hpending : d.InState CellState.Pending = true) :
    f.IsBroken (p.dtor s) = Outcome.Return true ∧
    f.IsReady (p.dtor s) = Outcome.Return false ∧
    f.Wait (p.dtor s) = Outcome.Throw TPromiseError.TBrokenPromiseException ∧
    (∀ timeout, f.WaitFor timeout (p.dtor s) =
      Outcome.Throw TPromiseError.TBrokenPromiseException) ∧
    (∀ w : W, f.GetValue (p.dtor s) w =
      (Outcome.Throw TPromiseError.TBrokenPromiseException, w)) ∧
    f.IsException (p.dtor s) = Outcome.Throw TPromiseError.TBrokenPromiseException := by
  have hfd : f.Data = some a := by
    simp only [TPromise.GetFuture, hp, Outcome.Return.injEq] at hf
    rw [← hf]
  have hc := Cells.Call_at s a d
    (fun d => (Outcome.Return (), d.HandlePromiseDestruction)) hd
  simp only [TDataBase.InState, Bool.and_eq_true, Bool.not_eq_true'] at hpending
  obtain ⟨⟨hr, hb⟩, _⟩ := hpending
  simp only [TPromise.dtor, hp, TFuture.IsReady, TFuture.IsBroken, TFuture.IsException,
    TFuture.GetValue, TFuture.Wait, TFuture.WaitFor, Cells.Read, hfd, hc.2]
  simp [TDataBase.HandlePromiseDestruction, hr, TDataBase.IsReady, TDataBase.IsBroken,
    TDataBase.IsException, TDataBase.GetValue, TDataBase.Wait, TDataBase.WaitFor]

end Writers
end WBMQTT

namespace WBMQTT
section Functions
variable {T E W : Type}

theorem TDataBase.GetValue_TFunctionWrapper (d : TDataBase T E W) (fn : W → Except E T × W)
    (hr : d.Ready = true) (hb : d.Broken = false) (hv : d.Value = some (TValue.TFunctionWrapper fn))
    (w : W) : d.GetValue w = (Outcome.ofExcept (fn w).1, (fn w).2) := by
  simp only [TDataBase.GetValue, TDataBase.Wait, hr, hb, hv, TValue.Get]
  cases h : fn w with
  | mk r w1 => cases r <;> simp [Outcome.ofExcept]

theorem TFuture.GetValueTimes_function (f : TFuture) (s : Cells T E W)
    (fn : W → Except E T × W)
    (h : ∀ w, f.GetValue s w = (Outcome.ofExcept (fn w).1, (fn w).2)) (k : Nat) (w : W) :
    f.GetValueTimes s k w =
      ((Invocations fn k w).1.map Outcome.ofExcept, (Invocations fn k w).2) := by
  induction k generalizing w with
  | zero => rfl
  | succ k ih => simp [TFuture.GetValueTimes, Invocations, h, ih]

theorem Invocations_Counted (fn : W → Except E T × W) (k : Nat) (w : W) (n : Nat) :
    (Invocations (Counted fn) k (w, n)).2.2 = n + k := by
  induction k generalizing w n with
  | zero => rfl
  | succ k ih =>
    simp only [Invocations, Counted, ih]
    omega

/-- C10, counterexample. With a callable that counts its invocations, stored by `SetFunction`
in a fresh promise: before any `GetValue()` it has been invoked 0 times, not once; after two
`GetValue()` calls it has been invoked twice, and the two calls returned different results
(0 and 1), not one result. -/
theorem C10_counterexample_not_eager :
    (TFuture.GetValueTimes { Data := (TPromise.ctor NoCells).1.Data }
        ((TPromise.ctor NoCells).1.SetFunction CountingFunction (TPromise.ctor NoCells).2).2 0 0).2 = 0 ∧
    TFuture.GetValueTimes { Data := (TPromise.ctor NoCells).1.Data }
        ((TPromise.ctor NoCells).1.SetFunction CountingFunction (TPromise.ctor NoCells).2).2 2 0 =
      ([Outcome.Return 0, Outcome.Return 1], 2) := by
  constructor <;> rfl

/-- C10, amended. `SetFunction(fn)` on a Pending promise returns after storing `fn` without
invoking it, and each `GetValue()` invokes it once: after `SetFunction(fn)` and `k` calls of
`GetValue()` on a future of the promise, `fn` has been invoked exactly `k` times in total (the
counter of the instrumented callable went from `n` to `n + k`), and the `i`-th `GetValue()`
returns or raises what the `i`-th invocation returned or threw. -/
theorem C10_function_invoked_at_each_retrieval (p : TPromise) (f : TFuture)
    (s : Cells T E (W × Nat)) (a : Nat) (d : TDataGeneric T E (W × Nat))
    (fn : W → Except E T × W)
    (hf : (p.GetFuture : Outcome (TPromiseError E) TFuture) = Outcome.Return f)
    (hd : s[a]? = some d) (hp : p.Data = some a)
    (hpending : d.InState CellState.Pending = true) (k : Nat) (w : W) (n : Nat) :
    (p.SetFunction (Counted fn) s).1 = Outcome.Return () ∧
    (f.GetValueTimes (p.SetFunction (Counted fn) s).2 k (w, n)).2.2 = n + k ∧
    f.GetValueTimes (p.SetFunction (Counted fn) s).2 k (w, n) =
      ((Invocations (Counted fn) k (w, n)).1.map Outcome.ofExcept,
       (Invocations (Counted fn) k (w, n)).2) := by
  have hfd : f.Data = some a := by
    simp only [TPromise.GetFuture, hp, Outcome.Return.injEq] at hf
    rw [← hf]
  simp only [TDataBase.InState, Bool.and_eq_true, Bool.not_eq_true'] at hpending
  obtain ⟨⟨hr, hb⟩, _⟩ := hpending
  have hc := Cells.Call_at s a d (fun d => d.SetFunction (Counted fn)) hd
  have hg : ∀ e : W × Nat, f.GetValue (p.SetFunction (Counted fn) s).2 e =
      (Outcome.ofExcept ((Counted fn) e).1, ((Counted fn) e).2) := by
    intro e
    simp only [TPromise.SetFunction, hp, TFuture.GetValue, hfd, hc.2]
    exact TDataBase.GetValue_TFunctionWrapper _ (Counted fn)
      (by simp [TDataBase.SetFunction, hr])
      (by simp [TDataBase.SetFunction, hr, hb])
      (by simp [TDataBase.SetFunction, hr]) e
  have ht := TFuture.GetValueTimes_function _ _ (Counted fn) hg k (w, n)
  refine ⟨?_, ?_, ht⟩
  · simp only [TPromise.SetFunction, hp, hc.1]; simp [TDataBase.SetFunction, hr]
  · rw [ht]; exact Invocations_Counted fn k w n

/-- C10, the amended statement at a concrete input: a callable stored in a fresh promise and
retrieved three times has been invoked three times. -/
theorem C10_function_invoked_at_each_retrieval_witness :
    ((TPromise.ctor NoCellsCounted).1.GetFuture : Outcome (TPromiseError String) TFuture) =
      Outcome.Return { Data := some 0 } ∧
    (TPromise.ctor NoCellsCounted).2[0]? = some TDataBase.ctor ∧
    (TPromise.ctor NoCellsCounted).1.Data = some 0 ∧
    (TDataBase.ctor : TDataGeneric Nat String (Nat × Nat)).InState CellState.Pending = true ∧
    (TFuture.GetValueTimes { Data := some 0 }
        ((TPromise.ctor NoCellsCounted).1.SetFunction (Counted CountingFunction)
          (TPromise.ctor NoCellsCounted).2).2 3 (0, 0)).2.2 = 0 + 3 :=
  ⟨rfl, rfl, rfl, rfl,
   (C10_function_invoked_at_each_retrieval (TPromise.ctor NoCellsCounted).1 { Data := some 0 }
     (TPromise.ctor NoCellsCounted).2 0 TDataBase.ctor CountingFunction rfl rfl rfl rfl 3 0 0).2.1⟩

/-- C8, counterexample. On the cell left Broken by the destruction of its promise, `SetValue(5)`
does not raise: it returns, and leaves the cell with the Ready flag set next to the Broken flag
and a stored result, so the cell is no longer in the Broken state. -/
theorem C8_counterexample_broken_accepts :
    BrokenCell.InState CellState.Broken = true ∧
    (TDataGeneric.SetValue BrokenCell 5).1 = Outcome.Return () ∧
    (TDataGeneric.SetValue BrokenCell 5).2.Ready = true ∧
    (TDataGeneric.SetValue BrokenCell 5).2.Broken = true ∧
    (TDataGeneric.SetValue BrokenCell 5).2.Value.isSome = true ∧
    (TDataGeneric.SetValue BrokenCell 5).2.InState CellState.Broken = false := by
  refine ⟨rfl, rfl, rfl, rfl, rfl, rfl⟩

end Functions
end WBMQTT

namespace WBMQTT
section States
variable {T E W : Type}

theorem TDataBase.Fulfil_Broken (d : TDataGeneric T E W) (hb : d.InState CellState.Broken = true)
    (c : Fulfilment T E W) :
    (d.Fulfil c).1 = Outcome.Return () ∧ (d.Fulfil c).2.Ready = true ∧
      (d.Fulfil c).2.Broken = true ∧ (d.Fulfil c).2.Value = some c.Wrapper ∧
      (d.Fulfil c).2.ConditionVariable = d.ConditionVariable + 1 := by
  simp only [TDataBase.InState, Bool.and_eq_true, Bool.not_eq_true'] at hb
  obtain ⟨⟨hb, hr⟩, _⟩ := hb
  cases c <;>
    simp [TDataBase.Fulfil, TDataGeneric.SetValue, TDataBase.SetException, TDataBase.SetFunction,
      Fulfilment.Wrapper, hr, hb]

/-- C8, amended. The guard of `SetValue`, `Throw` and `SetFunction` tests the Ready flag only:
on a cell in the Broken state each of them returns normally, stores its result and sets the
Ready flag with the Broken flag still set, and `Wait()` and `GetValue()` on the cell keep
raising `TBrokenPromiseException`.  No program reaches such a call through the handles: a cell
held by a live promise object is never Broken. -/
theorem C8_broken_cell_accepts_fulfilment (d : TDataGeneric T E W)
    (hb : d.InState CellState.Broken = true) (c : Fulfilment T E W) :
    ((d.Fulfil c).1 = Outcome.Return () ∧
      (d.Fulfil c).2.Ready = true ∧
      (d.Fulfil c).2.Broken = true ∧
      (d.Fulfil c).2.Value = some c.Wrapper ∧
      (d.Fulfil c).2.Wait = Outcome.Throw TPromiseError.TBrokenPromiseException ∧
      ∀ w : W, (d.Fulfil c).2.GetValue w =
        (Outcome.Throw TPromiseError.TBrokenPromiseException, w)) ∧
    ∀ (calls : List (TypedCall T E W)) (i a : Nat) (d1 : TDataGeneric T E W),
      (Program.init.run calls).Owner i = some a →
      (Program.init.run calls).Cells[a]? = some d1 → d1.Broken = false := by
  obtain ⟨h1, h2, h3, h4, _⟩ := TDataBase.Fulfil_Broken d hb c
  refine ⟨⟨h1, h2, h3, h4, ?_, ?_⟩, ?_⟩
  · simp [TDataBase.Wait, h2, h3]
  · intro w; simp [TDataBase.GetValue, TDataBase.Wait, h2, h3]
  · intro calls i a d1 ho hd1
    obtain ⟨d2, hd2, hb2⟩ := (Program.Inv_run Program.init Program.Inv_init calls).owned i a ho
    rw [hd1] at hd2
    cases hd2
    exact hb2

/-- C8, the amended statement at a concrete cell: the Broken cell accepts `Throw("late")`. -/
theorem C8_broken_cell_accepts_fulfilment_witness :
    BrokenCell.InState CellState.Broken = true ∧
    (BrokenCell.Fulfil (Fulfilment.Throw "late")).1 = Outcome.Return () ∧
    (BrokenCell.Fulfil (Fulfilment.Throw "late")).2.Broken = true :=
  ⟨rfl,
   (C8_broken_cell_accepts_fulfilment BrokenCell rfl (Fulfilment.Throw "late")).1.1,
   (C8_broken_cell_accepts_fulfilment BrokenCell rfl (Fulfilment.Throw "late")).1.2.2.1⟩

theorem TDataBase.WellFormed_states (d : TDataBase T E W) (h : d.WellFormed) :
    (∃! st : CellState, d.InState st = true) ∧ d.Value.isSome = d.Ready ∧
      ¬ (d.Ready = true ∧ d.Broken = true) := by
  obtain ⟨hv, hrb⟩ := h
  refine ⟨?_, hv, ?_⟩
  · cases hr : d.Ready <;> cases hb : d.Broken <;>
      simp only [hr, hb, Bool.and_self, Bool.and_true, Bool.and_false] at hrb hv
    · refine ⟨CellState.Pending, ?_, ?_⟩
      · simp only [TDataBase.InState, hr, hb]
        cases hval : d.Value <;> simp_all
      · intro st hst; cases st <;> simp_all [TDataBase.InState]
    · refine ⟨CellState.Broken, ?_, ?_⟩
      · simp only [TDataBase.InState, hr, hb]
        cases hval : d.Value <;> simp_all
      · intro st hst; cases st <;> simp_all [TDataBase.InState]
    · refine ⟨CellState.Ready, ?_, ?_⟩
      · simp only [TDataBase.InState, hr, hb]
        cases hval : d.Value <;> simp_all
      · intro st hst; cases st <;> simp_all [TDataBase.InState]
    · simp at hrb
  · rintro ⟨hr, hb⟩; simp [hr, hb] at hrb

/-- C7. Cell state invariant: in every program over the handle API (typed or void), started
from nothing, every cell is in exactly one of the states Pending (both flags clear, no stored
result), Ready (Ready flag alone, stored result present), Broken (Broken flag alone, no stored
result); the result is populated iff the Ready flag is set, and the two flags are never both
set. -/
theorem C7_cell_state_invariant :
    (∀ (calls : List (TypedCall T E W)) (a : Nat) (d : TDataGeneric T E W),
      (Program.init.run calls).Cells[a]? = some d →
        (∃! st : CellState, d.InState st = true) ∧ d.Value.isSome = d.Ready ∧
          ¬ (d.Ready = true ∧ d.Broken = true)) ∧
    (∀ (calls : List (VoidCall E W)) (a : Nat) (d : TDataGeneric Unit E W),
      (Program.init.runVoid calls).Cells[a]? = some d →
        (∃! st : CellState, d.InState st = true) ∧ d.Value.isSome = d.Ready ∧
          ¬ (d.Ready = true ∧ d.Broken = true)) := by
  constructor
  · intro calls a d hd
    exact d.WellFormed_states ((Program.Inv_run Program.init Program.Inv_init calls).cells a d hd)
  · intro calls a d hd
    exact d.WellFormed_states
      ((Program.Inv_runVoid Program.init Program.Inv_init calls).cells a d hd)

end States
end WBMQTT

namespace WBMQTT
section Absorbing
variable {T E W : Type}

theorem Cells.make_shared_Call_get (s : Cells T E W)
    (f : TDataGeneric T E W → Outcome (TPromiseError E) Unit × TDataGeneric T E W) (b : Nat) :
    (s.make_shared.2.Call s.make_shared.1 f).2[b]? =
      if b < s.length then s[b]? else
        if b = s.length then some (f TDataBase.ctor).2 else none := by
  rw [Cells.Call_get]
  simp only [Cells.make_shared_get]
  have h1 : s.make_shared.1 = s.length := rfl
  rw [h1]
  by_cases hb : s.length = b
  · subst hb; simp
  · have hb2 : ¬ b = s.length := fun h => hb h.symm
    simp [hb, hb2]

theorem Cells.make_shared_Call_old (s : Cells T E W)
    (f : TDataGeneric T E W → Outcome (TPromiseError E) Unit × TDataGeneric T E W) (a : Nat)
    (d : TDataGeneric T E W) (hd : s[a]? = some d) :
    (s.make_shared.2.Call s.make_shared.1 f).2[a]? = some d := by
  have hlt : a < s.length := (List.getElem?_eq_some.mp hd).1
  rw [Cells.make_shared_Call_get]; simp [hlt, hd]

theorem TDataBase.HandlePromiseDestruction_terminal (d : TDataBase T E W)
    (ht : d.Ready = true ∨ d.Broken = true) : d.HandlePromiseDestruction = d := by
  unfold TDataBase.HandlePromiseDestruction
  rcases ht with h | h
  · simp [h]
  · split
    · cases d; simp_all
    · rfl

/-- A call made through the promise that holds the address leaves a terminal cell as it is, when
it leaves Ready cells as they are. -/
theorem Program.Call_terminal (P : Program T E W) (hP : P.Inv) (i x : Nat)
    (ho : P.Owner i = some x)
    (f : TDataGeneric T E W → Outcome (TPromiseError E) Unit × TDataGeneric T E W)
    (hf : ∀ d : TDataGeneric T E W, d.Ready = true → (f d).2 = d)
    (a : Nat) (d : TDataGeneric T E W) (hd : P.Cells[a]? = some d)
    (ht : d.Ready = true ∨ d.Broken = true) :
    (P.Cells.Call x f).2[a]? = some d := by
  rw [Cells.Call_get]
  split
  · rename_i hxa; subst hxa
    obtain ⟨d0, hd0, hb0⟩ := hP.owned i x ho
    rw [hd] at hd0; cases hd0
    rcases ht with h | h
    · simp [hd, hf d h]
    · rw [hb0] at h; cases h
  · exact hd

theorem Program.stepBase_terminal (P : Program T E W) (hP : P.Inv) (call : BaseCall T E W)
    (a : Nat) (d : TDataGeneric T E W) (hd : P.Cells[a]? = some d)
    (ht : d.Ready = true ∨ d.Broken = true) :
    (P.stepBase call).Cells[a]? = some d := by
  cases call with
  | ctor =>
    have hlt : a < P.Cells.length := (List.getElem?_eq_some.mp hd).1
    simp only [Program.stepBase, TPromise.ctor, Cells.make_shared_get, hlt, if_true, hd]
  | Null => exact hd
  | moveCtor i => cases hp : P.Promise i <;> simpa [Program.stepBase, hp] using hd
  | moveAssign i j =>
    cases hp : P.Promise i <;> cases hq : P.Promise j <;>
      simp only [Program.stepBase, hp, hq] <;> first | exact hd | (split <;> exact hd)
  | dtor i =>
    cases hp : P.Promise i with
    | none => simpa [Program.stepBase, hp] using hd
    | some p =>
      simp only [Program.stepBase, hp]
      cases hx : p.Data with
      | none => simpa [TPromise.dtor, hx] using hd
      | some x =>
        simp only [TPromise.dtor, hx]
        rw [Cells.Call_get]
        split
        · rename_i hxa; subst hxa
          simp [hd, TDataBase.HandlePromiseDestruction_terminal d ht]
        · exact hd
  | GetFuture i => exact hd
  | IsFulfilled i => exact hd
  | IsWaited i => exact hd
  | operatorBool i => exact hd
  | Throw i e =>
    cases hp : P.Promise i with
    | none => simpa [Program.stepBase, hp] using hd
    | some p =>
      simp only [Program.stepBase, hp]
      cases hx : p.Data with
      | none => simpa [TPromise.Throw, hx] using hd
      | some x =>
        simp only [TPromise.Throw, hx]
        have ho : P.Owner i = some x := by rw [P.Promise_Owner i p hp, hx]
        exact P.Call_terminal hP i x ho _ (fun d h => by simp [TDataBase.SetException, h]) a d hd ht
  | SetFunction i fn =>
    cases hp : P.Promise i with
    | none => simpa [Program.stepBase, hp] using hd
    | some p =>
      simp only [Program.stepBase, hp]
      cases hx : p.Data with
      | none => simpa [TPromise.SetFunction, hx] using hd
      | some x =>
        simp only [TPromise.SetFunction, hx]
        have ho : P.Owner i = some x := by rw [P.Promise_Owner i p hp, hx]
        exact P.Call_terminal hP i x ho _ (fun d h => by simp [TDataBase.SetFunction, h]) a d hd ht
  | GetExceptionFuture e => exact Cells.make_shared_Call_old P.Cells _ a d hd
  | GetFutureFromFunction fn => exact Cells.make_shared_Call_old P.Cells _ a d hd
  | Future f c => exact hd
  | ThrowRef i alive e copy =>
    cases hp : P.Promise i with
    | none => simpa [Program.stepBase, hp] using hd
    | some p =>
      simp only [Program.stepBase, hp]
      cases hx : p.Data with
      | none => simpa [TPromise.ThrowRef, hx] using hd
      | some x =>
        simp only [TPromise.ThrowRef, hx]
        have ho : P.Owner i = some x := by rw [P.Promise_Owner i p hp, hx]
        exact P.Call_terminal hP i x ho _
          (fun d h => by simp [TDataBase.SetExceptionRef, h]) a d hd ht
  | GetExceptionFutureRef alive e copy => exact Cells.make_shared_Call_old P.Cells _ a d hd

theorem Program.step_terminal (P : Program T E W) (hP : P.Inv) (call : TypedCall T E W)
    (a : Nat) (d : TDataGeneric T E W) (hd : P.Cells[a]? = some d)
    (ht : d.Ready = true ∨ d.Broken = true) :
    (P.step call).Cells[a]? = some d := by
  cases call with
  | Base c => exact P.stepBase_terminal hP c a d hd ht
  | SetValue i v =>
    cases hp : P.Promise i with
    | none => simpa [Program.step, hp] using hd
    | some p =>
      simp only [Program.step, hp]
      cases hx : p.Data with
      | none => simpa [TPromise.SetValue, hx] using hd
      | some x =>
        simp only [TPromise.SetValue, hx]
        have ho : P.Owner i = some x := by rw [P.Promise_Owner i p hp, hx]
        exact P.Call_terminal hP i x ho _ (fun d h => by simp [TDataGeneric.SetValue, h]) a d hd ht
  | GetValueFuture v => exact Cells.make_shared_Call_old P.Cells _ a d hd

theorem Program.stepVoid_terminal (P : Program Unit E W) (hP : P.Inv) (call : VoidCall E W)
    (a : Nat) (d : TDataGeneric Unit E W) (hd : P.Cells[a]? = some d)
    (ht : d.Ready = true ∨ d.Broken = true) :
    (P.stepVoid call).Cells[a]? = some d := by
  cases call with
  | Base c => exact P.stepBase_terminal hP c a d hd ht
  | Complete i =>
    cases hp : P.Promise i with
    | none => simpa [Program.stepVoid, hp] using hd
    | some p =>
      simp only [Program.stepVoid, hp]
      cases hx : p.Data with
      | none => simpa [TPromise.Complete, hx] using hd
      | some x =>
        simp only [TPromise.Complete, hx]
        have ho : P.Owner i = some x := by rw [P.Promise_Owner i p hp, hx]
        exact P.Call_terminal hP i x ho _ (fun d h => by simp [TDataGeneric.Notify, h]) a d hd ht
  | GetCompletedFuture => exact Cells.make_shared_Call_old P.Cells _ a d hd

theorem Program.run_terminal (P : Program T E W) (hP : P.Inv) (calls : List (TypedCall T E W))
    (a : Nat) (d : TDataGeneric T E W) (hd : P.Cells[a]? = some d)
    (ht : d.Ready = true ∨ d.Broken = true) :
    (P.run calls).Cells[a]? = some d := by
  induction calls generalizing P with
  | nil => exact hd
  | cons c cs ih => exact ih (P.step c) (P.Inv_step hP c) (P.step_terminal hP c a d hd ht)

theorem Program.runVoid_terminal (P : Program Unit E W) (hP : P.Inv) (calls : List (VoidCall E W))
    (a : Nat) (d : TDataGeneric Unit E W) (hd : P.Cells[a]? = some d)
    (ht : d.Ready = true ∨ d.Broken = true) :
    (P.runVoid calls).Cells[a]? = some d := by
  induction calls generalizing P with
  | nil => exact hd
  | cons c cs ih => exact ih (P.stepVoid c) (P.Inv_stepVoid hP c) (P.stepVoid_terminal hP c a d hd ht)

/-- C6. Terminal states are absorbing: in every program over the handle API (typed or void),
a cell that is Ready or Broken after some calls is the very same cell after any further calls
(rejected `SetValue` / `Throw` / `SetFunction`, repeated `Complete`, calls on futures, moves and
destruction of promises): a Ready cell stays Ready with the same stored result and is not made
Broken by the destruction of its promise, a Broken cell stays Broken, and neither returns to
Pending. -/
theorem C6_terminal_states_absorbing :
    (∀ (before later : List (TypedCall T E W)) (a : Nat) (d : TDataGeneric T E W),
      (Program.init.run before).Cells[a]? = some d →
      (d.Ready = true ∨ d.Broken = true) →
        ((Program.init.run before).run later).Cells[a]? = some d) ∧
    (∀ (before later : List (VoidCall E W)) (a : Nat) (d : TDataGeneric Unit E W),
      (Program.init.runVoid before).Cells[a]? = some d →
      (d.Ready = true ∨ d.Broken = true) →
        ((Program.init.runVoid before).runVoid later).Cells[a]? = some d) := by
  constructor
  · intro before later a d hd ht
    exact Program.run_terminal _ (Program.Inv_run Program.init Program.Inv_init before) later a d hd ht
  · intro before later a d hd ht
    exact Program.runVoid_terminal _ (Program.Inv_runVoid Program.init Program.Inv_init before)
      later a d hd ht

end Absorbing
end WBMQTT

namespace WBMQTT

/-- C4 at a concrete input: `SetValue(1)` on a fresh promise, then `SetValue(2)` and
`Throw("late")`. -/
theorem C4_single_writer_witness :
    (TPromise.ctor NoCells).1.Data = some 0 ∧
    (TPromise.ctor NoCells).2[0]? = some TDataBase.ctor ∧
    (TDataBase.ctor : TDataGeneric Nat String Nat).InState CellState.Pending = true ∧
    ((TPromise.ctor NoCells).1.FulfilAll [Fulfilment.SetValue 2, Fulfilment.Throw "late"]
        ((TPromise.ctor NoCells).1.Fulfil (TPromise.ctor NoCells).2 (Fulfilment.SetValue 1)).2).1 =
      [Outcome.Throw TPromiseError.TPromiseRepeatedAssignmentException,
       Outcome.Throw TPromiseError.TPromiseRepeatedAssignmentException] :=
  ⟨rfl, rfl, rfl,
   (C4_single_writer (TPromise.ctor NoCells).1 (TPromise.ctor NoCells).2 0 TDataBase.ctor rfl rfl
     rfl (Fulfilment.SetValue 1) [Fulfilment.SetValue 2, Fulfilment.Throw "late"]).2.1⟩

/-- C5 at a concrete input: a fresh promise destroyed before any fulfilment. -/
theorem C5_abandonment_witness :
    ((TPromise.ctor NoCells).1.GetFuture : Outcome (TPromiseError String) TFuture) =
      Outcome.Return { Data := some 0 } ∧
    (TPromise.ctor NoCells).2[0]? = some TDataBase.ctor ∧
    (TPromise.ctor NoCells).1.Data = some 0 ∧
    (TDataBase.ctor : TDataGeneric Nat String Nat).InState CellState.Pending = true ∧
    TFuture.IsBroken { Data := some 0 } ((TPromise.ctor NoCells).1.dtor (TPromise.ctor NoCells).2) =
      (Outcome.Return true : Outcome (TPromiseError String) Bool) ∧
    TFuture.Wait { Data := some 0 } ((TPromise.ctor NoCells).1.dtor (TPromise.ctor NoCells).2) =
      (Outcome.Throw TPromiseError.TBrokenPromiseException : Outcome (TPromiseError String) Unit) :=
  ⟨rfl, rfl, rfl, rfl,
   (C5_abandonment (TPromise.ctor NoCells).1 { Data := some 0 } (TPromise.ctor NoCells).2 0
     TDataBase.ctor rfl rfl rfl rfl).1,
   (C5_abandonment (TPromise.ctor NoCells).1 { Data := some 0 } (TPromise.ctor NoCells).2 0
     TDataBase.ctor rfl rfl rfl rfl).2.2.1⟩

/-- C6 at a concrete input: a cell made Ready by `SetValue(5)` is the same cell after a rejected
`SetValue(6)` and the destruction of its promise; in particular it is not Broken. -/
theorem C6_terminal_states_absorbing_witness :
    (AfterSetValue.Cells[0]? = some ReadyCell) ∧
    (ReadyCell.Ready = true ∨ ReadyCell.Broken = true) ∧
    (AfterSetValue.run [TypedCall.SetValue 0 6, TypedCall.Base (BaseCall.dtor 0)]).Cells[0]? =
      some ReadyCell ∧
    ReadyCell.Broken = false :=
  ⟨rfl, Or.inl rfl,
   C6_terminal_states_absorbing.1 [TypedCall.Base BaseCall.ctor, TypedCall.SetValue 0 5]
     [TypedCall.SetValue 0 6, TypedCall.Base (BaseCall.dtor 0)] 0 ReadyCell rfl (Or.inl rfl),
   rfl⟩

/-- C7 at a concrete input: after one promise was fulfilled and another destroyed unfulfilled,
the second cell is in exactly one state. -/
theorem C7_cell_state_invariant_witness :
    (Program.init.run [TypedCall.Base BaseCall.ctor, TypedCall.SetValue 0 5,
        TypedCall.Base BaseCall.ctor, TypedCall.Base (BaseCall.dtor 1)]).Cells[1]? =
      some BrokenCell ∧
    (∃! st : CellState, BrokenCell.InState st = true) :=
  ⟨rfl,
   (C7_cell_state_invariant.1 [TypedCall.Base BaseCall.ctor, TypedCall.SetValue 0 5,
        TypedCall.Base BaseCall.ctor, TypedCall.Base (BaseCall.dtor 1)] 1 BrokenCell rfl).1⟩

end WBMQTT

/-! ## Containers: empty access, storage class, allocator calls, copy and move -/

set_option linter.unusedSectionVars false

namespace WBMQTT
section Void
variable {E W : Type}

theorem TPromise.Complete_Ready (p : TPromise) (s : Cells Unit E W) (a : Nat)
    (d : TDataGeneric Unit E W) (hp : p.Data = some a) (hd : s[a]? = some d)
    (hr : d.Ready = true) : p.Complete s = (Outcome.Return (), s) := by
  have h1 := Cells.Call_at s a d (fun d => TDataGeneric.Notify d) hd
  have h2 := Cells.Call_unchanged s a d (fun d => TDataGeneric.Notify d) hd
    (by simp [TDataGeneric.Notify, hr])
  simp only [TPromise.Complete, hp]
  refine Prod.ext ?_ h2
  rw [h1.1]; simp [TDataGeneric.Notify, hr]

theorem TPromise.Complete_first (p : TPromise) (s : Cells Unit E W) (a : Nat)
    (d : TDataGeneric Unit E W) (hp : p.Data = some a) (hd : s[a]? = some d) :
    (p.Complete s).1 = Outcome.Return () ∧
      ∃ d1 : TDataGeneric Unit E W, (p.Complete s).2[a]? = some d1 ∧ d1.Ready = true := by
  have h1 := Cells.Call_at s a d (fun d => TDataGeneric.Notify d) hd
  simp only [TPromise.Complete, hp, h1.1, h1.2]
  cases hr : d.Ready <;> simp [TDataGeneric.Notify, hr]

theorem TPromise.CompleteTimes_Ready (p : TPromise) (s : Cells Unit E W) (a : Nat)
    (d : TDataGeneric Unit E W) (hp : p.Data = some a) (hd : s[a]? = some d)
    (hr : d.Ready = true) (k : Nat) :
    p.CompleteTimes k s = (List.replicate k (Outcome.Return ()), s) := by
  induction k with
  | zero => rfl
  | succ k ih =>
    simp only [TPromise.CompleteTimes, TPromise.Complete_Ready p s a d hp hd hr, ih,
      List.replicate_succ]

/-- C11. Void completion is idempotent: for a `TPromise<void>` with a cell, the first
`Complete()` returns normally; `Complete()` called on the cell it made Ready returns normally
and leaves the cells exactly as they were, however many times it is repeated, so
`Complete(); Complete()` leaves what a single `Complete()` leaves. -/
theorem C11_void_completion_idempotent (p : TPromise) (s : Cells Unit E W) (a : Nat)
    (d : TDataGeneric Unit E W) (hp : p.Data = some a) (hd : s[a]? = some d) (k : Nat) :
    (p.Complete s).1 = Outcome.Return () ∧
    p.Complete (p.Complete s).2 = (Outcome.Return (), (p.Complete s).2) ∧
    p.CompleteTimes k (p.Complete s).2 =
      (List.replicate k (Outcome.Return ()), (p.Complete s).2) := by
  obtain ⟨h1, d1, hd1, hr1⟩ := TPromise.Complete_first p s a d hp hd
  exact ⟨h1, TPromise.Complete_Ready p _ a d1 hp hd1 hr1,
    TPromise.CompleteTimes_Ready p _ a d1 hp hd1 hr1 k⟩

end Void

/-- C11 at a concrete input: a fresh `TPromise<void>` completed, then completed twice more. -/
theorem C11_void_completion_idempotent_witness :
    (TPromise.ctor NoCellsVoid).1.Data = some 0 ∧
    (TPromise.ctor NoCellsVoid).2[0]? = some TDataBase.ctor ∧
    (TPromise.ctor NoCellsVoid).1.CompleteTimes 2
        ((TPromise.ctor NoCellsVoid).1.Complete (TPromise.ctor NoCellsVoid).2).2 =
      ([Outcome.Return (), Outcome.Return ()],
        ((TPromise.ctor NoCellsVoid).1.Complete (TPromise.ctor NoCellsVoid).2).2) :=
  ⟨rfl, rfl,
   (C11_void_completion_idempotent (TPromise.ctor NoCellsVoid).1 (TPromise.ctor NoCellsVoid).2 0
     TDataBase.ctor rfl rfl 2).2.2⟩

end WBMQTT

namespace WBMQTT
section AnyBasics
variable {Ty : Type} [Target Ty] [DecidableEq Ty]

theorem TAnyBasic.As_Empty (self : TAnyBasic Ty) (T : Ty) (w : World Ty)
    (h : self.Empty = true) : self.As T w = Outcome.Throw TAnyCastError.TAnyEmptyError := by
  simp [TAnyBasic.As, h]

theorem TAnyBasic.Clean_Empty (self : TAnyBasic Ty) (w : World Ty) :
    (self.Clean w).1.Empty = true := by
  simp [TAnyBasic.Clean, TAnyBasic.Reset, TAnyBasic.Empty]

theorem TAnyBasic.MoveAny_source_Empty (self other : TAnyBasic Ty) :
    (self.MoveAny other).2.Empty = true := by
  unfold TAnyBasic.MoveAny
  split
  · assumption
  · split <;> simp [TAnyBasic.Reset, TAnyBasic.Empty]

/-- C12. Empty access: for every type `T`, `As<T>()` raises `TAnyEmptyError` on a
default-constructed container, on a container after `Clean()`, and on the source of a move
construction or of a move assignment; and on any container for which `Empty()` holds `As<T>()`
raises `TAnyEmptyError`, whatever `T` is, so never `TAnyTypesMismatchError`. -/
theorem C12_empty_access (T : Ty) (raw self other : TAnyBasic Ty) (w : World Ty) :
    (TAnyBasic.ctor raw).As T w = Outcome.Throw TAnyCastError.TAnyEmptyError ∧
    (self.Clean w).1.As T (self.Clean w).2 = Outcome.Throw TAnyCastError.TAnyEmptyError ∧
    (TAnyBasic.ctorMoveAny raw other).2.As T w = Outcome.Throw TAnyCastError.TAnyEmptyError ∧
    (self.assignMoveAny other false w).1.2.As T (self.assignMoveAny other false w).2 =
      Outcome.Throw TAnyCastError.TAnyEmptyError ∧
    ∀ c : TAnyBasic Ty, c.Empty = true →
      c.As T w = Outcome.Throw TAnyCastError.TAnyEmptyError := by
  refine ⟨?_, ?_, ?_, ?_, fun c hc => c.As_Empty T w hc⟩
  · exact TAnyBasic.As_Empty _ T w (by simp [TAnyBasic.ctor, TAnyBasic.Reset, TAnyBasic.Empty])
  · exact TAnyBasic.As_Empty _ T _ (self.Clean_Empty w)
  · exact TAnyBasic.As_Empty _ T w (TAnyBasic.MoveAny_source_Empty _ other)
  · exact TAnyBasic.As_Empty _ T _
      (by simpa [TAnyBasic.assignMoveAny] using TAnyBasic.MoveAny_source_Empty _ other)

theorem TAnyBasic.EmplaceUnsafe_Type (self : TAnyBasic Ty) (T : Ty) (v : Target.Val T)
    (w : World Ty) : (self.EmplaceUnsafe T v w).2.1.Type_ = some T := by
  unfold TAnyBasic.EmplaceUnsafe
  simp only [TAnyBasic.SetData, TAnyBasic.InitDynamic, TAnyBasic.InitStatic]
  split <;> simp

theorem TAnyBasic.Is_iff (self : TAnyBasic Ty) (T : Ty) :
    self.Is T = true ↔ self.Empty = false ∧ self.Type_ = some T := by
  unfold TAnyBasic.Is TAnyBasic.Empty
  cases self.Type_ <;> simp

/-- C13. `Is<T>()` returns true if and only if the container is not empty and its operation
table is that of `T`; on an empty container it returns false for every `T`; and on a container
that stores an `S` (constructed, assigned or emplaced from a value of `S`) it returns true
exactly when `S` is `T` itself.  `Is` is a total function: it never raises. -/
theorem C13_is_exact_type (self : TAnyBasic Ty) (T : Ty) (S : Ty) (v : Target.Val S)
    (raw : TAnyBasic Ty) (w : World Ty) :
    (self.Is T = true ↔ self.Empty = false ∧ self.Type_ = some T) ∧
    (self.Empty = true → ∀ U : Ty, self.Is U = false) ∧
    ((TAnyBasic.ctorCopy raw S v w).1.Is T = true ↔ S = T) ∧
    ((TAnyBasic.ctorMove raw S v w).1.Is T = true ↔ S = T) ∧
    ((self.assignCopy S v w).1.Is T = true ↔ S = T) ∧
    ((self.assignMove S v w).1.Is T = true ↔ S = T) ∧
    ((self.Emplace S v w).2.1.Is T = true ↔ S = T) := by
  have key : ∀ c : TAnyBasic Ty, c.Type_ = some S → (c.Is T = true ↔ S = T) := by
    intro c hc; simp [TAnyBasic.Is, hc]
  refine ⟨self.Is_iff T, ?_, ?_, ?_, ?_, ?_, ?_⟩
  · intro h U
    simp only [TAnyBasic.Empty, Option.isNone_iff_eq_none] at h
    simp [TAnyBasic.Is, h]
  · exact key _ (TAnyBasic.Copy_Is_As _ S v w).1
  · exact key _ (TAnyBasic.Move_Is_As _ S v w).1
  · exact key _ (TAnyBasic.Copy_Is_As _ S v _).1
  · exact key _ (TAnyBasic.Move_Is_As _ S v _).1
  · exact key _ (TAnyBasic.EmplaceUnsafe_Type _ S v _)

end AnyBasics
end WBMQTT

namespace WBMQTT
section Traces
variable {Ty : Type} [Target Ty] [DecidableEq Ty]

theorem Allocated_append (s t : List (Event Ty)) :
    Allocated (s ++ t) = Allocated s ++ Allocated t := by
  induction s with
  | nil => rfl
  | cons e s ih => cases e <;> simp [Allocated, ih]

theorem Freed_append (s t : List (Event Ty)) : Freed (s ++ t) = Freed s ++ Freed t := by
  induction s with
  | nil => rfl
  | cons e s ih => cases e <;> simp [Freed, ih]

theorem TAnyBasic.Allocated_Teardown (self : TAnyBasic Ty) : Allocated self.Teardown = [] := by
  unfold TAnyBasic.Teardown
  split
  · rfl
  · split <;> rfl

theorem TAnyBasic.DeleteDirty_Trace (self : TAnyBasic Ty) (w : World Ty) :
    (self.DeleteDirty w).2.Trace = w.Trace ++ self.Teardown ∧
      (self.DeleteDirty w).2.Next = w.Next := by
  unfold TAnyBasic.DeleteDirty TAnyBasic.Teardown
  split
  · split <;>
      simp [TTypeWrapper.Destroy, World.Log, World.Store, Allocator.Free, *]
  · simp [*]

theorem TAnyBasic.Clean_Trace (self : TAnyBasic Ty) (w : World Ty) :
    (self.Clean w).2.Trace = w.Trace ++ self.Teardown ∧ (self.Clean w).2.Next = w.Next :=
  self.DeleteDirty_Trace w

theorem TAnyBasic.Copy_Trace (self : TAnyBasic Ty) (T : Ty) (v : Target.Val T) (w : World Ty) :
    (self.Copy T v w).2.Trace = w.Trace ++ Setup T w.Next (Event.Copy T) ∧
      (self.Copy T v w).1.IsDynamic = decide (Target.sizeof T > TAnyBasic.StaticCapacity Ty) ∧
      (Target.sizeof T > TAnyBasic.StaticCapacity Ty →
        (self.Copy T v w).1.DynamicMemory = w.Next) := by
  unfold TAnyBasic.Copy Setup
  split <;> rename_i h
  · simp [TAnyBasic.CopyDynamic, TAnyBasic.InitDynamic, TTypeWrapper.Copy, World.Log,
      World.Store, Allocator.Allocate, h]
  · simp [TAnyBasic.CopyStatic, TAnyBasic.InitStatic, TTypeWrapper.Copy, World.Log, h]

theorem TAnyBasic.Move_Trace (self : TAnyBasic Ty) (T : Ty) (v : Target.Val T) (w : World Ty) :
    (self.Move T v w).2.Trace = w.Trace ++ Setup T w.Next (Event.Move T) ∧
      (self.Move T v w).1.IsDynamic = decide (Target.sizeof T > TAnyBasic.StaticCapacity Ty) ∧
      (Target.sizeof T > TAnyBasic.StaticCapacity Ty →
        (self.Move T v w).1.DynamicMemory = w.Next) := by
  unfold TAnyBasic.Move Setup
  split <;> rename_i h
  · simp [TAnyBasic.MoveDynamic, TAnyBasic.InitDynamic, TTypeWrapper.Move, World.Log,
      World.Store, Allocator.Allocate, h]
  · simp [TAnyBasic.MoveStatic, TAnyBasic.InitStatic, TTypeWrapper.Move, World.Log, h]

theorem TAnyBasic.EmplaceUnsafe_Trace (self : TAnyBasic Ty) (T : Ty) (v : Target.Val T)
    (w : World Ty) :
    (self.EmplaceUnsafe T v w).2.2.Trace = w.Trace ++ Setup T w.Next (Event.Construct T) ∧
      (self.EmplaceUnsafe T v w).2.1.IsDynamic =
        decide (Target.sizeof T > TAnyBasic.StaticCapacity Ty) := by
  unfold TAnyBasic.EmplaceUnsafe Setup
  by_cases h : Target.sizeof T > TAnyBasic.StaticCapacity Ty
  · simp [TAnyBasic.SetData, TAnyBasic.InitDynamic, World.Log, World.Store,
      Allocator.Allocate, h]
  · simp [TAnyBasic.SetData, TAnyBasic.InitStatic, World.Log, h]

theorem Allocated_Setup (T : Ty) (memory : Nat) (call : Event Ty) (hc : Allocated [call] = []) :
    Allocated (Setup T memory call) =
      if Target.sizeof T > TAnyBasic.StaticCapacity Ty then [(Target.sizeof T, memory)]
      else [] := by
  unfold Setup
  split
  · have : Allocated (call :: []) = [] := hc
    simp only [Allocated, this]
  · exact hc

/-- C14. Storage class is decided by size alone: for every type `T`, a container constructed
from a `T` (by copy or move), assigned a `T` (by copy or move, over any previous content) or
emplaced with a `T` is in heap state iff `sizeof(T) > StaticCapacity()`, so inline also when
`sizeof(T) == StaticCapacity()`; and the operation makes exactly one `Allocate` call, for
`sizeof(T)` bytes, in the heap case and none otherwise. -/
theorem C14_storage_class_by_size (T : Ty) (v : Target.Val T) (raw self : TAnyBasic Ty)
    (w : World Ty) :
    ((TAnyBasic.ctorCopy raw T v w).1.IsDynamic =
        decide (Target.sizeof T > TAnyBasic.StaticCapacity Ty) ∧
      Allocated (TAnyBasic.ctorCopy raw T v w).2.Trace = Allocated w.Trace ++
        if Target.sizeof T > TAnyBasic.StaticCapacity Ty then [(Target.sizeof T, w.Next)]
        else []) ∧
    ((TAnyBasic.ctorMove raw T v w).1.IsDynamic =
        decide (Target.sizeof T > TAnyBasic.StaticCapacity Ty) ∧
      Allocated (TAnyBasic.ctorMove raw T v w).2.Trace = Allocated w.Trace ++
        if Target.sizeof T > TAnyBasic.StaticCapacity Ty then [(Target.sizeof T, w.Next)]
        else []) ∧
    ((self.assignCopy T v w).1.IsDynamic =
        decide (Target.sizeof T > TAnyBasic.StaticCapacity Ty) ∧
      Allocated (self.assignCopy T v w).2.Trace = Allocated w.Trace ++
        if Target.sizeof T > TAnyBasic.StaticCapacity Ty then [(Target.sizeof T, w.Next)]
        else []) ∧
    ((self.assignMove T v w).1.IsDynamic =
        decide (Target.sizeof T > TAnyBasic.StaticCapacity Ty) ∧
      Allocated (self.assignMove T v w).2.Trace = Allocated w.Trace ++
        if Target.sizeof T > TAnyBasic.StaticCapacity Ty then [(Target.sizeof T, w.Next)]
        else []) ∧
    ((self.Emplace T v w).2.1.IsDynamic =
        decide (Target.sizeof T > TAnyBasic.StaticCapacity Ty) ∧
      Allocated (self.Emplace T v w).2.2.Trace = Allocated w.Trace ++
        if Target.sizeof T > TAnyBasic.StaticCapacity Ty then [(Target.sizeof T, w.Next)]
        else []) := by
  have hc := self.Clean_Trace w
  refine ⟨⟨?_, ?_⟩, ⟨?_, ?_⟩, ⟨?_, ?_⟩, ⟨?_, ?_⟩, ⟨?_, ?_⟩⟩
  · exact (TAnyBasic.Copy_Trace _ T v w).2.1
  · rw [TAnyBasic.ctorCopy, (TAnyBasic.Copy_Trace _ T v w).1, Allocated_append,
      Allocated_Setup T _ (Event.Copy T) rfl]
  · exact (TAnyBasic.Move_Trace _ T v w).2.1
  · rw [TAnyBasic.ctorMove, (TAnyBasic.Move_Trace _ T v w).1, Allocated_append,
      Allocated_Setup T _ (Event.Move T) rfl]
  · exact (TAnyBasic.Copy_Trace _ T v _).2.1
  · rw [TAnyBasic.assignCopy, (TAnyBasic.Copy_Trace _ T v _).1, hc.1, hc.2, Allocated_append,
      Allocated_append, Allocated_Setup T _ (Event.Copy T) rfl, self.Allocated_Teardown, List.append_nil]
  · exact (TAnyBasic.Move_Trace _ T v _).2.1
  · rw [TAnyBasic.assignMove, (TAnyBasic.Move_Trace _ T v _).1, hc.1, hc.2, Allocated_append,
      Allocated_append, Allocated_Setup T _ (Event.Move T) rfl, self.Allocated_Teardown, List.append_nil]
  · exact (TAnyBasic.EmplaceUnsafe_Trace _ T v _).2
  · rw [TAnyBasic.Emplace, (TAnyBasic.EmplaceUnsafe_Trace _ T v _).1, hc.1, hc.2,
      Allocated_append, Allocated_append, Allocated_Setup T _ (Event.Construct T) rfl, self.Allocated_Teardown,
      List.append_nil]

end Traces
end WBMQTT

namespace WBMQTT

/-- C15, counterexample. On a 64-bit target the heap-variant record takes 24 bytes and
`StaticCapacity()` is 22, not 24 - 1 = 23. -/
theorem C15_counterexample_capacity :
    TAnyBasic.sizeofDynamic CxxType = 24 ∧ TAnyBasic.StaticCapacity CxxType = 22 ∧
    TAnyBasic.StaticCapacity CxxType ≠ TAnyBasic.sizeofDynamic CxxType - 1 := by
  decide

/-- C15, amended. `StaticCapacity()` equals the size of the heap-variant record minus two
bytes, for every pointer width: the byte `Inner.Static.Size` follows the inline bytes, the
discriminator `Inner.Memory.IsDynamic` follows it and is the last byte of the record; that is
three pointers minus two bytes. -/
theorem C15_capacity_is_record_minus_two (Ty : Type) [Target Ty]
    (hptr : 1 ≤ Target.PointerSize Ty) :
    TAnyBasic.StaticCapacity Ty + 2 = TAnyBasic.sizeofDynamic Ty ∧
    TAnyBasic.StaticCapacity Ty = 3 * Target.PointerSize Ty - 2 ∧
    TAnyBasic.offsetofStaticSize Ty = TAnyBasic.StaticCapacity Ty ∧
    TAnyBasic.offsetofStaticSize Ty + 1 = TAnyBasic.offsetofIsDynamic Ty ∧
    TAnyBasic.offsetofIsDynamic Ty + 1 = TAnyBasic.sizeofDynamic Ty := by
  unfold TAnyBasic.offsetofStaticSize TAnyBasic.offsetofIsDynamic TAnyBasic.StaticCapacity
    TAnyBasic.sizeofDynamic
  refine ⟨?_, ?_, ?_, ?_, ?_⟩ <;> omega

/-- C15, the amended statement on the 64-bit example target. -/
theorem C15_capacity_is_record_minus_two_witness :
    1 ≤ Target.PointerSize CxxType ∧
    TAnyBasic.StaticCapacity CxxType + 2 = TAnyBasic.sizeofDynamic CxxType :=
  ⟨by decide, (C15_capacity_is_record_minus_two CxxType (by decide)).1⟩

section AllocatorCalls
variable {Ty : Type} [Target Ty] [DecidableEq Ty]

theorem TAnyBasic.dtor_Trace (self : TAnyBasic Ty) (w : World Ty) :
    (self.dtor w).Trace = w.Trace ++ self.Teardown :=
  (self.DeleteDirty_Trace w).1

theorem Freed_Setup (T : Ty) (memory : Nat) (call : Event Ty) (hc : Freed [call] = []) :
    Freed (Setup T memory call) = [] := by
  unfold Setup
  split
  · have : Freed (call :: []) = [] := hc
    simp only [Freed, this]
  · exact hc

theorem TAnyBasic.Teardown_of_Type (self : TAnyBasic Ty) (T : Ty) (h : self.Type_ = some T) :
    self.Teardown =
      if self.IsDynamic then [Event.Destroy T, Event.Free self.DynamicMemory]
      else [Event.Destroy T] := by
  simp [TAnyBasic.Teardown, h]

/-- The allocator calls of constructing a container from a `T` and of destroying it later. -/
theorem TAnyBasic.construct_destroy_calls (c : TAnyBasic Ty × World Ty) (T : Ty)
    (w w2 : World Ty) (call : Event Ty) (hcA : Allocated [call] = []) (hcF : Freed [call] = [])
    (htrace : c.2.Trace = w.Trace ++ Setup T w.Next call)
    (hdyn : c.1.IsDynamic = decide (Target.sizeof T > TAnyBasic.StaticCapacity Ty))
    (hmem : Target.sizeof T > TAnyBasic.StaticCapacity Ty → c.1.DynamicMemory = w.Next)
    (htype : c.1.Type_ = some T) :
    (Target.sizeof T ≤ TAnyBasic.StaticCapacity Ty →
      Allocated c.2.Trace = Allocated w.Trace ∧ Freed c.2.Trace = Freed w.Trace ∧
      Allocated (c.1.dtor w2).Trace = Allocated w2.Trace ∧
      Freed (c.1.dtor w2).Trace = Freed w2.Trace) ∧
    (Target.sizeof T > TAnyBasic.StaticCapacity Ty →
      Allocated c.2.Trace = Allocated w.Trace ++ [(Target.sizeof T, c.1.DynamicMemory)] ∧
      Freed c.2.Trace = Freed w.Trace ∧
      Allocated (c.1.dtor w2).Trace = Allocated w2.Trace ∧
      Freed (c.1.dtor w2).Trace = Freed w2.Trace ++ [c.1.DynamicMemory]) := by
  have hA : Allocated c.2.Trace = Allocated w.Trace ++
      if Target.sizeof T > TAnyBasic.StaticCapacity Ty then [(Target.sizeof T, w.Next)]
      else [] := by
    rw [htrace, Allocated_append, Allocated_Setup T _ call hcA]
  have hF : Freed c.2.Trace = Freed w.Trace := by
    rw [htrace, Freed_append, Freed_Setup T _ call hcF, List.append_nil]
  have hdA : Allocated (c.1.dtor w2).Trace = Allocated w2.Trace := by
    rw [c.1.dtor_Trace w2, Allocated_append, c.1.Allocated_Teardown, List.append_nil]
  have hdF : Freed (c.1.dtor w2).Trace = Freed w2.Trace ++
      if c.1.IsDynamic then [c.1.DynamicMemory] else [] := by
    rw [c.1.dtor_Trace w2, Freed_append, c.1.Teardown_of_Type T htype]
    split <;> rfl
  constructor
  · intro h
    have h' : ¬ Target.sizeof T > TAnyBasic.StaticCapacity Ty := by omega
    refine ⟨?_, hF, hdA, ?_⟩
    · rw [hA]; simp [h']
    · rw [hdF, hdyn]; simp [h']
  · intro h
    refine ⟨?_, hF, hdA, ?_⟩
    · rw [hA, hmem h]; simp [h]
    · rw [hdF, hdyn]; simp [h]

/-- C16. Allocator calls per storage class: constructing a container from a value of type `T`
(by copy or by move) and destroying it later, in whatever world it is then, makes no `Allocate`
and no `Free` call when `sizeof(T) <= StaticCapacity()`; and when `sizeof(T) >
StaticCapacity()` the construction makes exactly one `Allocate`, of `sizeof(T)` bytes, and no
`Free`, and the destruction makes no `Allocate` and exactly one `Free`, of the block that
`Allocate` returned. -/
theorem C16_allocator_calls (T : Ty) (v : Target.Val T) (raw : TAnyBasic Ty) (w w2 : World Ty) :
    ((Target.sizeof T ≤ TAnyBasic.StaticCapacity Ty →
        Allocated (TAnyBasic.ctorCopy raw T v w).2.Trace = Allocated w.Trace ∧
        Freed (TAnyBasic.ctorCopy raw T v w).2.Trace = Freed w.Trace ∧
        Allocated ((TAnyBasic.ctorCopy raw T v w).1.dtor w2).Trace = Allocated w2.Trace ∧
        Freed ((TAnyBasic.ctorCopy raw T v w).1.dtor w2).Trace = Freed w2.Trace) ∧
      (Target.sizeof T > TAnyBasic.StaticCapacity Ty →
        Allocated (TAnyBasic.ctorCopy raw T v w).2.Trace =
          Allocated w.Trace ++ [(Target.sizeof T, (TAnyBasic.ctorCopy raw T v w).1.DynamicMemory)] ∧
        Freed (TAnyBasic.ctorCopy raw T v w).2.Trace = Freed w.Trace ∧
        Allocated ((TAnyBasic.ctorCopy raw T v w).1.dtor w2).Trace = Allocated w2.Trace ∧
        Freed ((TAnyBasic.ctorCopy raw T v w).1.dtor w2).Trace =
          Freed w2.Trace ++ [(TAnyBasic.ctorCopy raw T v w).1.DynamicMemory])) ∧
    ((Target.sizeof T ≤ TAnyBasic.StaticCapacity Ty →
        Allocated (TAnyBasic.ctorMove raw T v w).2.Trace = Allocated w.Trace ∧
        Freed (TAnyBasic.ctorMove raw T v w).2.Trace = Freed w.Trace ∧
        Allocated ((TAnyBasic.ctorMove raw T v w).1.dtor w2).Trace = Allocated w2.Trace ∧
        Freed ((TAnyBasic.ctorMove raw T v w).1.dtor w2).Trace = Freed w2.Trace) ∧
      (Target.sizeof T > TAnyBasic.StaticCapacity Ty →
        Allocated (TAnyBasic.ctorMove raw T v w).2.Trace =
          Allocated w.Trace ++ [(Target.sizeof T, (TAnyBasic.ctorMove raw T v w).1.DynamicMemory)] ∧
        Freed (TAnyBasic.ctorMove raw T v w).2.Trace = Freed w.Trace ∧
        Allocated ((TAnyBasic.ctorMove raw T v w).1.dtor w2).Trace = Allocated w2.Trace ∧
        Freed ((TAnyBasic.ctorMove raw T v w).1.dtor w2).Trace =
          Freed w2.Trace ++ [(TAnyBasic.ctorMove raw T v w).1.DynamicMemory])) := by
  constructor
  · have h := TAnyBasic.Copy_Trace (TAnyBasic.ctor raw) T v w
    exact TAnyBasic.construct_destroy_calls (TAnyBasic.ctorCopy raw T v w) T w w2 (Event.Copy T)
      rfl rfl h.1 h.2.1 h.2.2 (TAnyBasic.Copy_Is_As _ T v w).1
  · have h := TAnyBasic.Move_Trace (TAnyBasic.ctor raw) T v w
    exact TAnyBasic.construct_destroy_calls (TAnyBasic.ctorMove raw T v w) T w w2 (Event.Move T)
      rfl rfl h.1 h.2.1 h.2.2 (TAnyBasic.Move_Is_As _ T v w).1

/-- C16 at concrete inputs: an `int` (inline) and a `std::string` (heap) on the 64-bit example
target, constructed in a fresh world and destroyed at once. -/
theorem C16_allocator_calls_witness :
    (Target.sizeof CxxType.int ≤ TAnyBasic.StaticCapacity CxxType ∧
      Allocated ((TAnyBasic.ctorCopy RawContainer CxxType.int (42 : Int) FreshWorld).1.dtor
        (TAnyBasic.ctorCopy RawContainer CxxType.int (42 : Int) FreshWorld).2).Trace =
        Allocated (TAnyBasic.ctorCopy RawContainer CxxType.int (42 : Int) FreshWorld).2.Trace) ∧
    (Target.sizeof CxxType.string > TAnyBasic.StaticCapacity CxxType ∧
      Allocated (TAnyBasic.ctorCopy RawContainer CxxType.string ("hello" : String) FreshWorld).2.Trace =
        Allocated FreshWorld.Trace ++ [(Target.sizeof CxxType.string,
          (TAnyBasic.ctorCopy RawContainer CxxType.string ("hello" : String) FreshWorld).1.DynamicMemory)]) :=
  ⟨⟨by decide,
    ((C16_allocator_calls CxxType.int (42 : Int) RawContainer FreshWorld
      (TAnyBasic.ctorCopy RawContainer CxxType.int (42 : Int) FreshWorld).2).1.1 (by decide)).2.2.1⟩,
   ⟨by decide,
    ((C16_allocator_calls CxxType.string ("hello" : String) RawContainer FreshWorld
      FreshWorld).1.2 (by decide)).1⟩⟩

end AllocatorCalls
end WBMQTT

namespace WBMQTT
section EmplaceProofs
variable {Ty : Type} [Target Ty] [DecidableEq Ty]

theorem TAnyBasic.EmplaceUnsafe_As (self : TAnyBasic Ty) (T : Ty) (v : Target.Val T)
    (w : World Ty) :
    (self.EmplaceUnsafe T v w).1 = Outcome.Return v ∧
      (self.EmplaceUnsafe T v w).2.1.As T (self.EmplaceUnsafe T v w).2.2 = Outcome.Return v := by
  have key : (self.EmplaceUnsafe T v w).2.1.As T (self.EmplaceUnsafe T v w).2.2 =
      Outcome.Return v := by
    unfold TAnyBasic.EmplaceUnsafe
    by_cases h : Target.sizeof T > TAnyBasic.StaticCapacity Ty
    · simp [h, TAnyBasic.SetData, TAnyBasic.InitDynamic, TAnyBasic.Is, TAnyBasic.As,
        TAnyBasic.Empty, TAnyBasic.Data, Object.Cast_mk, World.Load_Store_Allocate]
    · simp [h, TAnyBasic.SetData, TAnyBasic.InitStatic, TAnyBasic.Is, TAnyBasic.As,
        TAnyBasic.Empty, TAnyBasic.Data, Object.Cast_mk]
  exact ⟨key, key⟩

/-- C19. Emplace: for every container state and every type `T`, `Emplace<T>(args)` first makes
the calls that destroy the previous payload, once (none for an empty container; the destructor
of the stored type, and `Free` of its block for a heap payload), then allocates if `T` goes to
the heap and constructs `T(args)`; it leaves the container with `Is<T>()` true and `As<T>()`
equal to `T(args)`, and the reference it returns is to that stored value. -/
theorem C19_emplace (self : TAnyBasic Ty) (T : Ty) (v : Target.Val T) (w : World Ty) :
    (self.Emplace T v w).2.2.Trace =
      w.Trace ++ self.Teardown ++ Setup T w.Next (Event.Construct T) ∧
    (self.Emplace T v w).2.1.Is T = true ∧
    (self.Emplace T v w).2.1.As T (self.Emplace T v w).2.2 = Outcome.Return v ∧
    (self.Emplace T v w).1 = Outcome.Return v := by
  have hc := self.Clean_Trace w
  have he := TAnyBasic.EmplaceUnsafe_As (self.Clean w).1 T v (self.Clean w).2
  refine ⟨?_, ?_, he.2, he.1⟩
  · rw [TAnyBasic.Emplace, (TAnyBasic.EmplaceUnsafe_Trace _ T v _).1, hc.1, hc.2]
  · exact TAnyBasic.Is_of_Type _ T (TAnyBasic.EmplaceUnsafe_Type _ T v _)

/-- C20. C string coercion: a container constructed or assigned from a C string stores a
`std::string`: `Is<std::string>()` is true, `As<std::string>()` returns the string built from
the C string, whose text is the text of the C string, and `As<U>()` for any other type `U`
(`int` for one) raises `TAnyTypesMismatchError`, built from the names of `std::string` and
`U`. -/
theorem C20_c_string_coercion [StdString Ty] (c_string : String) (raw self : TAnyBasic Ty)
    (w : World Ty) :
    ((TAnyBasic.ctorCString raw c_string w).1.Is StdString.string = true ∧
      (TAnyBasic.ctorCString raw c_string w).1.As StdString.string
          (TAnyBasic.ctorCString raw c_string w).2 =
        Outcome.Return (StdString.construct c_string) ∧
      ∀ U : Ty, StdString.string ≠ U →
        (TAnyBasic.ctorCString raw c_string w).1.As U (TAnyBasic.ctorCString raw c_string w).2 =
          Outcome.Throw (TAnyCastError.TAnyTypesMismatchError
            (Target.NameOfType (StdString.string : Ty)) (Target.NameOfType U))) ∧
    ((self.assignCString c_string w).1.Is StdString.string = true ∧
      (self.assignCString c_string w).1.As StdString.string (self.assignCString c_string w).2 =
        Outcome.Return (StdString.construct c_string) ∧
      ∀ U : Ty, StdString.string ≠ U →
        (self.assignCString c_string w).1.As U (self.assignCString c_string w).2 =
          Outcome.Throw (TAnyCastError.TAnyTypesMismatchError
            (Target.NameOfType (StdString.string : Ty)) (Target.NameOfType U))) ∧
    StdString.text (StdString.construct c_string : Target.Val (StdString.string : Ty)) =
      c_string := by
  have h1 := TAnyBasic.Move_Is_As (TAnyBasic.ctor raw) StdString.string
    (StdString.construct c_string) w
  have h2 := TAnyBasic.Move_Is_As (self.Clean w).1 StdString.string
    (StdString.construct c_string) (self.Clean w).2
  refine ⟨⟨?_, h1.2, ?_⟩, ⟨?_, h2.2, ?_⟩, StdString.text_construct c_string⟩
  · exact TAnyBasic.Is_of_Type _ _ h1.1
  · intro U hU; exact TAnyBasic.As_mismatch _ _ U h1.1 hU _
  · exact TAnyBasic.Is_of_Type _ _ h2.1
  · intro U hU; exact TAnyBasic.As_mismatch _ _ U h2.1 hU _

end EmplaceProofs

/-- C20 at a concrete input: a container constructed from `"hello"` on the example target, read
as `std::string` and as `int`. -/
theorem C20_c_string_coercion_witness :
    (TAnyBasic.ctorCString RawContainer "hello" FreshWorld).1.As CxxType.string
        (TAnyBasic.ctorCString RawContainer "hello" FreshWorld).2 = Outcome.Return "hello" ∧
    CxxType.string ≠ CxxType.int ∧
    (TAnyBasic.ctorCString RawContainer "hello" FreshWorld).1.As CxxType.int
        (TAnyBasic.ctorCString RawContainer "hello" FreshWorld).2 =
      Outcome.Throw (TAnyCastError.TAnyTypesMismatchError "std::string" "int") :=
  ⟨(C20_c_string_coercion "hello" RawContainer RawContainer FreshWorld).1.2.1,
   by decide,
   (C20_c_string_coercion "hello" RawContainer RawContainer FreshWorld).1.2.2 CxxType.int
     (by decide)⟩

end WBMQTT

namespace WBMQTT
section FrameLemmas
variable {Ty : Type} [Target Ty] [DecidableEq Ty]

theorem World.Load_Log (w : World Ty) (e : Event Ty) (m : Nat) : (w.Log e).Load m = w.Load m :=
  rfl

theorem World.Load_Store_ne (w : World Ty) (addr m : Nat) (o : Option (Object Ty))
    (h : addr ≠ m) : (w.Store addr o).Load m = w.Load m := by
  unfold World.Load World.Store
  simp only
  congr 1
  induction w.Heap with
  | nil => rfl
  | cons e t ih =>
    obtain ⟨k, b⟩ := e
    simp only [List.map_cons]
    by_cases he : k = addr
    · have hm : (m == k) = false := by
        rw [he]; exact beq_false_of_ne (fun h' => h h'.symm)
      simp only [he, if_true, List.lookup_cons]
      rw [he] at hm
      simp only [hm, ih]
    · simp only [he, if_false, List.lookup_cons]
      cases hme : m == k
      · simp only [ih]
      · rfl

theorem World.Load_Free_ne (w : World Ty) (addr m : Nat) (h : addr ≠ m) :
    (Allocator.Free addr w).Load m = w.Load m := by
  unfold World.Load Allocator.Free
  simp only
  congr 1
  induction w.Heap with
  | nil => rfl
  | cons e t ih =>
    obtain ⟨k, b⟩ := e
    by_cases he : k = addr
    · have hm : (m == k) = false := by
        rw [he]; exact beq_false_of_ne (fun h' => h h'.symm)
      have hb : (k != addr) = false := by simp [he]
      simp only [List.filter_cons, hb, List.lookup_cons, hm]
      simpa using ih
    · have hb : (k != addr) = true := by simpa using he
      simp only [List.filter_cons, hb, if_true, List.lookup_cons]
      cases hme : m == k
      · simp only [ih]
      · rfl

theorem World.Load_Allocate_ne (w : World Ty) (size m : Nat) (h : m ≠ w.Next) :
    (Allocator.Allocate size w).2.Load m = w.Load m := by
  unfold World.Load Allocator.Allocate
  simp only [List.lookup_cons]
  have hm : (m == w.Next) = false := beq_false_of_ne h
  simp [hm]

theorem World.Keeps_refl (m : Nat) (w : World Ty) : World.Keeps m w w :=
  ⟨rfl, Nat.le_refl _⟩

theorem World.Keeps_trans (m : Nat) (w w1 w2 : World Ty) (h1 : World.Keeps m w w1)
    (h2 : World.Keeps m w1 w2) : World.Keeps m w w2 :=
  ⟨h2.1.trans h1.1, Nat.le_trans h1.2 h2.2⟩

end FrameLemmas
end WBMQTT

namespace WBMQTT
section FrameSteps
variable {Ty : Type} [Target Ty] [DecidableEq Ty]

theorem World.Keeps_Allocate (m size : Nat) (w : World Ty) (hm : m < w.Next) :
    World.Keeps m w (Allocator.Allocate size w).2 ∧ (Allocator.Allocate size w).1 ≠ m := by
  refine ⟨⟨World.Load_Allocate_ne w size m (by omega), ?_⟩, ?_⟩
  · simp [Allocator.Allocate]
  · simp only [Allocator.Allocate]; omega

theorem TAnyBasic.DeleteDirty_Keeps (b : TAnyBasic Ty) (w : World Ty) (m : Nat)
    (hb : b.Avoids m) :
    World.Keeps m w (b.DeleteDirty w).2 ∧ (b.DeleteDirty w).1.Avoids m := by
  unfold TAnyBasic.DeleteDirty
  split
  · split
    · rename_i hdyn
      refine ⟨⟨?_, ?_⟩, hb⟩
      · rw [World.Load_Free_ne _ _ _ (hb hdyn), World.Load_Store_ne _ _ _ _ (hb hdyn)]
        rfl
      · simp [Allocator.Free, World.Store, TTypeWrapper.Destroy, World.Log]
    · rename_i hdyn
      refine ⟨⟨rfl, ?_⟩, ?_⟩
      · simp [TTypeWrapper.Destroy, World.Log]
      · intro h; simp [hdyn] at h
  · exact ⟨World.Keeps_refl m w, hb⟩

theorem TAnyBasic.Clean_Keeps (b : TAnyBasic Ty) (w : World Ty) (m : Nat) (hb : b.Avoids m) :
    World.Keeps m w (b.Clean w).2 ∧ (b.Clean w).1.Avoids m := by
  refine ⟨(b.DeleteDirty_Keeps w m hb).1, ?_⟩
  intro h; simp [TAnyBasic.Clean, TAnyBasic.Reset] at h

theorem TAnyBasic.CopyDynamic_Keeps (b : TAnyBasic Ty) (o : Option (Object Ty)) (size : Nat)
    (w : World Ty) (m : Nat) (hm : m < w.Next) :
    World.Keeps m w (b.CopyDynamic o size w).2 ∧ (b.CopyDynamic o size w).1.Avoids m := by
  have hne : w.Next ≠ m := by omega
  unfold TAnyBasic.CopyDynamic TAnyBasic.InitDynamic
  simp only
  split
  · refine ⟨⟨?_, ?_⟩, ?_⟩
    · rw [World.Load_Store_ne _ _ _ _ (by simpa [Allocator.Allocate] using hne)]
      simp only [TTypeWrapper.Copy, World.Load_Log]
      exact World.Load_Allocate_ne w size m (by omega)
    · simp [World.Store, TTypeWrapper.Copy, World.Log, Allocator.Allocate]
    · intro _; simpa [Allocator.Allocate] using hne
  · refine ⟨(World.Keeps_Allocate m size w hm).1, ?_⟩
    intro _; simpa [Allocator.Allocate] using hne

theorem TAnyBasic.MoveDynamic_Keeps (b : TAnyBasic Ty) (o : Option (Object Ty)) (size : Nat)
    (w : World Ty) (m : Nat) (hm : m < w.Next) :
    World.Keeps m w (b.MoveDynamic o size w).2 ∧ (b.MoveDynamic o size w).1.Avoids m := by
  have hne : w.Next ≠ m := by omega
  unfold TAnyBasic.MoveDynamic TAnyBasic.InitDynamic
  simp only
  split
  · refine ⟨⟨?_, ?_⟩, ?_⟩
    · rw [World.Load_Store_ne _ _ _ _ (by simpa [Allocator.Allocate] using hne)]
      simp only [TTypeWrapper.Move, World.Load_Log]
      exact World.Load_Allocate_ne w size m (by omega)
    · simp [World.Store, TTypeWrapper.Move, World.Log, Allocator.Allocate]
    · intro _; simpa [Allocator.Allocate] using hne
  · refine ⟨(World.Keeps_Allocate m size w hm).1, ?_⟩
    intro _; simpa [Allocator.Allocate] using hne

theorem TAnyBasic.CopyStatic_Keeps (b : TAnyBasic Ty) (o : Option (Object Ty)) (size : Nat)
    (w : World Ty) (m : Nat) :
    World.Keeps m w (b.CopyStatic o size w).2 ∧ (b.CopyStatic o size w).1.Avoids m := by
  unfold TAnyBasic.CopyStatic TAnyBasic.InitStatic
  simp only
  split
  · refine ⟨⟨rfl, by simp [TTypeWrapper.Copy, World.Log]⟩, ?_⟩
    intro h; simp at h
  · refine ⟨World.Keeps_refl m w, ?_⟩
    intro h; simp at h

theorem TAnyBasic.MoveStatic_Keeps (b : TAnyBasic Ty) (o : Option (Object Ty)) (size : Nat)
    (w : World Ty) (m : Nat) :
    World.Keeps m w (b.MoveStatic o size w).2 ∧ (b.MoveStatic o size w).1.Avoids m := by
  unfold TAnyBasic.MoveStatic TAnyBasic.InitStatic
  simp only
  split
  · refine ⟨⟨rfl, by simp [TTypeWrapper.Move, World.Log]⟩, ?_⟩
    intro h; simp at h
  · refine ⟨World.Keeps_refl m w, ?_⟩
    intro h; simp at h

theorem TAnyBasic.Copy_Keeps (b : TAnyBasic Ty) (T : Ty) (v : Target.Val T) (w : World Ty)
    (m : Nat) (hm : m < w.Next) :
    World.Keeps m w (b.Copy T v w).2 ∧ (b.Copy T v w).1.Avoids m := by
  unfold TAnyBasic.Copy
  simp only
  split
  · exact TAnyBasic.CopyDynamic_Keeps _ _ _ w m hm
  · exact TAnyBasic.CopyStatic_Keeps _ _ _ w m

theorem TAnyBasic.Move_Keeps (b : TAnyBasic Ty) (T : Ty) (v : Target.Val T) (w : World Ty)
    (m : Nat) (hm : m < w.Next) :
    World.Keeps m w (b.Move T v w).2 ∧ (b.Move T v w).1.Avoids m := by
  unfold TAnyBasic.Move
  simp only
  split
  · exact TAnyBasic.MoveDynamic_Keeps _ _ _ w m hm
  · exact TAnyBasic.MoveStatic_Keeps _ _ _ w m

theorem TAnyBasic.CopyAny_Keeps (b other : TAnyBasic Ty) (w : World Ty) (m : Nat)
    (hm : m < w.Next) (hb : b.Avoids m) :
    World.Keeps m w (b.CopyAny other w).2 ∧ (b.CopyAny other w).1.Avoids m := by
  unfold TAnyBasic.CopyAny
  split
  · exact ⟨World.Keeps_refl m w, hb⟩
  · simp only
    split
    · exact TAnyBasic.CopyDynamic_Keeps _ _ _ w m hm
    · exact TAnyBasic.CopyStatic_Keeps _ _ _ w m

theorem TAnyBasic.SetData_Keeps (b : TAnyBasic Ty) (o : Option (Object Ty)) (w : World Ty)
    (m : Nat) (hb : b.Avoids m) :
    World.Keeps m w (b.SetData o w).2 ∧ (b.SetData o w).1.Avoids m := by
  unfold TAnyBasic.SetData
  split
  · rename_i hdyn
    exact ⟨⟨World.Load_Store_ne _ _ _ _ (hb hdyn), by simp [World.Store]⟩, hb⟩
  · rename_i hdyn
    refine ⟨World.Keeps_refl m w, ?_⟩
    intro h; simp [hdyn] at h

theorem TAnyBasic.EmplaceUnsafe_Keeps (b : TAnyBasic Ty) (T : Ty) (v : Target.Val T)
    (w : World Ty) (m : Nat) (hm : m < w.Next) :
    World.Keeps m w (b.EmplaceUnsafe T v w).2.2 ∧ (b.EmplaceUnsafe T v w).2.1.Avoids m := by
  have hne : w.Next ≠ m := by omega
  unfold TAnyBasic.EmplaceUnsafe
  simp only
  split
  · have hav : TAnyBasic.Avoids
        (TAnyBasic.InitDynamic { b with Type_ := some T } (Target.sizeof T) w).1 m := by
      intro _; simpa [TAnyBasic.InitDynamic, Allocator.Allocate] using hne
    have h1 := TAnyBasic.SetData_Keeps
      (TAnyBasic.InitDynamic { b with Type_ := some T } (Target.sizeof T) w).1
      (some ⟨T, v⟩)
      ((TAnyBasic.InitDynamic { b with Type_ := some T } (Target.sizeof T) w).2.Log
        (Event.Construct T)) m hav
    refine ⟨World.Keeps_trans m w _ _ ?_ h1.1, h1.2⟩
    exact ⟨World.Load_Allocate_ne w _ m (by omega), by simp [TAnyBasic.InitDynamic,
      Allocator.Allocate, World.Log]⟩
  · have hav : TAnyBasic.Avoids
        (TAnyBasic.InitStatic { b with Type_ := some T } (Target.sizeof T)) m := by
      intro h; simp [TAnyBasic.InitStatic] at h
    have h1 := TAnyBasic.SetData_Keeps
      (TAnyBasic.InitStatic { b with Type_ := some T } (Target.sizeof T)) (some ⟨T, v⟩)
      (w.Log (Event.Construct T)) m hav
    exact ⟨World.Keeps_trans m w _ _ ⟨rfl, by simp [World.Log]⟩ h1.1, h1.2⟩

theorem TAnyBasic.MoveAny_Avoids (b other : TAnyBasic Ty) (m : Nat) (hb : b.Avoids m)
    (ho : other.Avoids m) : (b.MoveAny other).1.Avoids m := by
  unfold TAnyBasic.MoveAny
  split
  · exact hb
  · split
    · rename_i hdyn
      intro _; simpa [TAnyBasic.AssignDynamic] using ho hdyn
    · intro h; simp [TAnyBasic.AssignStatic, TAnyBasic.InitStatic] at h

theorem TAnyBasic.Mutate_Keeps (b : TAnyBasic Ty) (w : World Ty) (μ : Mutation Ty) (m : Nat)
    (hm : m < w.Next) (hb : b.Avoids m) (hμ : μ.Avoids m) :
    World.Keeps m w (b.Mutate w μ).2 ∧ (b.Mutate w μ).1.Avoids m := by
  have hc := b.Clean_Keeps w m hb
  have hm' : m < (b.Clean w).2.Next := Nat.lt_of_lt_of_le hm hc.1.2
  cases μ with
  | AssignThrough T value =>
    simp only [TAnyBasic.Mutate, TAnyBasic.AssignThrough]
    split
    · exact b.SetData_Keeps _ w m hb
    · exact ⟨World.Keeps_refl m w, hb⟩
    · exact ⟨World.Keeps_refl m w, hb⟩
    · exact ⟨World.Keeps_refl m w, hb⟩
  | Emplace T object =>
    have h := TAnyBasic.EmplaceUnsafe_Keeps (b.Clean w).1 T object (b.Clean w).2 m hm'
    exact ⟨World.Keeps_trans m w _ _ hc.1 h.1, h.2⟩
  | assignCopy T object =>
    have h := TAnyBasic.Copy_Keeps (b.Clean w).1 T object (b.Clean w).2 m hm'
    exact ⟨World.Keeps_trans m w _ _ hc.1 h.1, h.2⟩
  | assignMove T object =>
    have h := TAnyBasic.Move_Keeps (b.Clean w).1 T object (b.Clean w).2 m hm'
    exact ⟨World.Keeps_trans m w _ _ hc.1 h.1, h.2⟩
  | assignCopyAny rhs =>
    have h := TAnyBasic.CopyAny_Keeps (b.Clean w).1 rhs (b.Clean w).2 m hm' hc.2
    exact ⟨World.Keeps_trans m w _ _ hc.1 h.1, h.2⟩
  | assignMoveAny rhs =>
    exact ⟨hc.1, TAnyBasic.MoveAny_Avoids (b.Clean w).1 rhs m hc.2 hμ⟩
  | Clean => exact hc

theorem TAnyBasic.MutateAll_Keeps (b : TAnyBasic Ty) (w : World Ty) (ms : List (Mutation Ty))
    (m : Nat) (hm : m < w.Next) (hb : b.Avoids m) (hms : ∀ μ ∈ ms, μ.Avoids m) :
    World.Keeps m w (b.MutateAll w ms).2 ∧ (b.MutateAll w ms).1.Avoids m := by
  induction ms generalizing b w with
  | nil => exact ⟨World.Keeps_refl m w, hb⟩
  | cons μ ms ih =>
    have h1 := b.Mutate_Keeps w μ m hm hb (hms μ (List.mem_cons_self μ ms))
    have h2 := ih (b.Mutate w μ).1 (b.Mutate w μ).2 (Nat.lt_of_lt_of_le hm h1.1.2) h1.2
      (fun ν hν => hms ν (List.mem_cons_of_mem μ hν))
    exact ⟨World.Keeps_trans m w _ _ h1.1 h2.1, h2.2⟩

end FrameSteps
end WBMQTT

namespace WBMQTT
section Independence
variable {Ty : Type} [Target Ty] [DecidableEq Ty]

theorem TAnyBasic.As_of_Data (self : TAnyBasic Ty) (T : Ty) (v : Target.Val T) (w : World Ty)
    (ht : self.Type_ = some T) (hd : self.Data w = some ⟨T, v⟩) :
    self.As T w = Outcome.Return v := by
  simp [TAnyBasic.As, TAnyBasic.Empty, TAnyBasic.Is, ht, hd, Object.Cast_mk]

theorem Heap.lookup_mem (l : List (Nat × Block Ty)) (m : Nat) (b : Block Ty)
    (hl : l.lookup m = some b) : (m, b) ∈ l := by
  induction l with
  | nil => simp at hl
  | cons e t ih =>
    obtain ⟨k, c⟩ := e
    rw [List.lookup_cons] at hl
    cases hk : m == k
    · rw [hk] at hl
      exact List.mem_cons_of_mem _ (ih hl)
    · rw [hk] at hl
      have hmk : m = k := by simpa using hk
      cases hl
      rw [hmk]
      exact List.mem_cons_self _ _

theorem World.Load_lt (w : World Ty) (hw : w.Fresh) (m : Nat) (o : Object Ty)
    (h : w.Load m = some o) : m < w.Next := by
  unfold World.Load at h
  cases hl : w.Heap.lookup m with
  | none => simp [hl] at h
  | some b => exact hw (m, b) (Heap.lookup_mem w.Heap m b hl)

theorem TAnyBasic.Data_Keeps (a : TAnyBasic Ty) (w w1 : World Ty)
    (h : a.IsDynamic = true → World.Keeps a.DynamicMemory w w1) : a.Data w1 = a.Data w := by
  unfold TAnyBasic.Data
  split
  · rename_i hdyn; exact (h hdyn).1
  · rfl

theorem TAnyBasic.CopyAny_Holds (b a : TAnyBasic Ty) (T : Ty) (v : Target.Val T) (w : World Ty)
    (ha : a.Holds T v w) (hb : b.StaticSize < 256) :
    (b.CopyAny a w).1.Holds T v (b.CopyAny a w).2 ∧
      (b.CopyAny a w).1.GetSize = a.GetSize ∧ (b.CopyAny a w).1.IsDynamic = a.IsDynamic := by
  obtain ⟨ht, hd, hs, hbyte⟩ := ha
  have hne : a.Empty = false := by simp [TAnyBasic.Empty, ht]
  unfold TAnyBasic.CopyAny
  simp only [hne, Bool.false_eq_true, if_false]
  cases hdyn : a.IsDynamic
  · simp only [TAnyBasic.Data, hdyn, Bool.false_eq_true, if_false] at hd
    simp only [TAnyBasic.GetSize, hdyn, Bool.false_eq_true, if_false] at hs
    have hmod : a.StaticSize % 256 = a.StaticSize := Nat.mod_eq_of_lt hbyte
    simp [TAnyBasic.CopyStatic, TAnyBasic.InitStatic, TTypeWrapper.Copy, TAnyBasic.Holds,
      TAnyBasic.Data, TAnyBasic.GetSize, ht, hd, Object.Cast_mk, hmod, hs, hdyn]
    omega
  · simp only [TAnyBasic.Data, hdyn, if_true] at hd
    simp only [TAnyBasic.GetSize, hdyn, if_true] at hs
    simp [TAnyBasic.CopyDynamic, TAnyBasic.InitDynamic, TTypeWrapper.Copy, TAnyBasic.Holds,
      TAnyBasic.Data, TAnyBasic.GetSize, ht, hd, Object.Cast_mk, hs, hdyn,
      World.Load_Store_Allocate, hb]

/-- What the mutations of a copy do to the original: nothing. -/
theorem TAnyBasic.original_after_mutations (a b : TAnyBasic Ty) (T : Ty) (v : Target.Val T)
    (w w1 : World Ty) (ms : List (Mutation Ty)) (ha : a.Holds T v w) (hw : w.Fresh)
    (hk : a.IsDynamic = true → World.Keeps a.DynamicMemory w w1)
    (hb : a.IsDynamic = true → b.Avoids a.DynamicMemory)
    (hms : ∀ μ ∈ ms, a.IsDynamic = true → Mutation.Avoids μ a.DynamicMemory) :
    a.As T (b.MutateAll w1 ms).2 = Outcome.Return v ∧
      a.As T ((b.MutateAll w1 ms).1.dtor (b.MutateAll w1 ms).2) = Outcome.Return v := by
  have key : ∀ w2 : World Ty, (a.IsDynamic = true → World.Keeps a.DynamicMemory w w2) →
      a.As T w2 = Outcome.Return v := by
    intro w2 h2
    exact a.As_of_Data T v w2 ha.1 (by rw [a.Data_Keeps w w2 h2]; exact ha.2.1)
  have hall : a.IsDynamic = true →
      World.Keeps a.DynamicMemory w (b.MutateAll w1 ms).2 ∧
        (b.MutateAll w1 ms).1.Avoids a.DynamicMemory := by
    intro hdyn
    have hload : w.Load a.DynamicMemory = some ⟨T, v⟩ := by
      have := ha.2.1
      simpa [TAnyBasic.Data, hdyn] using this
    have hlt : a.DynamicMemory < w1.Next :=
      Nat.lt_of_lt_of_le (w.Load_lt hw _ _ hload) (hk hdyn).2
    have h := b.MutateAll_Keeps w1 ms a.DynamicMemory hlt (hb hdyn)
      (fun μ hμ => hms μ hμ hdyn)
    exact ⟨World.Keeps_trans _ w w1 _ (hk hdyn) h.1, h.2⟩
  refine ⟨key _ (fun hdyn => (hall hdyn).1), key _ (fun hdyn => ?_)⟩
  have h := hall hdyn
  exact World.Keeps_trans _ w _ _ h.1
    ((b.MutateAll w1 ms).1.DeleteDirty_Keeps (b.MutateAll w1 ms).2 a.DynamicMemory h.2).1

/-- C17. Copy independence: for a container `a` that holds `v` of type `T`, a copy `b` made by
copy construction, or by copy assignment over another container, holds `v` as a `T`, with the
same `GetSize()` and the same storage class as `a`; and after any sequence of mutations of `b`
(assignment through `As<T>()`, `Emplace`, assignment of a value or of some other container,
`Clean`), and after the destruction of `b` that follows, `a.Is<T>()` is true and `a.As<T>()`
still returns `v`. -/
theorem C17_copy_independence (a raw b0 : TAnyBasic Ty) (T : Ty) (v : Target.Val T)
    (w : World Ty) (ms : List (Mutation Ty)) (ha : a.Holds T v w) (hw : w.Fresh)
    (hb0 : a.IsDynamic = true → b0.Avoids a.DynamicMemory)
    (hms : ∀ μ ∈ ms, a.IsDynamic = true → Mutation.Avoids μ a.DynamicMemory) :
    ((TAnyBasic.ctorCopyAny raw a w).1.Holds T v (TAnyBasic.ctorCopyAny raw a w).2 ∧
      (TAnyBasic.ctorCopyAny raw a w).1.As T (TAnyBasic.ctorCopyAny raw a w).2 = Outcome.Return v ∧
      (TAnyBasic.ctorCopyAny raw a w).1.GetSize = a.GetSize ∧
      (TAnyBasic.ctorCopyAny raw a w).1.IsDynamic = a.IsDynamic ∧
      a.Is T = true ∧
      a.As T ((TAnyBasic.ctorCopyAny raw a w).1.MutateAll
        (TAnyBasic.ctorCopyAny raw a w).2 ms).2 = Outcome.Return v ∧
      a.As T (((TAnyBasic.ctorCopyAny raw a w).1.MutateAll
          (TAnyBasic.ctorCopyAny raw a w).2 ms).1.dtor
        ((TAnyBasic.ctorCopyAny raw a w).1.MutateAll
          (TAnyBasic.ctorCopyAny raw a w).2 ms).2) = Outcome.Return v) ∧
    ((b0.assignCopyAny a false w).1.Holds T v (b0.assignCopyAny a false w).2 ∧
      (b0.assignCopyAny a false w).1.As T (b0.assignCopyAny a false w).2 = Outcome.Return v ∧
      (b0.assignCopyAny a false w).1.GetSize = a.GetSize ∧
      (b0.assignCopyAny a false w).1.IsDynamic = a.IsDynamic ∧
      a.Is T = true ∧
      a.As T ((b0.assignCopyAny a false w).1.MutateAll
        (b0.assignCopyAny a false w).2 ms).2 = Outcome.Return v ∧
      a.As T (((b0.assignCopyAny a false w).1.MutateAll
          (b0.assignCopyAny a false w).2 ms).1.dtor
        ((b0.assignCopyAny a false w).1.MutateAll
          (b0.assignCopyAny a false w).2 ms).2) = Outcome.Return v) := by
  have hlt : a.IsDynamic = true → a.DynamicMemory < w.Next := by
    intro hdyn
    have hload : w.Load a.DynamicMemory = some ⟨T, v⟩ := by
      have := ha.2.1
      simpa [TAnyBasic.Data, hdyn] using this
    exact w.Load_lt hw _ _ hload
  have hIs : a.Is T = true := TAnyBasic.Is_of_Type a T ha.1
  constructor
  · have hraw : (TAnyBasic.ctor raw).Avoids a.DynamicMemory ∧
        (TAnyBasic.ctor raw).StaticSize < 256 := by
      constructor
      · intro h; simp [TAnyBasic.ctor, TAnyBasic.Reset] at h
      · simp [TAnyBasic.ctor, TAnyBasic.Reset]
    have hcopy := TAnyBasic.CopyAny_Holds (TAnyBasic.ctor raw) a T v w ha hraw.2
    have hkeep : a.IsDynamic = true →
        World.Keeps a.DynamicMemory w (TAnyBasic.ctorCopyAny raw a w).2 ∧
          (TAnyBasic.ctorCopyAny raw a w).1.Avoids a.DynamicMemory := fun hdyn =>
      TAnyBasic.CopyAny_Keeps (TAnyBasic.ctor raw) a w a.DynamicMemory (hlt hdyn) hraw.1
    have hmut := TAnyBasic.original_after_mutations a (TAnyBasic.ctorCopyAny raw a w).1 T v w
      (TAnyBasic.ctorCopyAny raw a w).2 ms ha hw (fun h => (hkeep h).1) (fun h => (hkeep h).2) hms
    exact ⟨hcopy.1, TAnyBasic.As_of_Data _ T v _ hcopy.1.1 hcopy.1.2.1, hcopy.2.1, hcopy.2.2,
      hIs, hmut.1, hmut.2⟩
  · have hclean : (b0.Clean w).1.StaticSize < 256 := by
      simp [TAnyBasic.Clean, TAnyBasic.Reset]
    have hck : a.IsDynamic = true → World.Keeps a.DynamicMemory w (b0.Clean w).2 ∧
        (b0.Clean w).1.Avoids a.DynamicMemory := fun hdyn =>
      b0.Clean_Keeps w a.DynamicMemory (hb0 hdyn)
    have ha' : a.Holds T v (b0.Clean w).2 :=
      ⟨ha.1, by rw [a.Data_Keeps w _ (fun h => (hck h).1)]; exact ha.2.1, ha.2.2.1, ha.2.2.2⟩
    have hcopy := TAnyBasic.CopyAny_Holds (b0.Clean w).1 a T v (b0.Clean w).2 ha' hclean
    have heq : b0.assignCopyAny a false w = (b0.Clean w).1.CopyAny a (b0.Clean w).2 := by
      simp [TAnyBasic.assignCopyAny]
    have hkeep : a.IsDynamic = true →
        World.Keeps a.DynamicMemory w (b0.assignCopyAny a false w).2 ∧
          (b0.assignCopyAny a false w).1.Avoids a.DynamicMemory := by
      intro hdyn
      rw [heq]
      have h := TAnyBasic.CopyAny_Keeps (b0.Clean w).1 a (b0.Clean w).2 a.DynamicMemory
        (Nat.lt_of_lt_of_le (hlt hdyn) (hck hdyn).1.2) (hck hdyn).2
      exact ⟨World.Keeps_trans _ w _ _ (hck hdyn).1 h.1, h.2⟩
    have hmut := TAnyBasic.original_after_mutations a (b0.assignCopyAny a false w).1 T v w
      (b0.assignCopyAny a false w).2 ms ha hw (fun h => (hkeep h).1) (fun h => (hkeep h).2) hms
    rw [heq] at hmut hkeep ⊢
    exact ⟨hcopy.1, TAnyBasic.As_of_Data _ T v _ hcopy.1.1 hcopy.1.2.1, hcopy.2.1, hcopy.2.2,
      hIs, hmut.1, hmut.2⟩

end Independence
end WBMQTT

namespace WBMQTT
section Steal
variable {Ty : Type} [Target Ty] [DecidableEq Ty]

theorem TAnyBasic.MoveAny_Holds (b s : TAnyBasic Ty) (T : Ty) (v : Target.Val T) (w : World Ty)
    (hs : s.Holds T v w) (hb : b.StaticSize < 256) :
    (b.MoveAny s).1.Holds T v w ∧ (b.MoveAny s).1.GetSize = s.GetSize ∧
      (b.MoveAny s).1.IsDynamic = s.IsDynamic := by
  obtain ⟨ht, hd, hsz, hbyte⟩ := hs
  have hne : s.Empty = false := by simp [TAnyBasic.Empty, ht]
  unfold TAnyBasic.MoveAny
  simp only [hne, Bool.false_eq_true, if_false]
  cases hdyn : s.IsDynamic
  · simp only [TAnyBasic.Data, hdyn, Bool.false_eq_true, if_false] at hd
    simp only [TAnyBasic.GetSize, hdyn, Bool.false_eq_true, if_false] at hsz
    have hmod : s.StaticSize % 256 = s.StaticSize := Nat.mod_eq_of_lt hbyte
    simp [TAnyBasic.AssignStatic, TAnyBasic.InitStatic, TAnyBasic.Holds, TAnyBasic.Data,
      TAnyBasic.GetSize, ht, hd, hmod, hsz, hdyn]
    omega
  · simp only [TAnyBasic.Data, hdyn, if_true] at hd
    simp only [TAnyBasic.GetSize, hdyn, if_true] at hsz
    simp [TAnyBasic.AssignDynamic, TAnyBasic.Holds, TAnyBasic.Data, TAnyBasic.GetSize, ht, hd,
      hsz, hdyn, hb]

theorem TAnyBasic.Teardown_calls (self : TAnyBasic Ty) :
    ∀ e ∈ self.Teardown, (∃ S : Ty, e = Event.Destroy S) ∨ e = Event.Free self.DynamicMemory := by
  intro e he
  unfold TAnyBasic.Teardown at he
  split at he
  · simp at he
  · split at he
    · simp only [List.mem_cons, List.mem_singleton, List.not_mem_nil, or_false] at he
      rcases he with h | h
      · exact Or.inl ⟨_, h⟩
      · exact Or.inr h
    · simp only [List.mem_singleton] at he
      exact Or.inl ⟨_, he⟩

/-- C18. Container move steals the record: for a container `s` that holds `v` of type `T` and
another container `d`, move-constructing a container from `s`, or move-assigning `s` to `d`,
leaves the destination with `Is<T>()` true, `As<T>()` equal to `v`, and the `GetSize()` and
storage class that `s` had, and leaves `s` empty.  The move construction touches neither the
allocator nor the payload type; the move assignment makes only the calls that destroy the
previous payload of `d` (its destructor, and `Free` of its block if it was on the heap): no
copy or move of a `T` and no `Allocate`. -/
theorem C18_move_steals_record (s raw d : TAnyBasic Ty) (T : Ty) (v : Target.Val T)
    (w : World Ty) (hs : s.Holds T v w)
    (hd : s.IsDynamic = true → d.Avoids s.DynamicMemory) :
    ((TAnyBasic.ctorMoveAny raw s).1.Is T = true ∧
      (TAnyBasic.ctorMoveAny raw s).1.As T w = Outcome.Return v ∧
      (TAnyBasic.ctorMoveAny raw s).1.GetSize = s.GetSize ∧
      (TAnyBasic.ctorMoveAny raw s).1.IsDynamic = s.IsDynamic ∧
      (TAnyBasic.ctorMoveAny raw s).2.Empty = true) ∧
    ((d.assignMoveAny s false w).1.1.Is T = true ∧
      (d.assignMoveAny s false w).1.1.As T (d.assignMoveAny s false w).2 = Outcome.Return v ∧
      (d.assignMoveAny s false w).1.1.GetSize = s.GetSize ∧
      (d.assignMoveAny s false w).1.1.IsDynamic = s.IsDynamic ∧
      (d.assignMoveAny s false w).1.2.Empty = true ∧
      (d.assignMoveAny s false w).2.Trace = w.Trace ++ d.Teardown ∧
      (∀ e ∈ d.Teardown, (∃ S : Ty, e = Event.Destroy S) ∨ e = Event.Free d.DynamicMemory) ∧
      Allocated (d.assignMoveAny s false w).2.Trace = Allocated w.Trace) := by
  constructor
  · have h := TAnyBasic.MoveAny_Holds (TAnyBasic.ctor raw) s T v w hs
      (by simp [TAnyBasic.ctor, TAnyBasic.Reset])
    exact ⟨TAnyBasic.Is_of_Type _ T h.1.1, TAnyBasic.As_of_Data _ T v w h.1.1 h.1.2.1, h.2.1,
      h.2.2, TAnyBasic.MoveAny_source_Empty _ s⟩
  · have hck : s.IsDynamic = true → World.Keeps s.DynamicMemory w (d.Clean w).2 :=
      fun hdyn => (d.Clean_Keeps w s.DynamicMemory (hd hdyn)).1
    have hs' : s.Holds T v (d.Clean w).2 :=
      ⟨hs.1, by rw [s.Data_Keeps w _ hck]; exact hs.2.1, hs.2.2.1, hs.2.2.2⟩
    have h := TAnyBasic.MoveAny_Holds (d.Clean w).1 s T v (d.Clean w).2 hs'
      (by simp [TAnyBasic.Clean, TAnyBasic.Reset])
    have heq : d.assignMoveAny s false w = ((d.Clean w).1.MoveAny s, (d.Clean w).2) := by
      simp [TAnyBasic.assignMoveAny]
    rw [heq]
    refine ⟨TAnyBasic.Is_of_Type _ T h.1.1, TAnyBasic.As_of_Data _ T v _ h.1.1 h.1.2.1, h.2.1,
      h.2.2, TAnyBasic.MoveAny_source_Empty _ s, (d.Clean_Trace w).1, d.Teardown_calls, ?_⟩
    show Allocated (d.Clean w).2.Trace = Allocated w.Trace
    rw [(d.Clean_Trace w).1, Allocated_append, d.Allocated_Teardown, List.append_nil]

end Steal

/-- C18 at a concrete input: a heap-stored `std::string` moved onto a container that held an
`int`. -/
theorem C18_move_steals_record_witness :
    HelloContainer.1.Holds CxxType.string "hello" HelloContainer.2 ∧
    (HelloContainer.1.IsDynamic = true → IntContainer.1.Avoids HelloContainer.1.DynamicMemory) ∧
    (IntContainer.1.assignMoveAny HelloContainer.1 false HelloContainer.2).1.1.As CxxType.string
        (IntContainer.1.assignMoveAny HelloContainer.1 false HelloContainer.2).2 =
      Outcome.Return "hello" ∧
    (IntContainer.1.assignMoveAny HelloContainer.1 false HelloContainer.2).1.2.Empty = true :=
  ⟨⟨rfl, rfl, rfl, by decide⟩, fun _ h => absurd h (by decide),
   (C18_move_steals_record HelloContainer.1 RawContainer IntContainer.1 CxxType.string "hello"
     HelloContainer.2 ⟨rfl, rfl, rfl, by decide⟩ (fun _ h => absurd h (by decide))).2.2.1,
   (C18_move_steals_record HelloContainer.1 RawContainer IntContainer.1 CxxType.string "hello"
     HelloContainer.2 ⟨rfl, rfl, rfl, by decide⟩ (fun _ h => absurd h (by decide))).2.2.2.2.2.1⟩

/-- C17 at a concrete input: a heap-stored `std::string` copied, the copy then emplaced with an
`int`, assigned through `As<int>()` and cleaned. -/
theorem C17_copy_independence_witness :
    HelloContainer.1.Holds CxxType.string "hello" HelloContainer.2 ∧
    HelloContainer.2.Fresh ∧
    HelloContainer.1.As CxxType.string
        ((TAnyBasic.ctorCopyAny RawContainer HelloContainer.1 HelloContainer.2).1.MutateAll
          (TAnyBasic.ctorCopyAny RawContainer HelloContainer.1 HelloContainer.2).2
          [Mutation.Emplace CxxType.int (1 : Int), Mutation.AssignThrough CxxType.int (2 : Int),
            Mutation.Clean]).2 = Outcome.Return "hello" :=
  ⟨⟨rfl, rfl, rfl, by decide⟩, by decide,
   (C17_copy_independence HelloContainer.1 RawContainer RawContainer CxxType.string "hello"
     HelloContainer.2
     [Mutation.Emplace CxxType.int (1 : Int), Mutation.AssignThrough CxxType.int (2 : Int),
       Mutation.Clean]
     ⟨rfl, rfl, rfl, by decide⟩ (by decide) (fun _ h => absurd h (by decide))
     (fun μ hμ _ => by
       simp only [List.mem_cons, List.mem_singleton, List.not_mem_nil, or_false] at hμ
       rcases hμ with h | h | h <;> subst h <;> trivial)).1.2.2.2.2.2.1⟩

end WBMQTT

/-! ## Handles: repeated futures, handles without a cell, timed waits, the wake signal -/

namespace WBMQTT
section Futures
variable {T E W : Type}

theorem TPromise.GetFutureTimes_mem (p : TPromise) (a : Nat) (hp : p.Data = some a) (n : Nat)
    (r : Outcome (TPromiseError E) TFuture) (hr : r ∈ TPromise.GetFutureTimes p n) :
    r = Outcome.Return { Data := some a } := by
  induction n with
  | zero => simp [TPromise.GetFutureTimes] at hr
  | succ n ih =>
    simp only [TPromise.GetFutureTimes, List.mem_cons] at hr
    rcases hr with h | h
    · rw [h]; simp [TPromise.GetFuture, hp]
    · exact ih h

theorem TPromise.GetFutureTimes_length (p : TPromise) (n : Nat) :
    (TPromise.GetFutureTimes p n : List (Outcome (TPromiseError E) TFuture)).length = n := by
  induction n with
  | zero => rfl
  | succ n ih => simp [TPromise.GetFutureTimes, ih]

/-- C23. `GetFuture` is repeatable and cell-preserving: for a promise over a Pending cell,
any number `n` of `GetFuture()` calls gives `n` futures, each bound to the cell of the promise;
the call changes neither the cells nor the promise objects; and after a single `SetValue(v)`
every one of these futures reports `IsReady()` and returns `v` from `GetValue()`. -/
theorem C23_get_future_repeatable (p : TPromise) (s : Cells T E W) (a : Nat)
    (d : TDataGeneric T E W) (v : T) (w : W) (n : Nat)
    (hp : p.Data = some a) (hd : s[a]? = some d)
    (hpending : d.InState CellState.Pending = true) :
    (TPromise.GetFutureTimes p n : List (Outcome (TPromiseError E) TFuture)).length = n ∧
    (∀ r ∈ (TPromise.GetFutureTimes p n : List (Outcome (TPromiseError E) TFuture)),
      ∃ f : TFuture, r = Outcome.Return f ∧ f.Data = p.Data ∧
        f.IsReady (p.SetValue v s).2 = Outcome.Return true ∧
        f.GetValue (p.SetValue v s).2 w = (Outcome.Return v, w)) ∧
    (∀ (P : Program T E W) (i : Nat), P.stepBase (BaseCall.GetFuture i) = P) := by
  refine ⟨TPromise.GetFutureTimes_length p n, ?_, fun _ _ => rfl⟩
  intro r hr
  refine ⟨{ Data := some a }, TPromise.GetFutureTimes_mem p a hp n r hr, hp.symm, ?_⟩
  have hc := Cells.Call_at s a d (fun d => TDataGeneric.SetValue d v) hd
  simp only [TDataBase.InState, Bool.and_eq_true, Bool.not_eq_true'] at hpending
  simp only [TPromise.SetValue, hp, TFuture.IsReady, TFuture.GetValue, Cells.Read, hc.2]
  simp [TDataGeneric.SetValue, TDataBase.IsReady, TDataBase.GetValue, TDataBase.Wait,
    TValue.Get, hpending.1.1, hpending.1.2]

/-- C24. Operations on a handle without a cell fail with no effect: a future that was moved
from, or emptied by `Share()`, has no cell, and on a future without a cell `IsReady`,
`IsBroken`, `Wait`, `WaitFor`, `IsException` and `GetValue` (`Sync` for `void`) each raise
`TPromiseFutureException`; a promise that was moved from (by construction or assignment), or
made by `Null()`, has no cell, and on a promise without a cell `GetFuture`, `SetValue`,
`Complete`, `Throw` and `SetFunction` each raise `TPromiseException`; the cells and the caller's
environment are as before. -/
theorem C24_handle_without_cell (f : TFuture) (p q : TPromise) (s : Cells T E W)
    (u : Cells Unit E W) (w : W) (timeout : Nat) (v : T) (e : E)
    (fn : W → Except E T × W) :
    ((TFuture.moveCtor f).1.Data = f.Data ∧ (TFuture.moveCtor f).2.Data = none ∧
      f.Share.1.Data = f.Data ∧ f.Share.2.Data = none ∧
      (TPromise.moveCtor p).2.Data = none ∧ (TPromise.moveAssign q p).2.Data = none ∧
      TPromise.Null.Data = none) ∧
    (∀ g : TFuture, g.Data = none →
      g.IsReady s = Outcome.Throw TPromiseError.TPromiseFutureException ∧
      g.IsBroken s = Outcome.Throw TPromiseError.TPromiseFutureException ∧
      g.Wait s = Outcome.Throw TPromiseError.TPromiseFutureException ∧
      g.WaitFor timeout s = Outcome.Throw TPromiseError.TPromiseFutureException ∧
      g.IsException s = Outcome.Throw TPromiseError.TPromiseFutureException ∧
      g.GetValue s w = (Outcome.Throw TPromiseError.TPromiseFutureException, w) ∧
      g.GetValue u w = (Outcome.Throw TPromiseError.TPromiseFutureException, w)) ∧
    (∀ r : TPromise, r.Data = none →
      (r.GetFuture : Outcome (TPromiseError E) TFuture) =
        Outcome.Throw TPromiseError.TPromiseException ∧
      r.SetValue v s = (Outcome.Throw TPromiseError.TPromiseException, s) ∧
      r.Complete u = (Outcome.Throw TPromiseError.TPromiseException, u) ∧
      r.Throw e s = (Outcome.Throw TPromiseError.TPromiseException, s) ∧
      r.SetFunction fn s = (Outcome.Throw TPromiseError.TPromiseException, s)) := by
  refine ⟨⟨rfl, rfl, rfl, rfl, rfl, rfl, rfl⟩, ?_, ?_⟩
  · intro g hg
    simp [TFuture.IsReady, TFuture.IsBroken, TFuture.Wait, TFuture.WaitFor,
      TFuture.IsException, TFuture.GetValue, hg]
  · intro r hr
    simp [TPromise.GetFuture, TPromise.SetValue, TPromise.Complete, TPromise.Throw,
      TPromise.SetFunction, hr]

/-- C25. `WaitFor` outcome by state: for every future over a cell and every duration
(0 included), `WaitFor` returns false when the cell is Pending, returns true when the cell is
Ready, and raises `TBrokenPromiseException` when the cell is Broken (so it does not return
true); it is a const call, which changes neither the cells nor the promise objects. -/
theorem C25_wait_for_by_state (f : TFuture) (s : Cells T E W) (a : Nat)
    (d : TDataGeneric T E W) (timeout : Nat)
    (hf : f.Data = some a) (hd : s[a]? = some d) :
    (d.InState CellState.Pending = true → f.WaitFor timeout s = Outcome.Return false) ∧
    (d.InState CellState.Ready = true → f.WaitFor timeout s = Outcome.Return true) ∧
    (d.InState CellState.Broken = true →
      f.WaitFor timeout s = Outcome.Throw TPromiseError.TBrokenPromiseException ∧
      f.WaitFor timeout s ≠ Outcome.Return true) ∧
    (∀ P : Program T E W,
      P.stepBase (BaseCall.Future f (FutureCall.WaitFor timeout)) = P) := by
  simp only [TFuture.WaitFor, hf, Cells.Read, hd, TDataBase.WaitFor, TDataBase.InState,
    Bool.and_eq_true, Bool.not_eq_true']
  refine ⟨?_, ?_, ?_, fun _ => rfl⟩
  · rintro ⟨⟨h1, h2⟩, _⟩; simp [h1, h2]
  · rintro ⟨⟨h1, h2⟩, _⟩; simp [h1, h2]
  · rintro ⟨⟨h1, h2⟩, _⟩; simp [h1, h2]

end Futures

/-- C23 at a concrete input: three `GetFuture()` calls on a new promise, then `SetValue(5)`. -/
theorem C23_get_future_repeatable_witness :
    (TPromise.ctor NoCells).1.Data = some 0 ∧
    (TPromise.ctor NoCells).2[0]? = some TDataBase.ctor ∧
    (TDataBase.ctor : TDataGeneric Nat String Nat).InState CellState.Pending = true ∧
    (TPromise.GetFutureTimes (TPromise.ctor NoCells).1 3 :
      List (Outcome (TPromiseError String) TFuture)).length = 3 ∧
    TFuture.GetValue { Data := some 0 }
      ((TPromise.ctor NoCells).1.SetValue 5 (TPromise.ctor NoCells).2).2 0 =
        (Outcome.Return 5, 0) :=
  ⟨rfl, rfl, rfl,
   (C23_get_future_repeatable (TPromise.ctor NoCells).1 (TPromise.ctor NoCells).2 0
     TDataBase.ctor 5 0 3 rfl rfl rfl).1,
   rfl⟩

/-- C25 at a concrete input: a future over a Pending cell, one over a Ready cell and one over
a Broken cell, each asked to wait for a zero duration. -/
theorem C25_wait_for_by_state_witness :
    (TDataBase.ctor : TDataGeneric Nat String Nat).InState CellState.Pending = true ∧
    TFuture.WaitFor { Data := some 0 } 0 ([TDataBase.ctor] : Cells Nat String Nat) =
      Outcome.Return false ∧
    ReadyCell.InState CellState.Ready = true ∧
    TFuture.WaitFor { Data := some 0 } 0 [ReadyCell] = Outcome.Return true ∧
    BrokenCell.InState CellState.Broken = true ∧
    TFuture.WaitFor { Data := some 0 } 0 [BrokenCell] =
      Outcome.Throw TPromiseError.TBrokenPromiseException :=
  ⟨rfl,
   (C25_wait_for_by_state { Data := some 0 } [TDataBase.ctor] 0 TDataBase.ctor 0 rfl rfl).1 rfl,
   rfl,
   (C25_wait_for_by_state { Data := some 0 } [ReadyCell] 0 ReadyCell 0 rfl rfl).2.1 rfl,
   rfl,
   ((C25_wait_for_by_state { Data := some 0 } [BrokenCell] 0 BrokenCell 0 rfl rfl).2.2.1
     rfl).1⟩

/-- C26 evaluated at the failing input: a Pending cell on which a thread would block in
`Wait()`.  Destroying the promise writes the Broken state, after which `Wait()` would raise
`TBrokenPromiseException`, yet the count of `notify_all()` calls stays at zero; the sibling
transitions `SetValue`, `Throw` and `SetFunction` on the same cell each issue one. -/
theorem C26_destruction_issues_no_wake_signal :
    (TDataBase.ctor : TDataGeneric Nat String Nat).InState CellState.Pending = true ∧
    (TDataBase.ctor : TDataGeneric Nat String Nat).Wait = Outcome.Block ∧
    (TPromise.dtor { Data := some 0 } ([TDataBase.ctor] : Cells Nat String Nat)) =
      [{ Ready := false, Broken := true, Value := none, ConditionVariable := 0 }] ∧
    (TDataBase.ctor : TDataGeneric Nat String Nat).HandlePromiseDestruction.InState
      CellState.Broken = true ∧
    (TDataBase.ctor : TDataGeneric Nat String Nat).HandlePromiseDestruction.Wait =
      Outcome.Throw TPromiseError.TBrokenPromiseException ∧
    (TDataBase.ctor : TDataGeneric Nat String Nat).HandlePromiseDestruction.ConditionVariable
      = 0 ∧
    (TDataGeneric.SetValue (TDataBase.ctor : TDataGeneric Nat String Nat) 5).2.ConditionVariable
      = 1 ∧
    ((TDataBase.ctor : TDataGeneric Nat String Nat).SetException "e").2.ConditionVariable = 1 ∧
    ((TDataBase.ctor : TDataGeneric Nat String Nat).SetFunction
      CountingFunction).2.ConditionVariable = 1 ∧
    (∀ d : TDataGeneric Nat String Nat,
      d.HandlePromiseDestruction.ConditionVariable = d.ConditionVariable) := by
  refine ⟨rfl, rfl, rfl, rfl, rfl, rfl, rfl, rfl, rfl, ?_⟩
  intro d
  unfold TDataBase.HandlePromiseDestruction
  split <;> rfl

end WBMQTT

/-! ## Containers: self-assignment, failed reads, destruction order -/

namespace WBMQTT
section SelfAssignment
variable {Ty : Type} [Target Ty] [DecidableEq Ty]

theorem List.set_of_getElem {α : Type} (l : List α) (i : Nat) (x : α) (h : l[i]? = some x) :
    l.set i x = l := by
  apply List.ext_getElem?
  intro b
  rw [List.getElem?_set]
  split
  · rename_i hib; subst hib
    have hlt : i < l.length := (List.getElem?_eq_some.mp h).1
    simp [hlt, h]
  · rfl

theorem Containers.Objects_of_Object (M : Containers Ty) (i : Nat) (x : TAnyBasic Ty)
    (h : M.Object i = some x) : M.Objects[i]? = some (some x) := by
  unfold Containers.Object at h
  cases hi : M.Objects[i]? with
  | none => rw [hi] at h; simp at h
  | some o =>
    rw [hi] at h
    cases o with
    | none => simp at h
    | some y => simp at h; rw [h]

theorem Containers.Put_self (M : Containers Ty) (i : Nat) (x : TAnyBasic Ty)
    (h : M.Object i = some x) : M.Put i (x, M.World) = M := by
  unfold Containers.Put
  rw [List.set_of_getElem _ _ _ (Containers.Objects_of_Object M i x h)]

/-- C22. Self-assignment is a no-op: for every container `x` (empty, inline or heap) in any
world, copy-assigning or move-assigning `x` to itself returns the record of `x` and the world
as they were, so its type, value, `GetSize()` and storage class are unchanged and the trace has
no new destroy, copy, move or allocator call; and in a program, such an assignment to any of
its container objects leaves every object and the world as they were. -/
theorem C22_self_assignment [StdString Ty] [StdArray Ty] (x : TAnyBasic Ty) (w : World Ty)
    (M : Containers Ty) (i : Nat) (hx : M.Object i = some x) :
    x.assignCopyAny x true w = (x, w) ∧
    x.assignMoveAny x true w = ((x, x), w) ∧
    M.step (AnyCall.assignCopyAny i i) = M ∧
    M.step (AnyCall.assignMoveAny i i) = M := by
  have ho := Containers.Objects_of_Object M i x hx
  refine ⟨rfl, rfl, ?_, ?_⟩
  · simp only [Containers.step, hx, decide_True, TAnyBasic.assignCopyAny, Bool.not_true,
      Bool.false_eq_true, if_false]
    exact Containers.Put_self M i x hx
  · simp only [Containers.step, hx, decide_True, TAnyBasic.assignMoveAny, Bool.not_true,
      Bool.false_eq_true, if_false]
    rw [List.set_of_getElem _ _ _ ho, List.set_of_getElem _ _ _ ho]

/-- C29. Read failures do not corrupt state: `As<T>()` raises `TAnyEmptyError` exactly on an
empty container and `TAnyTypesMismatchError` only on a container of another type; whenever it
raises, an assignment attempted through it returns the record and the world as they were, and
so does the read itself in a program (every object and the world are kept, hence `Empty()`,
`GetSize()`, the stored type and the stored value); and a following `As` with the stored type
returns the value the container holds. -/
theorem C29_read_failure_keeps_state [StdString Ty] [StdArray Ty] (self : TAnyBasic Ty)
    (T : Ty) (w : World Ty) (e : TAnyCastError) (value : Target.Val T)
    (h : self.As T w = Outcome.Throw e) :
    ((e = TAnyCastError.TAnyEmptyError ∧ self.Empty = true) ∨
      ∃ S : Ty, self.Type_ = some S ∧ S ≠ T ∧
        e = TAnyCastError.TAnyTypesMismatchError (Target.NameOfType S) (Target.NameOfType T)) ∧
    self.AssignThrough T value w = (Outcome.Throw e, (self, w)) ∧
    (∀ (M : Containers Ty) (i : Nat), M.Object i = some self → M.World = w →
      M.step (AnyCall.Const i) = M ∧ M.step (AnyCall.AssignThrough i T value) = M) ∧
    (∀ (S : Ty) (v : Target.Val S), self.Holds S v w → self.As S w = Outcome.Return v) := by
  have hat : self.AssignThrough T value w = (Outcome.Throw e, (self, w)) := by
    simp only [TAnyBasic.AssignThrough, h]
  refine ⟨?_, hat, ?_, ?_⟩
  · unfold TAnyBasic.As at h
    by_cases he : self.Empty = true
    · simp only [he, if_true] at h
      left
      exact ⟨by injection h with h; exact h.symm, he⟩
    · simp only [he, Bool.false_eq_true, if_false] at h
      right
      cases ht : self.Type_ with
      | none => simp [TAnyBasic.Empty, ht] at he
      | some S =>
        by_cases hST : S = T
        · subst hST
          simp only [TAnyBasic.Is, ht, decide_True, Bool.not_true, Bool.false_eq_true,
            if_false] at h
          split at h <;> simp at h
        · refine ⟨S, rfl, hST, ?_⟩
          simp only [TAnyBasic.Is, ht, hST, decide_False, Bool.not_false, if_true] at h
          injection h with h
          exact h.symm
  · intro M i hM hw
    refine ⟨rfl, ?_⟩
    subst hw
    simp only [Containers.step, hM, hat]
    exact Containers.Put_self M i self hM
  · intro S v hv
    exact TAnyBasic.As_of_Data self S v w hv.1 hv.2.1

end SelfAssignment
end WBMQTT

namespace WBMQTT
section DestroyFirst
variable {Ty : Type} [Target Ty] [DecidableEq Ty]

theorem TAnyBasic.SetData_Trace (self : TAnyBasic Ty) (o : Option (Object Ty)) (w : World Ty) :
    (self.SetData o w).2.Trace = w.Trace := by
  unfold TAnyBasic.SetData
  split <;> rfl

theorem TAnyBasic.EmplaceCArray_eq [StdArray Ty] (self : TAnyBasic Ty) (T : Ty) (N : Nat)
    (a : Fin N → Target.Val T) (w : World Ty) :
    self.EmplaceCArray T N a w =
      (self.EmplaceUnsafe (StdArray.array T N) (StdArray.construct T N) w).2.1.SetData
        (some ⟨StdArray.array T N, StdArray.copy a (StdArray.construct T N)⟩)
        (self.EmplaceUnsafe (StdArray.array T N) (StdArray.construct T N) w).2.2 := by
  have h := (TAnyBasic.EmplaceUnsafe_As self (StdArray.array T N) (StdArray.construct T N) w).1
  simp only [TAnyBasic.EmplaceCArray, h]

theorem TAnyBasic.EmplaceCArray_Trace [StdArray Ty] (self : TAnyBasic Ty) (T : Ty) (N : Nat)
    (a : Fin N → Target.Val T) (w : World Ty) :
    (self.EmplaceCArray T N a w).2.Trace =
      w.Trace ++ Setup (StdArray.array T N) w.Next (Event.Construct (StdArray.array T N)) := by
  rw [TAnyBasic.EmplaceCArray_eq, TAnyBasic.SetData_Trace,
    (TAnyBasic.EmplaceUnsafe_Trace self _ _ w).1]

theorem TAnyBasic.CopyAny_Trace (self rhs : TAnyBasic Ty) (w : World Ty) :
    (self.CopyAny rhs w).2.Trace = w.Trace ++ rhs.CopySetup w.Next := by
  unfold TAnyBasic.CopyAny TAnyBasic.CopySetup
  cases ht : rhs.Type_ with
  | none => simp [TAnyBasic.Empty, ht]
  | some T =>
    cases hdyn : rhs.IsDynamic <;>
      simp [TAnyBasic.Empty, ht, hdyn, TAnyBasic.CopyDynamic, TAnyBasic.CopyStatic,
        TAnyBasic.InitDynamic, TAnyBasic.InitStatic, TTypeWrapper.Copy, World.Log,
        World.Store, Allocator.Allocate]

theorem Setup_Stores (T : Ty) (memory : Nat) (call : Event Ty) (hc : call.Stores = true) :
    ∀ e ∈ Setup T memory call, e.Stores = true := by
  intro e he
  unfold Setup at he
  split at he
  · simp only [List.mem_cons, List.mem_singleton, List.not_mem_nil, or_false] at he
    rcases he with h | h
    · rw [h]; rfl
    · rw [h]; exact hc
  · simp only [List.mem_singleton] at he
    rw [he]; exact hc

theorem TAnyBasic.CopySetup_Stores (rhs : TAnyBasic Ty) (memory : Nat) :
    ∀ e ∈ rhs.CopySetup memory, e.Stores = true := by
  intro e he
  unfold TAnyBasic.CopySetup at he
  split at he
  · simp at he
  · split at he
    · simp only [List.mem_cons, List.mem_singleton, List.not_mem_nil, or_false] at he
      rcases he with h | h <;> rw [h] <;> rfl
    · simp only [List.mem_singleton] at he
      rw [he]; rfl

/-- C30. Destroy before re-allocate: for a container that holds a payload of type `S`, every
typed assignment (by copy, by move, from a C array, from a C string), every container
assignment from another object (by copy or by move) and `Emplace` append to the trace first the
destructor of `S`, once, then `Free` of the payload's block if it was on the heap, and only
then the calls that store the new payload, which are allocations and constructors alone: no
call of the new payload comes before the old one is destroyed and freed. -/
theorem C30_destroy_before_reallocate [StdString Ty] [StdArray Ty] (self rhs : TAnyBasic Ty)
    (S : Ty) (hS : self.Type_ = some S) (T : Ty) (v : Target.Val T) (N : Nat)
    (a : Fin N → Target.Val T) (c_string : String) (w : World Ty) :
    self.Teardown =
      Event.Destroy S :: (if self.IsDynamic then [Event.Free self.DynamicMemory] else []) ∧
    (self.assignCopy T v w).2.Trace =
      w.Trace ++ self.Teardown ++ Setup T w.Next (Event.Copy T) ∧
    (self.assignMove T v w).2.Trace =
      w.Trace ++ self.Teardown ++ Setup T w.Next (Event.Move T) ∧
    (self.Emplace T v w).2.2.Trace =
      w.Trace ++ self.Teardown ++ Setup T w.Next (Event.Construct T) ∧
    (self.assignCArray T N a w).2.Trace =
      w.Trace ++ self.Teardown ++
        Setup (StdArray.array T N) w.Next (Event.Construct (StdArray.array T N)) ∧
    (self.assignCString c_string w).2.Trace =
      w.Trace ++ self.Teardown ++
        Setup (StdString.string : Ty) w.Next (Event.Move StdString.string) ∧
    (self.assignCopyAny rhs false w).2.Trace =
      w.Trace ++ self.Teardown ++ rhs.CopySetup w.Next ∧
    (self.assignMoveAny rhs false w).2.Trace = w.Trace ++ self.Teardown ∧
    (∀ (U : Ty) (memory : Nat) (call : Event Ty), call.Stores = true →
      ∀ e ∈ Setup U memory call, e.Stores = true) ∧
    (∀ memory : Nat, ∀ e ∈ rhs.CopySetup memory, e.Stores = true) := by
  have hc := self.Clean_Trace w
  refine ⟨?_, ?_, ?_, ?_, ?_, ?_, ?_, ?_, Setup_Stores, rhs.CopySetup_Stores⟩
  · rw [self.Teardown_of_Type S hS]
    split <;> rfl
  · rw [TAnyBasic.assignCopy, (TAnyBasic.Copy_Trace _ T v _).1, hc.1, hc.2]
  · rw [TAnyBasic.assignMove, (TAnyBasic.Move_Trace _ T v _).1, hc.1, hc.2]
  · rw [TAnyBasic.Emplace, (TAnyBasic.EmplaceUnsafe_Trace _ T v _).1, hc.1, hc.2]
  · rw [TAnyBasic.assignCArray, TAnyBasic.EmplaceCArray_Trace, hc.1, hc.2]
  · rw [TAnyBasic.assignCString, TAnyBasic.assignMove, (TAnyBasic.Move_Trace _ _ _ _).1,
      hc.1, hc.2]
  · simp only [TAnyBasic.assignCopyAny, Bool.not_false, if_true]
    rw [TAnyBasic.CopyAny_Trace, hc.1, hc.2]
  · simp only [TAnyBasic.assignMoveAny, Bool.not_false, if_true]
    exact hc.1

end DestroyFirst
end WBMQTT

/-! ## Containers: array coercion and the storage invariant -/

namespace WBMQTT
section Arrays
variable {Ty : Type} [Target Ty] [DecidableEq Ty]

theorem World.Store_Store (w : World Ty) (m : Nat) (o1 o2 : Option (Object Ty)) :
    (w.Store m o1).Store m o2 = w.Store m o2 := by
  unfold World.Store
  simp only [List.map_map]
  congr 1
  apply List.map_congr_left
  intro e _
  by_cases h : e.1 = m <;> simp [h]

theorem StdArray.get_foldl_set [StdArray Ty] {T : Ty} {N : Nat} (a : Fin N → Target.Val T)
    (l : List (Fin N)) (array : Target.Val (StdArray.array T N)) (j : Fin N) :
    StdArray.get (l.foldl (fun b i => StdArray.set b i (a i)) array) j =
      if j ∈ l then a j else StdArray.get array j := by
  induction l generalizing array with
  | nil => simp
  | cons i t ih =>
    rw [List.foldl_cons, ih, StdArray.get_set]
    by_cases hjt : j ∈ t
    · simp [hjt]
    · by_cases hji : j = i
      · subst hji; simp [hjt]
      · simp [hjt, hji]

theorem StdArray.get_copy [StdArray Ty] {T : Ty} {N : Nat} (a : Fin N → Target.Val T)
    (array : Target.Val (StdArray.array T N)) (j : Fin N) :
    StdArray.get (StdArray.copy a array) j = a j := by
  unfold StdArray.copy
  rw [StdArray.get_foldl_set]
  simp [List.mem_finRange]

theorem TAnyBasic.EmplaceCArray_As [StdArray Ty] (self : TAnyBasic Ty) (T : Ty) (N : Nat)
    (a : Fin N → Target.Val T) (w : World Ty) :
    (self.EmplaceCArray T N a w).1.Type_ = some (StdArray.array T N) ∧
    (self.EmplaceCArray T N a w).1.As (StdArray.array T N) (self.EmplaceCArray T N a w).2 =
      Outcome.Return (StdArray.copy a (StdArray.construct T N)) := by
  rw [TAnyBasic.EmplaceCArray_eq]
  unfold TAnyBasic.EmplaceUnsafe
  by_cases h : Target.sizeof (StdArray.array T N) > TAnyBasic.StaticCapacity Ty
  · simp [h, TAnyBasic.SetData, TAnyBasic.InitDynamic, TAnyBasic.Is, TAnyBasic.As,
      TAnyBasic.Empty, TAnyBasic.Data, Object.Cast_mk, World.Store_Store,
      World.Load_Store_Allocate]
  · simp [h, TAnyBasic.SetData, TAnyBasic.InitStatic, TAnyBasic.Is, TAnyBasic.As,
      TAnyBasic.Empty, TAnyBasic.Data, Object.Cast_mk]

end Arrays
end WBMQTT

namespace WBMQTT
section Invariant
variable {Ty : Type} [Target Ty] [DecidableEq Ty]

theorem TAnyBasic.Consistent_holds (x : TAnyBasic Ty) (T : Ty) (ht : x.Type_ = some T)
    (hd : x.IsDynamic = decide (Target.sizeof T > TAnyBasic.StaticCapacity Ty))
    (hs : x.GetSize = Target.sizeof T) : x.Consistent := by
  refine ⟨by simp [TAnyBasic.Empty, ht], by simp [TAnyBasic.Empty, ht], ?_⟩
  intro U hU
  rw [ht] at hU
  injection hU with hU
  subst hU
  exact ⟨hs, by rw [hd, hs]; simp⟩

theorem TAnyBasic.Consistent_empty (x : TAnyBasic Ty) (ht : x.Type_ = none)
    (hd : x.IsDynamic = false) (hs : x.StaticSize = 0) : x.Consistent := by
  refine ⟨by simp [TAnyBasic.Empty, ht], ?_, ?_⟩
  · intro _
    exact ⟨by simp [TAnyBasic.GetSize, hd, hs], hd⟩
  · intro U hU
    rw [ht] at hU
    cases hU

theorem TAnyBasic.Consistent_fields (x y : TAnyBasic Ty) (hx : x.Consistent)
    (ht : y.Type_ = x.Type_) (hd : y.IsDynamic = x.IsDynamic) (hs : y.GetSize = x.GetSize) :
    y.Consistent := by
  unfold TAnyBasic.Consistent TAnyBasic.Empty at *
  rw [ht, hd, hs]
  exact hx

theorem TAnyBasic.Reset_Consistent (x : TAnyBasic Ty) : x.Reset.Consistent :=
  TAnyBasic.Consistent_empty _ rfl rfl rfl

theorem TAnyBasic.Clean_Consistent (x : TAnyBasic Ty) (w : World Ty) :
    (x.Clean w).1.Consistent :=
  TAnyBasic.Reset_Consistent _

theorem TAnyBasic.Copy_Consistent (hcap : TAnyBasic.StaticCapacity Ty ≤ 255)
    (self : TAnyBasic Ty) (T : Ty) (v : Target.Val T) (w : World Ty) :
    (self.Copy T v w).1.Consistent := by
  apply TAnyBasic.Consistent_holds _ T (TAnyBasic.Copy_Is_As self T v w).1
    (TAnyBasic.Copy_Trace self T v w).2.1
  unfold TAnyBasic.Copy
  split <;> rename_i h
  · simp [TAnyBasic.CopyDynamic, TAnyBasic.InitDynamic, TAnyBasic.GetSize]
  · have hm : Target.sizeof T % 256 = Target.sizeof T := Nat.mod_eq_of_lt (by omega)
    simp [TAnyBasic.CopyStatic, TAnyBasic.InitStatic, TAnyBasic.GetSize, hm]

theorem TAnyBasic.Move_Consistent (hcap : TAnyBasic.StaticCapacity Ty ≤ 255)
    (self : TAnyBasic Ty) (T : Ty) (v : Target.Val T) (w : World Ty) :
    (self.Move T v w).1.Consistent := by
  apply TAnyBasic.Consistent_holds _ T (TAnyBasic.Move_Is_As self T v w).1
    (TAnyBasic.Move_Trace self T v w).2.1
  unfold TAnyBasic.Move
  split <;> rename_i h
  · simp [TAnyBasic.MoveDynamic, TAnyBasic.InitDynamic, TAnyBasic.GetSize]
  · have hm : Target.sizeof T % 256 = Target.sizeof T := Nat.mod_eq_of_lt (by omega)
    simp [TAnyBasic.MoveStatic, TAnyBasic.InitStatic, TAnyBasic.GetSize, hm]

theorem TAnyBasic.EmplaceUnsafe_Consistent (hcap : TAnyBasic.StaticCapacity Ty ≤ 255)
    (self : TAnyBasic Ty) (T : Ty) (v : Target.Val T) (w : World Ty) :
    (self.EmplaceUnsafe T v w).2.1.Consistent := by
  apply TAnyBasic.Consistent_holds _ T (TAnyBasic.EmplaceUnsafe_Type self T v w)
    (TAnyBasic.EmplaceUnsafe_Trace self T v w).2
  unfold TAnyBasic.EmplaceUnsafe
  by_cases h : Target.sizeof T > TAnyBasic.StaticCapacity Ty
  · simp [h, TAnyBasic.SetData, TAnyBasic.InitDynamic, TAnyBasic.GetSize]
  · have hm : Target.sizeof T % 256 = Target.sizeof T := Nat.mod_eq_of_lt (by omega)
    simp [h, TAnyBasic.SetData, TAnyBasic.InitStatic, TAnyBasic.GetSize, hm]

theorem TAnyBasic.SetData_Consistent (self : TAnyBasic Ty) (o : Option (Object Ty))
    (w : World Ty) (h : self.Consistent) : (self.SetData o w).1.Consistent := by
  apply TAnyBasic.Consistent_fields self _ h <;>
    (unfold TAnyBasic.SetData; split <;> simp [TAnyBasic.GetSize, *])

theorem TAnyBasic.EmplaceCArray_Consistent [StdArray Ty]
    (hcap : TAnyBasic.StaticCapacity Ty ≤ 255) (self : TAnyBasic Ty) (T : Ty) (N : Nat)
    (a : Fin N → Target.Val T) (w : World Ty) :
    (self.EmplaceCArray T N a w).1.Consistent := by
  rw [TAnyBasic.EmplaceCArray_eq]
  exact TAnyBasic.SetData_Consistent _ _ _ (TAnyBasic.EmplaceUnsafe_Consistent hcap _ _ _ _)

theorem TAnyBasic.AssignThrough_Consistent (self : TAnyBasic Ty) (T : Ty)
    (value : Target.Val T) (w : World Ty) (h : self.Consistent) :
    (self.AssignThrough T value w).2.1.Consistent := by
  unfold TAnyBasic.AssignThrough
  split
  · exact TAnyBasic.SetData_Consistent _ _ _ h
  · exact h
  · exact h
  · exact h

theorem TAnyBasic.Consistent_static (hcap : TAnyBasic.StaticCapacity Ty ≤ 255)
    (x : TAnyBasic Ty) (T : Ty) (hx : x.Consistent) (ht : x.Type_ = some T)
    (hd : x.IsDynamic = false) :
    x.StaticSize = Target.sizeof T ∧ x.StaticSize % 256 = x.StaticSize ∧
      ¬ Target.sizeof T > TAnyBasic.StaticCapacity Ty := by
  have h := hx.2.2 T ht
  have hs : x.GetSize = x.StaticSize := by simp [TAnyBasic.GetSize, hd]
  have hn : ¬ x.GetSize > TAnyBasic.StaticCapacity Ty := by
    intro hgt
    have := h.2.mpr hgt
    rw [hd] at this
    cases this
  rw [hs] at hn
  refine ⟨by rw [← hs]; exact h.1, Nat.mod_eq_of_lt (by omega), ?_⟩
  rw [← h.1, hs]; exact hn

theorem TAnyBasic.Consistent_dynamic (x : TAnyBasic Ty) (T : Ty) (hx : x.Consistent)
    (ht : x.Type_ = some T) (hd : x.IsDynamic = true) :
    x.DynamicSize = Target.sizeof T ∧ Target.sizeof T > TAnyBasic.StaticCapacity Ty := by
  have h := hx.2.2 T ht
  have hs : x.GetSize = x.DynamicSize := by simp [TAnyBasic.GetSize, hd]
  refine ⟨by rw [← hs]; exact h.1, ?_⟩
  rw [← h.1]; exact h.2.mp hd

theorem TAnyBasic.CopyAny_Consistent (hcap : TAnyBasic.StaticCapacity Ty ≤ 255)
    (self other : TAnyBasic Ty) (w : World Ty) (hs : self.Consistent) (ho : other.Consistent) :
    (self.CopyAny other w).1.Consistent := by
  unfold TAnyBasic.CopyAny
  cases ht : other.Type_ with
  | none => simpa [TAnyBasic.Empty, ht] using hs
  | some T =>
    cases hdyn : other.IsDynamic
    · have h := TAnyBasic.Consistent_static hcap other T ho ht hdyn
      apply TAnyBasic.Consistent_holds _ T
      · simp [TAnyBasic.Empty, ht, hdyn, TAnyBasic.CopyStatic, TAnyBasic.InitStatic]
      · simp [TAnyBasic.Empty, ht, hdyn, TAnyBasic.CopyStatic, TAnyBasic.InitStatic, h.2.2]
      · have h3 := h.2.2
        simp [TAnyBasic.Empty, ht, hdyn, TAnyBasic.CopyStatic, TAnyBasic.InitStatic,
          TAnyBasic.GetSize, h.1]
        omega
    · have h := TAnyBasic.Consistent_dynamic other T ho ht hdyn
      apply TAnyBasic.Consistent_holds _ T
      · simp [TAnyBasic.Empty, ht, hdyn, TAnyBasic.CopyDynamic, TAnyBasic.InitDynamic]
      · simp [TAnyBasic.Empty, ht, hdyn, TAnyBasic.CopyDynamic, TAnyBasic.InitDynamic, h.2]
      · simp [TAnyBasic.Empty, ht, hdyn, TAnyBasic.CopyDynamic, TAnyBasic.InitDynamic,
          TAnyBasic.GetSize, h.1]

theorem TAnyBasic.MoveAny_Consistent (hcap : TAnyBasic.StaticCapacity Ty ≤ 255)
    (self other : TAnyBasic Ty) (hs : self.Consistent) (ho : other.Consistent) :
    (self.MoveAny other).1.Consistent ∧ (self.MoveAny other).2.Consistent := by
  unfold TAnyBasic.MoveAny
  cases ht : other.Type_ with
  | none => simpa [TAnyBasic.Empty, ht] using ⟨hs, ho⟩
  | some T =>
    cases hdyn : other.IsDynamic
    · have h := TAnyBasic.Consistent_static hcap other T ho ht hdyn
      simp only [TAnyBasic.Empty, ht, Option.isNone_some, Bool.false_eq_true, if_false]
      refine ⟨?_, TAnyBasic.Reset_Consistent _⟩
      apply TAnyBasic.Consistent_holds _ T
      · simp [TAnyBasic.AssignStatic, TAnyBasic.InitStatic]
      · simp [TAnyBasic.AssignStatic, TAnyBasic.InitStatic, h.2.2]
      · have h3 := h.2.2
        simp [TAnyBasic.AssignStatic, TAnyBasic.InitStatic, TAnyBasic.GetSize, h.1]
        omega
    · have h := TAnyBasic.Consistent_dynamic other T ho ht hdyn
      simp only [TAnyBasic.Empty, ht, Option.isNone_some, Bool.false_eq_true, if_false,
        if_true]
      refine ⟨?_, TAnyBasic.Reset_Consistent _⟩
      apply TAnyBasic.Consistent_holds _ T
      · simp [TAnyBasic.AssignDynamic]
      · simp [TAnyBasic.AssignDynamic, h.2]
      · simp [TAnyBasic.AssignDynamic, TAnyBasic.GetSize, h.1]

end Invariant
end WBMQTT

namespace WBMQTT
section Reachable
variable {Ty : Type} [Target Ty] [DecidableEq Ty]

theorem Containers.Object_mem (M : Containers Ty) (i : Nat) (x : TAnyBasic Ty)
    (h : M.Object i = some x) : some x ∈ M.Objects :=
  List.getElem?_mem (Containers.Objects_of_Object M i x h)

theorem Containers.mem_New (M : Containers Ty) (r : TAnyBasic Ty × WBMQTT.World Ty) (x : TAnyBasic Ty)
    (h : some x ∈ (M.New r).Objects) : some x ∈ M.Objects ∨ x = r.1 := by
  simp only [Containers.New, List.mem_append, List.mem_singleton, Option.some.injEq] at h
  exact h

theorem Containers.mem_Put (M : Containers Ty) (i : Nat) (r : TAnyBasic Ty × WBMQTT.World Ty)
    (x : TAnyBasic Ty) (h : some x ∈ (M.Put i r).Objects) : some x ∈ M.Objects ∨ x = r.1 := by
  rcases List.mem_or_eq_of_mem_set h with h | h
  · exact Or.inl h
  · exact Or.inr (Option.some.inj h)

theorem Containers.New_Consistent (M : Containers Ty) (r : TAnyBasic Ty × WBMQTT.World Ty)
    (hM : ∀ x, some x ∈ M.Objects → x.Consistent) (hr : r.1.Consistent) :
    ∀ x, some x ∈ (M.New r).Objects → x.Consistent := by
  intro x hx
  rcases Containers.mem_New M r x hx with h | h
  · exact hM x h
  · rw [h]; exact hr

theorem Containers.Put_Consistent (M : Containers Ty) (i : Nat) (r : TAnyBasic Ty × WBMQTT.World Ty)
    (hM : ∀ x, some x ∈ M.Objects → x.Consistent) (hr : r.1.Consistent) :
    ∀ x, some x ∈ (M.Put i r).Objects → x.Consistent := by
  intro x hx
  rcases Containers.mem_Put M i r x hx with h | h
  · exact hM x h
  · rw [h]; exact hr

theorem Containers.step_Consistent [StdString Ty] [StdArray Ty]
    (hcap : TAnyBasic.StaticCapacity Ty ≤ 255) (M : Containers Ty) (call : AnyCall Ty)
    (hM : ∀ x, some x ∈ M.Objects → x.Consistent) :
    ∀ x, some x ∈ (M.step call).Objects → x.Consistent := by
  cases call with
  | ctor raw => exact Containers.New_Consistent M _ hM (TAnyBasic.Reset_Consistent raw)
  | ctorCopy raw T object =>
    exact Containers.New_Consistent M _ hM (TAnyBasic.Copy_Consistent hcap _ T object _)
  | ctorMove raw T object =>
    exact Containers.New_Consistent M _ hM (TAnyBasic.Move_Consistent hcap _ T object _)
  | ctorCArray raw T N c_array =>
    exact Containers.New_Consistent M _ hM
      (TAnyBasic.EmplaceCArray_Consistent hcap raw T N c_array _)
  | ctorCString raw c_string =>
    exact Containers.New_Consistent M _ hM (TAnyBasic.Move_Consistent hcap _ _ _ _)
  | ctorCopyAny raw j =>
    cases hj : M.Object j with
    | none => simpa only [Containers.step, hj] using hM
    | some other =>
      simp only [Containers.step, hj]
      exact Containers.New_Consistent M _ hM
        (TAnyBasic.CopyAny_Consistent hcap _ other _ (TAnyBasic.Reset_Consistent raw)
          (hM other (Containers.Object_mem M j other hj)))
  | ctorMoveAny raw j =>
    cases hj : M.Object j with
    | none => simpa only [Containers.step, hj] using hM
    | some other =>
      simp only [Containers.step, hj]
      have hm := TAnyBasic.MoveAny_Consistent hcap (TAnyBasic.ctor raw) other
        (TAnyBasic.Reset_Consistent raw) (hM other (Containers.Object_mem M j other hj))
      intro x hx
      simp only [List.mem_append, List.mem_singleton, Option.some.injEq] at hx
      rcases hx with hx | hx
      · rcases List.mem_or_eq_of_mem_set hx with h | h
        · exact hM x h
        · rw [Option.some.inj h]; exact hm.2
      · rw [hx]; exact hm.1
  | Emplace i T object =>
    cases hi : M.Object i with
    | none => simpa only [Containers.step, hi] using hM
    | some self =>
      simp only [Containers.step, hi]
      exact Containers.Put_Consistent M i _ hM
        (TAnyBasic.EmplaceUnsafe_Consistent hcap _ T object _)
  | assignCopy i T object =>
    cases hi : M.Object i with
    | none => simpa only [Containers.step, hi] using hM
    | some self =>
      simp only [Containers.step, hi]
      exact Containers.Put_Consistent M i _ hM (TAnyBasic.Copy_Consistent hcap _ T object _)
  | assignMove i T object =>
    cases hi : M.Object i with
    | none => simpa only [Containers.step, hi] using hM
    | some self =>
      simp only [Containers.step, hi]
      exact Containers.Put_Consistent M i _ hM (TAnyBasic.Move_Consistent hcap _ T object _)
  | assignCArray i T N c_array =>
    cases hi : M.Object i with
    | none => simpa only [Containers.step, hi] using hM
    | some self =>
      simp only [Containers.step, hi]
      exact Containers.Put_Consistent M i _ hM
        (TAnyBasic.EmplaceCArray_Consistent hcap _ T N c_array _)
  | assignCString i c_string =>
    cases hi : M.Object i with
    | none => simpa only [Containers.step, hi] using hM
    | some self =>
      simp only [Containers.step, hi]
      exact Containers.Put_Consistent M i _ hM (TAnyBasic.Move_Consistent hcap _ _ _ _)
  | assignCopyAny i j =>
    cases hi : M.Object i with
    | none => simpa only [Containers.step, hi] using hM
    | some self =>
      cases hj : M.Object j with
      | none => simpa only [Containers.step, hi, hj] using hM
      | some rhs =>
        simp only [Containers.step, hi, hj]
        apply Containers.Put_Consistent M i _ hM
        have hself := hM self (Containers.Object_mem M i self hi)
        have hrhs := hM rhs (Containers.Object_mem M j rhs hj)
        unfold TAnyBasic.assignCopyAny
        split
        · exact TAnyBasic.CopyAny_Consistent hcap _ rhs _ (TAnyBasic.Clean_Consistent _ _) hrhs
        · exact hself
  | assignMoveAny i j =>
    cases hi : M.Object i with
    | none => simpa only [Containers.step, hi] using hM
    | some self =>
      cases hj : M.Object j with
      | none => simpa only [Containers.step, hi, hj] using hM
      | some rhs =>
        simp only [Containers.step, hi, hj]
        have hself := hM self (Containers.Object_mem M i self hi)
        have hrhs := hM rhs (Containers.Object_mem M j rhs hj)
        have hm : (self.assignMoveAny rhs (decide (i = j)) M.World).1.1.Consistent ∧
            (self.assignMoveAny rhs (decide (i = j)) M.World).1.2.Consistent := by
          unfold TAnyBasic.assignMoveAny
          split
          · exact TAnyBasic.MoveAny_Consistent hcap _ rhs (TAnyBasic.Clean_Consistent _ _) hrhs
          · exact ⟨hself, hself⟩
        intro x hx
        rcases List.mem_or_eq_of_mem_set hx with h | h
        · rcases List.mem_or_eq_of_mem_set h with h | h
          · exact hM x h
          · rw [Option.some.inj h]; exact hm.2
        · rw [Option.some.inj h]; exact hm.1
  | Clean i =>
    cases hi : M.Object i with
    | none => simpa only [Containers.step, hi] using hM
    | some self =>
      simp only [Containers.step, hi]
      exact Containers.Put_Consistent M i _ hM (TAnyBasic.Clean_Consistent _ _)
  | AssignThrough i T value =>
    cases hi : M.Object i with
    | none => simpa only [Containers.step, hi] using hM
    | some self =>
      simp only [Containers.step, hi]
      exact Containers.Put_Consistent M i _ hM
        (TAnyBasic.AssignThrough_Consistent self T value _
          (hM self (Containers.Object_mem M i self hi)))
  | dtor i =>
    cases hi : M.Object i with
    | none => simpa only [Containers.step, hi] using hM
    | some self =>
      simp only [Containers.step, hi]
      intro x hx
      rcases List.mem_or_eq_of_mem_set hx with h | h
      · exact hM x h
      · cases h
  | Const i => exact hM

theorem Containers.run_Consistent [StdString Ty] [StdArray Ty]
    (hcap : TAnyBasic.StaticCapacity Ty ≤ 255) (M : Containers Ty) (calls : List (AnyCall Ty))
    (hM : ∀ x, some x ∈ M.Objects → x.Consistent) :
    ∀ x, some x ∈ (M.run calls).Objects → x.Consistent := by
  induction calls generalizing M with
  | nil => exact hM
  | cons c cs ih => exact ih (M.step c) (Containers.step_Consistent hcap M c hM)

/-- C21. Array coercion: on a target that meets the `static_assert` of the inline buffer, for
every element type `T`, length `N` and C array `a` of `N` elements, a container constructed
from `a` (on whatever bytes the object had, as this constructor does not run `Reset()`) or
assigned from `a` has `Is<std::array<T, N>>()` true, `As<std::array<T, N>>()` returns an array
whose element `i` equals `a[i]` for every `i < N`, and the container meets the storage
invariant. -/
theorem C21_array_coercion [StdArray Ty] (hcap : TAnyBasic.StaticCapacity Ty ≤ 255)
    (T : Ty) (N : Nat) (a : Fin N → Target.Val T) (raw self : TAnyBasic Ty) (w : World Ty) :
    ((TAnyBasic.ctorCArray raw T N a w).1.Is (StdArray.array T N) = true ∧
      (∃ stored : Target.Val (StdArray.array T N),
        (TAnyBasic.ctorCArray raw T N a w).1.As (StdArray.array T N)
          (TAnyBasic.ctorCArray raw T N a w).2 = Outcome.Return stored ∧
        ∀ i : Fin N, StdArray.get stored i = a i) ∧
      (TAnyBasic.ctorCArray raw T N a w).1.Consistent) ∧
    ((self.assignCArray T N a w).1.Is (StdArray.array T N) = true ∧
      (∃ stored : Target.Val (StdArray.array T N),
        (self.assignCArray T N a w).1.As (StdArray.array T N)
          (self.assignCArray T N a w).2 = Outcome.Return stored ∧
        ∀ i : Fin N, StdArray.get stored i = a i) ∧
      (self.assignCArray T N a w).1.Consistent) := by
  have h1 := TAnyBasic.EmplaceCArray_As raw T N a w
  have h2 := TAnyBasic.EmplaceCArray_As (self.Clean w).1 T N a (self.Clean w).2
  refine ⟨⟨TAnyBasic.Is_of_Type _ _ h1.1, ⟨_, h1.2, StdArray.get_copy a _⟩,
      TAnyBasic.EmplaceCArray_Consistent hcap raw T N a w⟩,
    ⟨TAnyBasic.Is_of_Type _ _ h2.1, ⟨_, h2.2, StdArray.get_copy a _⟩,
      TAnyBasic.EmplaceCArray_Consistent hcap _ T N a _⟩⟩

/-- C28. Container storage invariant: on a target that meets the `static_assert` of the
inline buffer, every container object of a program that started with none and made any calls
of the public surface (constructors, `Emplace`, typed assignments, container copies and moves,
`Clean`, the array and C-string overloads, writes through `As`, destructors) is `Empty()` iff
it has no operation table; if empty it has `GetSize() == 0` and the inline flag; if it holds a
`T` it has `GetSize() == sizeof(T)` and the heap flag iff `GetSize() > StaticCapacity()`. -/
theorem C28_storage_invariant [StdString Ty] [StdArray Ty]
    (hcap : TAnyBasic.StaticCapacity Ty ≤ 255) (calls : List (AnyCall Ty)) (i : Nat)
    (x : TAnyBasic Ty) (hx : (Containers.init.run calls).Object i = some x) :
    (x.Empty = true ↔ x.Type_ = none) ∧
    (x.Empty = true → x.GetSize = 0 ∧ x.IsDynamic = false) ∧
    (∀ T : Ty, x.Type_ = some T →
      x.GetSize = Target.sizeof T ∧
      (x.IsDynamic = true ↔ x.GetSize > TAnyBasic.StaticCapacity Ty)) :=
  Containers.run_Consistent hcap Containers.init calls
    (fun _ h => by simp [Containers.init] at h) x (Containers.Object_mem _ i x hx)

end Reachable
end WBMQTT

namespace WBMQTT

/-- C21 at a concrete input: a container constructed from an `int[3]` on bytes that held a
heap flag and a type pointer, and a container holding `"hello"` assigned an `int[8]`. -/
theorem C21_array_coercion_witness :
    TAnyBasic.StaticCapacity TypeExpr ≤ 255 ∧
    (TAnyBasic.ctorCArray GarbageContainer TypeExpr.int 3 ThreeInts EmptyWorld).1.Is
      (TypeExpr.array TypeExpr.int 3) = true ∧
    (TAnyBasic.ctorCArray GarbageContainer TypeExpr.int 3 ThreeInts EmptyWorld).1.Consistent ∧
    (HelloObject.assignCArray TypeExpr.int 8 EightInts ExampleProgram.World).1.Is
      (TypeExpr.array TypeExpr.int 8) = true :=
  ⟨by decide,
   (C21_array_coercion (by decide) TypeExpr.int 3 ThreeInts GarbageContainer HelloObject
     EmptyWorld).1.1,
   (C21_array_coercion (by decide) TypeExpr.int 3 ThreeInts GarbageContainer HelloObject
     EmptyWorld).1.2.2,
   (C21_array_coercion (by decide) TypeExpr.int 8 EightInts GarbageContainer HelloObject
     ExampleProgram.World).2.1⟩

/-- C22 at a concrete input: the heap-stored `"hello"` of the worked example assigned to
itself, by copy and by move. -/
theorem C22_self_assignment_witness :
    ExampleProgram.Object 0 = some HelloObject ∧
    ExampleProgram.step (AnyCall.assignCopyAny 0 0) = ExampleProgram ∧
    ExampleProgram.step (AnyCall.assignMoveAny 0 0) = ExampleProgram :=
  ⟨rfl,
   (C22_self_assignment HelloObject EmptyWorld ExampleProgram 0 (by rfl)).2.2.1,
   (C22_self_assignment HelloObject EmptyWorld ExampleProgram 0 (by rfl)).2.2.2⟩

/-- C28 at a concrete input: the third container of the worked example, which was
constructed from an array, moved from, and assigned a copy of `"hello"`. -/
theorem C28_storage_invariant_witness :
    TAnyBasic.StaticCapacity TypeExpr ≤ 255 ∧
    (Containers.init.run ExampleCalls).Object 2 = some HelloCopyObject ∧
    (HelloCopyObject.GetSize = Target.sizeof TypeExpr.string ∧
      (HelloCopyObject.IsDynamic = true ↔
        HelloCopyObject.GetSize > TAnyBasic.StaticCapacity TypeExpr)) :=
  ⟨by decide, rfl,
   (C28_storage_invariant (by decide) ExampleCalls 2 HelloCopyObject (by rfl)).2.2
     TypeExpr.string (by rfl)⟩

/-- C29 at a concrete input: the `"hello"` of the worked example read as `int`, then as
`std::string`. -/
theorem C29_read_failure_keeps_state_witness :
    HelloObject.As TypeExpr.int ExampleProgram.World =
      Outcome.Throw (TAnyCastError.TAnyTypesMismatchError "std::string" "int") ∧
    HelloObject.AssignThrough TypeExpr.int (1 : Int) ExampleProgram.World =
      (Outcome.Throw (TAnyCastError.TAnyTypesMismatchError "std::string" "int"),
        (HelloObject, ExampleProgram.World)) ∧
    HelloObject.Holds TypeExpr.string "hello" ExampleProgram.World ∧
    HelloObject.As TypeExpr.string ExampleProgram.World = Outcome.Return "hello" :=
  ⟨rfl,
   (C29_read_failure_keeps_state HelloObject TypeExpr.int ExampleProgram.World
     (TAnyCastError.TAnyTypesMismatchError "std::string" "int") (1 : Int) (by rfl)).2.1,
   ⟨rfl, rfl, rfl, by decide⟩,
   (C29_read_failure_keeps_state HelloObject TypeExpr.int ExampleProgram.World
     (TAnyCastError.TAnyTypesMismatchError "std::string" "int") (1 : Int) (by rfl)).2.2.2
     TypeExpr.string "hello" ⟨rfl, rfl, rfl, by decide⟩⟩

/-- C30 at a concrete input: the heap-stored `"hello"` of the worked example assigned the
`int` 7: the destructor of the string, the `Free` of block 0, then the copy of the `int`. -/
theorem C30_destroy_before_reallocate_witness :
    HelloObject.Type_ = some TypeExpr.string ∧
    HelloObject.Teardown =
      Event.Destroy TypeExpr.string ::
        (if HelloObject.IsDynamic then [Event.Free HelloObject.DynamicMemory] else []) ∧
    (HelloObject.assignCopy TypeExpr.int (7 : Int) ExampleProgram.World).2.Trace =
      ExampleProgram.World.Trace ++ HelloObject.Teardown ++
        Setup TypeExpr.int ExampleProgram.World.Next (Event.Copy TypeExpr.int) :=
  ⟨rfl,
   (C30_destroy_before_reallocate HelloObject HelloCopyObject TypeExpr.string (by rfl) TypeExpr.int
     (7 : Int) 3 ThreeInts "x" ExampleProgram.World).1,
   (C30_destroy_before_reallocate HelloObject HelloCopyObject TypeExpr.string (by rfl) TypeExpr.int
     (7 : Int) 3 ThreeInts "x" ExampleProgram.World).2.1⟩

end WBMQTT

/-! ## Handles: unchecked queries, reports without consumption, moved promises -/

namespace WBMQTT
section Queries
variable {T E W : Type}

/-- C32. `IsException` reports without consuming: on a Ready cell `IsException()` returns
whether the stored result is an error; after a fulfilment of a Pending cell that is true after
`Throw` and false after `SetValue`, `SetFunction` and (for `void`) `Complete`; the call is
const, so it changes neither the cells nor the promise objects, and `GetValue()` (`Sync()`)
made after it on the same cells gives what the fulfilment stored. -/
theorem C32_is_exception_reports (p : TPromise) (f : TFuture) (s : Cells T E W)
    (u : Cells Unit E W) (a : Nat) (d : TDataGeneric T E W) (c : TDataGeneric Unit E W)
    (w : W) (hp : p.Data = some a) (hf : f.Data = some a)
    (hd : s[a]? = some d) (hpending : d.InState CellState.Pending = true)
    (hc : u[a]? = some c) (hcpending : c.InState CellState.Pending = true) :
    (∀ (r : TDataGeneric T E W) (val : TValue T E W) (t : Cells T E W), t[a]? = some r →
      r.InState CellState.Ready = true → r.Value = some val →
      f.IsException t = Outcome.Return val.IsException) ∧
    (∀ v : T, f.IsException (p.SetValue v s).2 = Outcome.Return false ∧
      f.GetValue (p.SetValue v s).2 w = (Outcome.Return v, w)) ∧
    (∀ e : E, f.IsException (p.Throw e s).2 = Outcome.Return true ∧
      f.GetValue (p.Throw e s).2 w = (Outcome.Throw (TPromiseError.Exception e), w)) ∧
    (∀ fn : W → Except E T × W, f.IsException (p.SetFunction fn s).2 = Outcome.Return false ∧
      f.GetValue (p.SetFunction fn s).2 w =
        (Fulfilment.SetFunction fn : Fulfilment T E W).Result w) ∧
    (f.IsException (p.Complete u).2 = Outcome.Return false ∧
      f.GetValue (p.Complete u).2 w = (Outcome.Return (), w)) ∧
    (∀ P : Program T E W, P.stepBase (BaseCall.Future f FutureCall.IsException) = P) := by
  simp only [TDataBase.InState, Bool.and_eq_true, Bool.not_eq_true'] at hpending hcpending
  obtain ⟨⟨hr, hb⟩, _⟩ := hpending
  obtain ⟨⟨hcr, hcb⟩, _⟩ := hcpending
  refine ⟨?_, ?_, ?_, ?_, ?_, fun _ => rfl⟩
  · intro r val t ht hready hval
    simp only [TDataBase.InState, Bool.and_eq_true, Bool.not_eq_true'] at hready
    simp [TFuture.IsException, hf, Cells.Read, ht, TDataBase.IsException, TDataBase.Wait,
      hready.1.1, hready.1.2, hval]
  · intro v
    have h := Cells.Call_at s a d (fun d => TDataGeneric.SetValue d v) hd
    simp only [TPromise.SetValue, hp, TFuture.IsException, TFuture.GetValue, hf, Cells.Read,
      h.2]
    simp [TDataGeneric.SetValue, TDataBase.IsException, TDataBase.GetValue, TDataBase.Wait,
      TValue.Get, TValue.IsException, hr, hb]
  · intro e
    have h := Cells.Call_at s a d (fun d => d.SetException e) hd
    simp only [TPromise.Throw, hp, TFuture.IsException, TFuture.GetValue, hf, Cells.Read, h.2]
    simp [TDataBase.SetException, TDataBase.IsException, TDataBase.GetValue, TDataBase.Wait,
      TValue.Get, TValue.IsException, hr, hb]
  · intro fn
    have h := Cells.Call_at s a d (fun d => d.SetFunction fn) hd
    simp only [TPromise.SetFunction, hp, TFuture.IsException, TFuture.GetValue, hf,
      Cells.Read, h.2]
    simp only [TDataBase.SetFunction, TDataBase.IsException, TDataBase.GetValue,
      TDataBase.Wait, TValue.Get, TValue.IsException, Fulfilment.Result, hr, hb]
    cases hfw : fn w with
    | mk r w1 => cases r <;> simp [hfw]
  · have h := Cells.Call_at u a c (fun d => TDataGeneric.Notify d) hc
    simp only [TPromise.Complete, hp, TFuture.IsException, TFuture.GetValue, hf, Cells.Read,
      h.2]
    simp [TDataGeneric.Notify, TDataBase.IsException, TDataBase.GetValue, TDataBase.Wait,
      TValue.Get, TValue.IsException, hcr, hcb]

/-- C35. Moving a promise does not break its cell: after `q = TPromise<T>(std::move(p))` with
the cell of `p` Pending, `p` has no cell (`operator bool` is false) and `q` has the cell;
destroying `p` leaves every cell as it is, so the futures of the cell still report
`IsBroken() == false`; a `SetValue(v)` through `q` after that is read from a future of the cell
as `GetValue() == v`; and destroying `q`, which holds the Pending cell, makes it Broken. -/
theorem C35_moved_promise_keeps_cell (p : TPromise) (f : TFuture) (s : Cells T E W) (a : Nat)
    (d : TDataGeneric T E W) (v : T) (w : W)
    (hp : p.Data = some a) (hf : f.Data = some a) (hd : s[a]? = some d)
    (hpending : d.InState CellState.Pending = true) :
    (TPromise.moveCtor p).2.operatorBool = false ∧
    (TPromise.moveCtor p).1.Data = some a ∧
    (TPromise.moveCtor p).2.dtor s = s ∧
    f.IsBroken ((TPromise.moveCtor p).2.dtor s) = Outcome.Return false ∧
    f.IsReady ((TPromise.moveCtor p).2.dtor s) = Outcome.Return false ∧
    f.GetValue ((TPromise.moveCtor p).1.SetValue v ((TPromise.moveCtor p).2.dtor s)).2 w =
      (Outcome.Return v, w) ∧
    f.IsBroken ((TPromise.moveCtor p).1.dtor s) = Outcome.Return true := by
  simp only [TDataBase.InState, Bool.and_eq_true, Bool.not_eq_true'] at hpending
  obtain ⟨⟨hr, hb⟩, _⟩ := hpending
  have h1 := Cells.Call_at s a d (fun d => TDataGeneric.SetValue d v) hd
  have h2 := Cells.Call_at s a d
    (fun d => ((Outcome.Return () : Outcome (TPromiseError E) Unit),
      d.HandlePromiseDestruction)) hd
  refine ⟨rfl, hp, rfl, ?_, ?_, ?_, ?_⟩
  · simp [TPromise.moveCtor, TPromise.dtor, TFuture.IsBroken, hf, Cells.Read, hd,
      TDataBase.IsBroken, hb]
  · simp [TPromise.moveCtor, TPromise.dtor, TFuture.IsReady, hf, Cells.Read, hd,
      TDataBase.IsReady, hr]
  · simp only [TPromise.moveCtor, TPromise.dtor, TPromise.SetValue, hp, TFuture.GetValue, hf,
      h1.2]
    simp [TDataGeneric.SetValue, TDataBase.GetValue, TDataBase.Wait, TValue.Get, hr, hb]
  · simp only [TPromise.moveCtor, TPromise.dtor, hp, TFuture.IsBroken, hf, Cells.Read, h2.2]
    simp [TDataBase.HandlePromiseDestruction, TDataBase.IsBroken, hr]

/-- C38. The void asymmetry is limited to `Complete`: for `TPromise<void>` over a Pending
cell, after `Complete()` each of `Throw(e)` and `SetFunction(fn)` raises
`TPromiseRepeatedAssignmentException` and leaves the cells as they were: `IsException()` is
false and `Sync()` returns normally. -/
theorem C38_fulfil_after_complete (p : TPromise) (f : TFuture) (u : Cells Unit E W) (a : Nat)
    (c : TDataGeneric Unit E W) (e : E) (fn : W → Except E Unit × W) (w : W)
    (hp : p.Data = some a) (hf : f.Data = some a) (hc : u[a]? = some c)
    (hpending : c.InState CellState.Pending = true) :
    p.Throw e (p.Complete u).2 =
      (Outcome.Throw TPromiseError.TPromiseRepeatedAssignmentException, (p.Complete u).2) ∧
    p.SetFunction fn (p.Complete u).2 =
      (Outcome.Throw TPromiseError.TPromiseRepeatedAssignmentException, (p.Complete u).2) ∧
    f.IsException (p.Complete u).2 = Outcome.Return false ∧
    f.GetValue (p.Complete u).2 w = (Outcome.Return (), w) := by
  simp only [TDataBase.InState, Bool.and_eq_true, Bool.not_eq_true'] at hpending
  obtain ⟨⟨hr, hb⟩, _⟩ := hpending
  have h := Cells.Call_at u a c (fun d => TDataGeneric.Notify d) hc
  have hget : (p.Complete u).2[a]? = some (TDataGeneric.Notify c).2 := by
    simpa [TPromise.Complete, hp] using h.2
  have hready : (TDataGeneric.Notify c).2.Ready = true := by simp [TDataGeneric.Notify, hr]
  refine ⟨?_, ?_, ?_, ?_⟩
  · exact TPromise.Fulfil_Ready p _ a _ hp hget hready (Fulfilment.Throw e)
  · exact TPromise.Fulfil_Ready p _ a _ hp hget hready (Fulfilment.SetFunction fn)
  · simp only [TFuture.IsException, hf, Cells.Read, hget]
    simp [TDataGeneric.Notify, TDataBase.IsException, TDataBase.Wait, TValue.IsException,
      hr, hb]
  · simp only [TFuture.GetValue, hf, hget]
    simp [TDataGeneric.Notify, TDataBase.GetValue, TDataBase.Wait, TValue.Get, hr, hb]

end Queries

/-- C31 evaluated at the failing input: `IsFulfilled()` on `TPromise<T>::Null()` and on a
moved-from promise reaches `Data->IsReady()` with a null `Data`, which is undefined and not
the `TPromiseException` that `GetFuture()` and `SetValue()` raise there; on a promise with a
cell it returns the Ready flag. -/
theorem C31_is_fulfilled_dereferences_null :
    TPromise.Null.IsFulfilled NoCells = Outcome.Undefined ∧
    (TPromise.moveCtor (TPromise.ctor NoCells).1).2.IsFulfilled (TPromise.ctor NoCells).2 =
      Outcome.Undefined ∧
    (TPromise.Null.GetFuture : Outcome (TPromiseError String) TFuture) =
      Outcome.Throw TPromiseError.TPromiseException ∧
    (TPromise.Null.SetValue 5 NoCells).1 = Outcome.Throw TPromiseError.TPromiseException ∧
    (TPromise.ctor NoCells).1.IsFulfilled (TPromise.ctor NoCells).2 = Outcome.Return false ∧
    (TPromise.ctor NoCells).1.IsFulfilled
      ((TPromise.ctor NoCells).1.SetValue 5 (TPromise.ctor NoCells).2).2 =
        Outcome.Return true :=
  ⟨rfl, rfl, rfl, rfl, rfl, rfl⟩

/-- C32 at a concrete input: a new promise fulfilled with `Throw("e")`, and one with
`SetValue(5)`. -/
theorem C32_is_exception_reports_witness :
    (TDataBase.ctor : TDataGeneric Nat String Nat).InState CellState.Pending = true ∧
    TFuture.IsException { Data := some 0 }
      ((TPromise.ctor NoCells).1.Throw "e" (TPromise.ctor NoCells).2).2 = Outcome.Return true ∧
    TFuture.GetValue { Data := some 0 }
      ((TPromise.ctor NoCells).1.Throw "e" (TPromise.ctor NoCells).2).2 0 =
        (Outcome.Throw (TPromiseError.Exception "e"), 0) ∧
    TFuture.IsException { Data := some 0 }
      ((TPromise.ctor NoCells).1.SetValue 5 (TPromise.ctor NoCells).2).2 =
        Outcome.Return false :=
  ⟨rfl,
   ((C32_is_exception_reports (TPromise.ctor NoCells).1 { Data := some 0 }
     (TPromise.ctor NoCells).2 (TPromise.ctor NoCellsVoid).2 0 TDataBase.ctor TDataBase.ctor 0
     rfl rfl rfl rfl rfl rfl).2.2.1 "e").1,
   ((C32_is_exception_reports (TPromise.ctor NoCells).1 { Data := some 0 }
     (TPromise.ctor NoCells).2 (TPromise.ctor NoCellsVoid).2 0 TDataBase.ctor TDataBase.ctor 0
     rfl rfl rfl rfl rfl rfl).2.2.1 "e").2,
   ((C32_is_exception_reports (TPromise.ctor NoCells).1 { Data := some 0 }
     (TPromise.ctor NoCells).2 (TPromise.ctor NoCellsVoid).2 0 TDataBase.ctor TDataBase.ctor 0
     rfl rfl rfl rfl rfl rfl).2.1 5).1⟩

/-- C35 at a concrete input: a new promise moved, the source destroyed, `SetValue(5)` through
the new promise. -/
theorem C35_moved_promise_keeps_cell_witness :
    (TDataBase.ctor : TDataGeneric Nat String Nat).InState CellState.Pending = true ∧
    (TPromise.moveCtor (TPromise.ctor NoCells).1).2.operatorBool = false ∧
    TFuture.GetValue { Data := some 0 }
      ((TPromise.moveCtor (TPromise.ctor NoCells).1).1.SetValue 5
        ((TPromise.moveCtor (TPromise.ctor NoCells).1).2.dtor (TPromise.ctor NoCells).2)).2 0 =
      (Outcome.Return 5, 0) :=
  ⟨rfl,
   (C35_moved_promise_keeps_cell (TPromise.ctor NoCells).1 { Data := some 0 }
     (TPromise.ctor NoCells).2 0 TDataBase.ctor 5 0 rfl rfl rfl rfl).1,
   (C35_moved_promise_keeps_cell (TPromise.ctor NoCells).1 { Data := some 0 }
     (TPromise.ctor NoCells).2 0 TDataBase.ctor 5 0 rfl rfl rfl rfl).2.2.2.2.2.1⟩

/-- C38 at a concrete input: a new `TPromise<void>`, `Complete()`, then `Throw("e")`. -/
theorem C38_fulfil_after_complete_witness :
    (TDataBase.ctor : TDataGeneric Unit String Nat).InState CellState.Pending = true ∧
    ((TPromise.ctor NoCellsVoid).1.Throw "e"
      ((TPromise.ctor NoCellsVoid).1.Complete (TPromise.ctor NoCellsVoid).2).2).1 =
        Outcome.Throw TPromiseError.TPromiseRepeatedAssignmentException ∧
    TFuture.GetValue { Data := some 0 }
      ((TPromise.ctor NoCellsVoid).1.Complete (TPromise.ctor NoCellsVoid).2).2 0 =
      (Outcome.Return (), 0) :=
  ⟨rfl,
   congrArg Prod.fst (C38_fulfil_after_complete (TPromise.ctor NoCellsVoid).1
     { Data := some 0 } (TPromise.ctor NoCellsVoid).2 0 TDataBase.ctor "e"
     (fun n => (Except.ok (), n)) 0 rfl rfl rfl rfl).1,
   (C38_fulfil_after_complete (TPromise.ctor NoCellsVoid).1
     { Data := some 0 } (TPromise.ctor NoCellsVoid).2 0 TDataBase.ctor "e"
     (fun n => (Except.ok (), n)) 0 rfl rfl rfl rfl).2.2.2⟩

end WBMQTT

/-! ## Handles: pre-resolved futures and cells that lost their promise -/

namespace WBMQTT
section PreResolved
variable {T E W : Type}

end PreResolved
end WBMQTT

namespace WBMQTT
section Orphans
variable {T E W : Type}

/-- A call through a promise leaves a cell that no promise holds as it is. -/
theorem Program.Call_orphan (P : Program T E W) (i x : Nat) (ho : P.Owner i = some x)
    (f : TDataGeneric T E W → Outcome (TPromiseError E) Unit × TDataGeneric T E W)
    (a : Nat) (d : TDataGeneric T E W) (hd : P.Cells[a]? = some d)
    (hno : ∀ k, P.Owner k ≠ some a) :
    (P.Cells.Call x f).2[a]? = some d := by
  rw [Cells.Call_get]
  split
  · rename_i hxa; subst hxa
    exact absurd ho (hno i)
  · exact hd

theorem Program.stepBase_orphan (P : Program T E W) (call : BaseCall T E W)
    (a : Nat) (d : TDataGeneric T E W) (hd : P.Cells[a]? = some d)
    (hno : ∀ k, P.Owner k ≠ some a) :
    (P.stepBase call).Cells[a]? = some d ∧ ∀ k, (P.stepBase call).Owner k ≠ some a := by
  have hlt : a < P.Cells.length := (List.getElem?_eq_some.mp hd).1
  cases call with
  | ctor =>
    refine ⟨by simp only [Program.stepBase, TPromise.ctor, Cells.make_shared_get, hlt,
      if_true, hd], ?_⟩
    intro k hk
    simp only [Program.stepBase] at hk
    rw [Program.Owner_append] at hk
    split at hk
    · exact hno k hk
    · split at hk
      · simp [TPromise.ctor, Cells.make_shared] at hk; omega
      · cases hk
  | Null =>
    refine ⟨hd, ?_⟩
    intro k hk
    simp only [Program.stepBase] at hk
    rw [Program.Owner_append] at hk
    split at hk
    · exact hno k hk
    · split at hk <;> simp [TPromise.Null] at hk
  | moveCtor i =>
    cases hp : P.Promise i with
    | none => simpa [Program.stepBase, hp] using ⟨hd, hno⟩
    | some p =>
      simp only [Program.stepBase, hp]
      refine ⟨hd, ?_⟩
      intro k hk
      have hlti := P.Promise_lt i p hp
      rw [Program.Owner_append
        { P with Promises := P.Promises.set i (some p.moveCtor.2) }] at hk
      simp only [List.length_set] at hk
      split at hk
      · rw [Program.Owner_set P i _ k P.Cells hlti] at hk
        split at hk
        · simp [TPromise.moveCtor] at hk
        · exact hno k hk
      · split at hk
        · simp only [TPromise.moveCtor, Option.bind_some] at hk
          exact hno i (by rw [P.Promise_Owner i p hp]; exact hk)
        · cases hk
  | moveAssign i j =>
    cases hp : P.Promise i with
    | none => simpa [Program.stepBase, hp] using ⟨hd, hno⟩
    | some p =>
      cases hq : P.Promise j with
      | none => simpa [Program.stepBase, hp, hq] using ⟨hd, hno⟩
      | some q =>
        simp only [Program.stepBase, hp, hq]
        split
        · exact ⟨hd, hno⟩
        · refine ⟨hd, ?_⟩
          intro k hk
          have hlti := P.Promise_lt i p hp
          have hltj := P.Promise_lt j q hq
          rw [Program.Owner_set
            { P with Promises := P.Promises.set i (some (p.moveAssign q).1) } j _ k P.Cells
            (by simpa using hltj)] at hk
          split at hk
          · simp [TPromise.moveAssign] at hk
          · rw [Program.Owner_set P i _ k P.Cells hlti] at hk
            split at hk
            · simp only [TPromise.moveAssign, Option.bind_some] at hk
              exact hno j (by rw [P.Promise_Owner j q hq]; exact hk)
            · exact hno k hk
  | dtor i =>
    cases hp : P.Promise i with
    | none => simpa [Program.stepBase, hp] using ⟨hd, hno⟩
    | some p =>
      simp only [Program.stepBase, hp]
      have hlti := P.Promise_lt i p hp
      constructor
      · cases hx : p.Data with
        | none => simpa [TPromise.dtor, hx] using hd
        | some x =>
          simp only [TPromise.dtor, hx]
          exact P.Call_orphan i x (by rw [P.Promise_Owner i p hp, hx]) _ a d hd hno
      · intro k hk
        rw [Program.Owner_set P i _ k _ hlti] at hk
        split at hk
        · cases hk
        · exact hno k hk
  | GetFuture i => exact ⟨hd, hno⟩
  | IsFulfilled i => exact ⟨hd, hno⟩
  | IsWaited i => exact ⟨hd, hno⟩
  | operatorBool i => exact ⟨hd, hno⟩
  | Throw i e =>
    cases hp : P.Promise i with
    | none => simpa [Program.stepBase, hp] using ⟨hd, hno⟩
    | some p =>
      simp only [Program.stepBase, hp]
      refine ⟨?_, hno⟩
      cases hx : p.Data with
      | none => simpa [TPromise.Throw, hx] using hd
      | some x =>
        simp only [TPromise.Throw, hx]
        exact P.Call_orphan i x (by rw [P.Promise_Owner i p hp, hx]) _ a d hd hno
  | SetFunction i fn =>
    cases hp : P.Promise i with
    | none => simpa [Program.stepBase, hp] using ⟨hd, hno⟩
    | some p =>
      simp only [Program.stepBase, hp]
      refine ⟨?_, hno⟩
      cases hx : p.Data with
      | none => simpa [TPromise.SetFunction, hx] using hd
      | some x =>
        simp only [TPromise.SetFunction, hx]
        exact P.Call_orphan i x (by rw [P.Promise_Owner i p hp, hx]) _ a d hd hno
  | GetExceptionFuture e => exact ⟨Cells.make_shared_Call_old P.Cells _ a d hd, hno⟩
  | GetFutureFromFunction fn => exact ⟨Cells.make_shared_Call_old P.Cells _ a d hd, hno⟩
  | Future f c => exact ⟨hd, hno⟩
  | ThrowRef i alive e copy =>
    cases hp : P.Promise i with
    | none => simpa [Program.stepBase, hp] using ⟨hd, hno⟩
    | some p =>
      simp only [Program.stepBase, hp]
      refine ⟨?_, hno⟩
      cases hx : p.Data with
      | none => simpa [TPromise.ThrowRef, hx] using hd
      | some x =>
        simp only [TPromise.ThrowRef, hx]
        exact P.Call_orphan i x (by rw [P.Promise_Owner i p hp, hx]) _ a d hd hno
  | GetExceptionFutureRef alive e copy =>
    exact ⟨Cells.make_shared_Call_old P.Cells _ a d hd, hno⟩

theorem Program.step_orphan (P : Program T E W) (call : TypedCall T E W)
    (a : Nat) (d : TDataGeneric T E W) (hd : P.Cells[a]? = some d)
    (hno : ∀ k, P.Owner k ≠ some a) :
    (P.step call).Cells[a]? = some d ∧ ∀ k, (P.step call).Owner k ≠ some a := by
  cases call with
  | Base c => exact P.stepBase_orphan c a d hd hno
  | SetValue i v =>
    cases hp : P.Promise i with
    | none => simpa [Program.step, hp] using ⟨hd, hno⟩
    | some p =>
      simp only [Program.step, hp]
      refine ⟨?_, hno⟩
      cases hx : p.Data with
      | none => simpa [TPromise.SetValue, hx] using hd
      | some x =>
        simp only [TPromise.SetValue, hx]
        exact P.Call_orphan i x (by rw [P.Promise_Owner i p hp, hx]) _ a d hd hno
  | GetValueFuture v => exact ⟨Cells.make_shared_Call_old P.Cells _ a d hd, hno⟩

theorem Program.stepVoid_orphan (P : Program Unit E W) (call : VoidCall E W)
    (a : Nat) (d : TDataGeneric Unit E W) (hd : P.Cells[a]? = some d)
    (hno : ∀ k, P.Owner k ≠ some a) :
    (P.stepVoid call).Cells[a]? = some d ∧ ∀ k, (P.stepVoid call).Owner k ≠ some a := by
  cases call with
  | Base c => exact P.stepBase_orphan c a d hd hno
  | Complete i =>
    cases hp : P.Promise i with
    | none => simpa [Program.stepVoid, hp] using ⟨hd, hno⟩
    | some p =>
      simp only [Program.stepVoid, hp]
      refine ⟨?_, hno⟩
      cases hx : p.Data with
      | none => simpa [TPromise.Complete, hx] using hd
      | some x =>
        simp only [TPromise.Complete, hx]
        exact P.Call_orphan i x (by rw [P.Promise_Owner i p hp, hx]) _ a d hd hno
  | GetCompletedFuture => exact ⟨Cells.make_shared_Call_old P.Cells _ a d hd, hno⟩

theorem Program.run_orphan (P : Program T E W) (calls : List (TypedCall T E W))
    (a : Nat) (d : TDataGeneric T E W) (hd : P.Cells[a]? = some d)
    (hno : ∀ k, P.Owner k ≠ some a) :
    (P.run calls).Cells[a]? = some d := by
  induction calls generalizing P with
  | nil => exact hd
  | cons c cs ih =>
    exact ih (P.step c) (P.step_orphan c a d hd hno).1 (P.step_orphan c a d hd hno).2

theorem Program.runVoid_orphan (P : Program Unit E W) (calls : List (VoidCall E W))
    (a : Nat) (d : TDataGeneric Unit E W) (hd : P.Cells[a]? = some d)
    (hno : ∀ k, P.Owner k ≠ some a) :
    (P.runVoid calls).Cells[a]? = some d := by
  induction calls generalizing P with
  | nil => exact hd
  | cons c cs ih =>
    exact ih (P.stepVoid c) (P.stepVoid_orphan c a d hd hno).1 (P.stepVoid_orphan c a d hd hno).2

/-- After a move assignment onto the promise that held the cell, no promise holds it. -/
theorem Program.moveAssign_orphan (P : Program T E W) (hP : P.Inv) (i j a : Nat)
    (p q : TPromise) (hi : P.Promise i = some p) (hj : P.Promise j = some q) (hij : i ≠ j)
    (ha : p.Data = some a) :
    ∀ k, (P.stepBase (BaseCall.moveAssign i j)).Owner k ≠ some a := by
  intro k hk
  have hoi : P.Owner i = some a := by rw [P.Promise_Owner i p hi, ha]
  have hlti := P.Promise_lt i p hi
  have hltj := P.Promise_lt j q hj
  simp only [Program.stepBase, hi, hj, hij, if_false] at hk
  rw [Program.Owner_set
    { P with Promises := P.Promises.set i (some (p.moveAssign q).1) } j _ k P.Cells
    (by simpa using hltj)] at hk
  split at hk
  · simp [TPromise.moveAssign] at hk
  · rw [Program.Owner_set P i _ k P.Cells hlti] at hk
    split at hk
    · simp only [TPromise.moveAssign, Option.bind_some] at hk
      have hoj : P.Owner j = some a := by rw [P.Promise_Owner j q hj]; exact hk
      exact hij (hP.unique i j a hoi hoj)
    · rename_i hjk hik
      exact hik (hP.unique i k a hoi hk)

/-- C36. Move-assignment over an unfulfilled promise does not signal abandonment: in a
program that meets the invariant of the handle API, after `p = std::move(q)` for two distinct
promise objects, where the cell `c` that `p` held was Pending, no promise holds `c`, and after
any further calls (typed, or of `TPromise<void>`) `c` is the very same Pending cell: its
futures report `IsReady() == false` and `IsBroken() == false`. -/
theorem C36_move_assignment_orphans_cell (i j a : Nat) (p q : TPromise) (hij : i ≠ j)
    (ha : p.Data = some a) :
    (∀ (P : Program T E W) (d : TDataGeneric T E W) (later : List (TypedCall T E W)),
      P.Inv → P.Promise i = some p → P.Promise j = some q → P.Cells[a]? = some d →
      d.InState CellState.Pending = true →
      (∀ k, (P.stepBase (BaseCall.moveAssign i j)).Owner k ≠ some a) ∧
      ((P.stepBase (BaseCall.moveAssign i j)).run later).Cells[a]? = some d ∧
      TFuture.IsReady { Data := some a }
        ((P.stepBase (BaseCall.moveAssign i j)).run later).Cells = Outcome.Return false ∧
      TFuture.IsBroken { Data := some a }
        ((P.stepBase (BaseCall.moveAssign i j)).run later).Cells = Outcome.Return false) ∧
    (∀ (P : Program Unit E W) (d : TDataGeneric Unit E W) (later : List (VoidCall E W)),
      P.Inv → P.Promise i = some p → P.Promise j = some q → P.Cells[a]? = some d →
      d.InState CellState.Pending = true →
      (∀ k, (P.stepBase (BaseCall.moveAssign i j)).Owner k ≠ some a) ∧
      ((P.stepBase (BaseCall.moveAssign i j)).runVoid later).Cells[a]? = some d ∧
      TFuture.IsReady { Data := some a }
        ((P.stepBase (BaseCall.moveAssign i j)).runVoid later).Cells = Outcome.Return false ∧
      TFuture.IsBroken { Data := some a }
        ((P.stepBase (BaseCall.moveAssign i j)).runVoid later).Cells = Outcome.Return false) := by
  constructor
  · intro P d later hP hi hj hd hpending
    have hno := P.moveAssign_orphan hP i j a p q hi hj hij ha
    have hd1 : (P.stepBase (BaseCall.moveAssign i j)).Cells[a]? = some d := by
      simpa [Program.stepBase, hi, hj, hij] using hd
    have hrun := Program.run_orphan _ later a d hd1 hno
    simp only [TDataBase.InState, Bool.and_eq_true, Bool.not_eq_true'] at hpending
    refine ⟨hno, hrun, ?_, ?_⟩
    · simp [TFuture.IsReady, Cells.Read, hrun, TDataBase.IsReady, hpending.1.1]
    · simp [TFuture.IsBroken, Cells.Read, hrun, TDataBase.IsBroken, hpending.1.2]
  · intro P d later hP hi hj hd hpending
    have hno := P.moveAssign_orphan hP i j a p q hi hj hij ha
    have hd1 : (P.stepBase (BaseCall.moveAssign i j)).Cells[a]? = some d := by
      simpa [Program.stepBase, hi, hj, hij] using hd
    have hrun := Program.runVoid_orphan _ later a d hd1 hno
    simp only [TDataBase.InState, Bool.and_eq_true, Bool.not_eq_true'] at hpending
    refine ⟨hno, hrun, ?_, ?_⟩
    · simp [TFuture.IsReady, Cells.Read, hrun, TDataBase.IsReady, hpending.1.1]
    · simp [TFuture.IsBroken, Cells.Read, hrun, TDataBase.IsBroken, hpending.1.2]

end Orphans
end WBMQTT

/-! ## Containers and JSON: assignment from an empty container, typed reads of a document -/

namespace WBMQTT
section FromEmpty
variable {Ty : Type} [Target Ty] [DecidableEq Ty]

/-- C39. Assigning from an empty container empties the destination: for every container `d`
and empty container `e`, copy-assigning or move-assigning `e` into `d` (another object) makes
exactly the calls that destroy the payload of `d` (its destructor once, and `Free` of its block
if it was on the heap; none if `d` was empty), and leaves `d` with `Empty()` true and
`GetSize() == 0`; copy- or move-constructing from `e` yields an empty container and makes no
call; and `e` is as it was, so it stays empty. -/
theorem C39_assign_from_empty (d e raw : TAnyBasic Ty) (w : World Ty) (he : e.Empty = true) :
    ((d.assignCopyAny e false w).1.Empty = true ∧ (d.assignCopyAny e false w).1.GetSize = 0 ∧
      (d.assignCopyAny e false w).2.Trace = w.Trace ++ d.Teardown) ∧
    ((d.assignMoveAny e false w).1.1.Empty = true ∧
      (d.assignMoveAny e false w).1.1.GetSize = 0 ∧
      (d.assignMoveAny e false w).2.Trace = w.Trace ++ d.Teardown ∧
      (d.assignMoveAny e false w).1.2 = e) ∧
    ((TAnyBasic.ctorCopyAny raw e w).1.Empty = true ∧
      (TAnyBasic.ctorCopyAny raw e w).1.GetSize = 0 ∧
      (TAnyBasic.ctorCopyAny raw e w).2 = w) ∧
    ((TAnyBasic.ctorMoveAny raw e).1.Empty = true ∧
      (TAnyBasic.ctorMoveAny raw e).1.GetSize = 0 ∧
      (TAnyBasic.ctorMoveAny raw e).2 = e) ∧
    (d.Empty = true → d.Teardown = []) ∧
    (∀ S : Ty, d.Type_ = some S → d.Teardown =
      Event.Destroy S :: (if d.IsDynamic then [Event.Free d.DynamicMemory] else [])) := by
  have hc := d.Clean_Trace w
  have h1 : d.assignCopyAny e false w = d.Clean w := by
    simp [TAnyBasic.assignCopyAny, TAnyBasic.CopyAny, he]
  have h2 : d.assignMoveAny e false w = (((d.Clean w).1, e), (d.Clean w).2) := by
    simp [TAnyBasic.assignMoveAny, TAnyBasic.MoveAny, he]
  have h3 : TAnyBasic.ctorCopyAny raw e w = (raw.Reset, w) := by
    simp [TAnyBasic.ctorCopyAny, TAnyBasic.CopyAny, TAnyBasic.ctor, he]
  have h4 : TAnyBasic.ctorMoveAny raw e = (raw.Reset, e) := by
    simp [TAnyBasic.ctorMoveAny, TAnyBasic.MoveAny, TAnyBasic.ctor, he]
  rw [h1, h2, h3, h4]
  refine ⟨⟨rfl, rfl, hc.1⟩, ⟨rfl, rfl, hc.1, rfl⟩, ⟨rfl, rfl, rfl⟩, ⟨rfl, rfl, rfl⟩, ?_, ?_⟩
  · intro hd
    have : d.Type_ = none := by simpa [TAnyBasic.Empty] using hd
    simp [TAnyBasic.Teardown, this]
  · intro S hS
    rw [d.Teardown_of_Type S hS]
    split <;> rfl

end FromEmpty

/-- C39 at a concrete input: an empty container assigned, by copy, to the heap-stored
`"hello"` of the worked example. -/
theorem C39_assign_from_empty_witness :
    (TAnyBasic.ctor GarbageContainer).Empty = true ∧
    (HelloObject.assignCopyAny (TAnyBasic.ctor GarbageContainer) false
      ExampleProgram.World).1.Empty = true ∧
    (HelloObject.assignCopyAny (TAnyBasic.ctor GarbageContainer) false
      ExampleProgram.World).2.Trace = ExampleProgram.World.Trace ++ HelloObject.Teardown ∧
    HelloObject.Teardown = [Event.Destroy TypeExpr.string, Event.Free 0] :=
  ⟨rfl,
   (C39_assign_from_empty HelloObject (TAnyBasic.ctor GarbageContainer) GarbageContainer
     ExampleProgram.World (by rfl)).1.1,
   (C39_assign_from_empty HelloObject (TAnyBasic.ctor GarbageContainer) GarbageContainer
     ExampleProgram.World (by rfl)).1.2.2,
   rfl⟩

/-- C33 evaluated at the failing input: in the document with `"n": 42` and `"s": "text"`,
`Get<int>` of the absent key gives false and keeps the variable, of `"n"` gives true and sets
the variable to 42, and of `"s"` throws `std::runtime_error` with the message
`s is not a int value`, keeping the variable; for every document, key and type the throw is a
`std::runtime_error`. -/
theorem C33_get_throws_runtime_error :
    JSON.Get ExampleRoot "missing" (7 : Int) = (Outcome.Return false, 7) ∧
    JSON.Get ExampleRoot "n" (7 : Int) = (Outcome.Return true, 42) ∧
    JSON.Get ExampleRoot "s" (7 : Int) =
      (Outcome.Throw (JSON.Exception.runtime_error "s is not a int value"), 7) ∧
    (∀ (J T : Type) [JsonValue J] [JsonType J T] (root : J) (key : String) (value : T),
      (JsonValue.isMember root key = false →
        JSON.Get root key value = (Outcome.Return false, value)) ∧
      (JsonValue.isMember root key = true →
        JsonType.Is T (JsonValue.index root key) = true →
        JSON.Get root key value =
          (Outcome.Return true, JsonType.As (JsonValue.index root key))) ∧
      (JsonValue.isMember root key = true →
        JsonType.Is T (JsonValue.index root key) = false →
        JSON.Get root key value =
          (Outcome.Throw (JSON.Exception.runtime_error
            (key ++ " is not a " ++ JsonType.NameOfType J T ++ " value")), value))) := by
  refine ⟨rfl, rfl, rfl, ?_⟩
  intro J T _ _ root key value
  refine ⟨?_, ?_, ?_⟩
  · intro h; simp [JSON.Get, h]
  · intro h1 h2; simp [JSON.Get, h1, h2]
  · intro h1 h2; simp [JSON.Get, h1, h2]

/-- C36 at a concrete input: two promises, the second move-assigned to the first, then
`SetValue(5)` on the first and the destruction of both. -/
theorem C36_move_assignment_orphans_cell_witness :
    (0 : Nat) ≠ 1 ∧
    TwoPromises.Promise 0 = some { Data := some 0 } ∧
    TwoPromises.Promise 1 = some { Data := some 1 } ∧
    TwoPromises.Cells[0]? = some TDataBase.ctor ∧
    TFuture.IsBroken { Data := some 0 }
      ((TwoPromises.stepBase (BaseCall.moveAssign 0 1)).run
        [TypedCall.SetValue 0 5, TypedCall.Base (BaseCall.dtor 0),
          TypedCall.Base (BaseCall.dtor 1)]).Cells = Outcome.Return false :=
  ⟨by decide, rfl, rfl, rfl,
   ((@C36_move_assignment_orphans_cell Nat String Nat 0 1 0 { Data := some 0 }
      { Data := some 1 } (by decide) rfl).1 TwoPromises TDataBase.ctor
      [TypedCall.SetValue 0 5, TypedCall.Base (BaseCall.dtor 0),
        TypedCall.Base (BaseCall.dtor 1)]
      (Program.Inv_run Program.init Program.Inv_init _) rfl rfl rfl rfl).2.2.2⟩

end WBMQTT

/-! ## Containers: the ledger of heap blocks -/

namespace WBMQTT
section Ledger
variable {Ty : Type} [Target Ty] [DecidableEq Ty]

theorem Option.count_toList (o : Option Nat) (k : Nat) :
    o.toList.count k = if o = some k then 1 else 0 := by
  cases o with
  | none => simp
  | some m =>
    by_cases h : m = k
    · subst h; simp
    · simp [List.count_cons, h]

theorem List.filterMap_cons_toList {α : Type} (g : α → Option Nat) (a : α) (l : List α) :
    (a :: l).filterMap g = (g a).toList ++ l.filterMap g := by
  rw [List.filterMap_cons]
  cases g a <;> rfl

theorem List.count_filterMap_set {α : Type} (g : α → Option Nat) (l : List α) (i : Nat)
    (a b : α) (h : l[i]? = some a) (k : Nat) :
    ((l.set i b).filterMap g).count k + (g a).toList.count k =
      (l.filterMap g).count k + (g b).toList.count k := by
  induction l generalizing i with
  | nil => simp at h
  | cons c t ih =>
    cases i with
    | zero =>
      simp only [List.getElem?_cons_zero, Option.some.injEq] at h
      subst h
      simp only [List.set_cons_zero, List.filterMap_cons_toList, List.count_append]
      omega
    | succ n =>
      simp only [List.getElem?_cons_succ] at h
      have := ih n h
      simp only [List.set_cons_succ, List.filterMap_cons_toList, List.count_append]
      omega

theorem Containers.Owned_set (M : Containers Ty) (i : Nat) (x : TAnyBasic Ty)
    (o : Option (TAnyBasic Ty)) (h : M.Object i = some x) (k : Nat) :
    ((M.Objects.set i o).filterMap fun o => o.bind TAnyBasic.Block).count k +
        x.Block.toList.count k =
      M.Owned.count k + (o.bind TAnyBasic.Block).toList.count k :=
  List.count_filterMap_set _ M.Objects i (some x) o (Containers.Objects_of_Object M i x h) k

theorem Containers.Owned_pos (M : Containers Ty) (i : Nat) (x : TAnyBasic Ty)
    (h : M.Object i = some x) (k : Nat) (hk : x.Block = some k) : 1 ≤ M.Owned.count k := by
  rw [List.one_le_count_iff]
  unfold Containers.Owned
  rw [List.mem_filterMap]
  exact ⟨some x, Containers.Object_mem M i x h, hk⟩

theorem World.Frees_refl (w : World Ty) : World.Frees w w none := by
  refine ⟨rfl, rfl, by simp, ?_⟩
  intro k; simp

theorem World.Allocs_same (w w1 : World Ty) (hn : w1.Next = w.Next)
    (ht : w1.Trace = w.Trace) (hb : w1.Blocks = w.Blocks) : World.Allocs w w1 none := by
  refine ⟨Or.inl rfl, by simp [hn], by simp [ht], by simp [ht], by simp [hb]⟩

/-- The ledger stays balanced by a step that releases at most one owned block and then
acquires at most one new block. -/
theorem Containers.Balanced_step (M N : Containers Ty) (hM : M.Balanced)
    (rel acq : Option Nat) (w1 : WBMQTT.World Ty)
    (hO : ∀ k, N.Owned.count k + rel.toList.count k = M.Owned.count k + acq.toList.count k)
    (hrel : ∀ k, rel = some k → 1 ≤ M.Owned.count k)
    (hF : World.Frees M.World w1 rel) (hA : World.Allocs w1 N.World acq)
    (ht : ∀ x : TAnyBasic Ty, some x ∈ N.Objects → x.Type_ = none → x.IsDynamic = false) :
    N.Balanced := by
  obtain ⟨hFn, hFa, hFf, hFb⟩ := hF
  obtain ⟨hAc, hAn, hAa, hAf, hAb⟩ := hA
  have key : ∀ k,
      (M.World.Next ≤ k → (AllocatedBlocks M.World.Trace).count k = 0) ∧
      M.Owned.count k = M.World.Blocks.count k ∧
      (AllocatedBlocks M.World.Trace).count k ≤ 1 ∧
      (AllocatedBlocks M.World.Trace).count k =
        (Freed M.World.Trace).count k + M.World.Blocks.count k ∧
      (AllocatedBlocks N.World.Trace).count k =
        (AllocatedBlocks M.World.Trace).count k + (if acq = some k then 1 else 0) ∧
      (Freed N.World.Trace).count k =
        (Freed M.World.Trace).count k + (if rel = some k then 1 else 0) ∧
      N.World.Blocks.count k =
        (if acq = some k then 1 else 0) +
          (if rel = some k then 0 else M.World.Blocks.count k) ∧
      N.Owned.count k + (if rel = some k then 1 else 0) =
        M.Owned.count k + (if acq = some k then 1 else 0) := by
    intro k
    refine ⟨hM.fresh k, hM.owned k, hM.once k, hM.ledger k, ?_, ?_, ?_, ?_⟩
    · rw [hAa, hFa, List.count_append, Option.count_toList]
    · rw [hAf, hFf, List.count_append, Option.count_toList]
    · rw [hAb, List.count_append, Option.count_toList, hFb k]
    · have := hO k
      rw [Option.count_toList, Option.count_toList] at this
      exact this
  have hnext : N.World.Next = M.World.Next + acq.toList.length := by rw [hAn, hFn]
  have hacq : ∀ k, acq = some k → k = M.World.Next ∧ N.World.Next = M.World.Next + 1 := by
    intro k hk
    rcases hAc with h | h
    · rw [h] at hk; cases hk
    · rw [h] at hk
      injection hk with hk
      refine ⟨by rw [← hk, hFn], ?_⟩
      rw [hnext, h]; rfl
  refine ⟨?_, ?_, ?_, ?_, ht⟩
  · intro k hk
    obtain ⟨h1, h2, h3, h4, h5, h6, h7, h8⟩ := key k
    by_cases ha : acq = some k
    · have := hacq k ha
      omega
    · have hle : M.World.Next ≤ k := by rw [hnext] at hk; omega
      have := h1 hle
      simp only [ha, if_false] at h5
      omega
  · intro k
    obtain ⟨h1, h2, h3, h4, h5, h6, h7, h8⟩ := key k
    by_cases hr : rel = some k
    · have := hrel k hr
      simp only [hr, if_true] at h6 h7 h8
      omega
    · simp only [hr, if_false] at h6 h7 h8
      omega
  · intro k
    obtain ⟨h1, h2, h3, h4, h5, h6, h7, h8⟩ := key k
    by_cases ha : acq = some k
    · have hk := (hacq k ha).1
      have := h1 (by omega)
      simp only [ha, if_true] at h5
      omega
    · simp only [ha, if_false] at h5
      omega
  · intro k
    obtain ⟨h1, h2, h3, h4, h5, h6, h7, h8⟩ := key k
    by_cases hr : rel = some k
    · have := hrel k hr
      simp only [hr, if_true] at h6 h7 h8
      omega
    · simp only [hr, if_false] at h6 h7 h8
      omega

end Ledger
end WBMQTT

namespace WBMQTT
section LedgerOps
variable {Ty : Type} [Target Ty] [DecidableEq Ty]

theorem World.Blocks_Store (w : World Ty) (m : Nat) (o : Option (Object Ty)) :
    (w.Store m o).Blocks = w.Blocks := by
  unfold World.Blocks World.Store
  simp only [List.map_map]
  apply List.map_congr_left
  intro e _
  by_cases h : e.1 = m <;> simp [h]

theorem World.Blocks_Free (w : World Ty) (m k : Nat) :
    (Allocator.Free m w).Blocks.count k = if m = k then 0 else w.Blocks.count k := by
  unfold World.Blocks Allocator.Free
  simp only
  induction w.Heap with
  | nil => simp
  | cons e t ih =>
    by_cases he : e.1 = m
    · have hf : (e.1 != m) = false := by simp [he]
      rw [List.filter_cons_of_neg (by simp [he]), ih]
      by_cases hk : m = k
      · simp [hk]
      · have : ¬ e.1 = k := by rw [he]; exact hk
        simp [hk, List.count_cons, this]
    · rw [List.filter_cons_of_pos (by simp [he]), List.map_cons, List.map_cons,
        List.count_cons, List.count_cons, ih]
      by_cases hk : m = k
      · have : ¬ e.1 = k := by rw [← hk]; exact he
        simp [hk, this]
      · simp [hk]

theorem AllocatedBlocks_append (s t : List (Event Ty)) :
    AllocatedBlocks (s ++ t) = AllocatedBlocks s ++ AllocatedBlocks t := by
  unfold AllocatedBlocks
  rw [Allocated_append, List.map_append]

theorem TAnyBasic.AllocatedBlocks_Teardown (x : TAnyBasic Ty) :
    AllocatedBlocks x.Teardown = [] := by
  unfold AllocatedBlocks
  rw [x.Allocated_Teardown]; rfl

theorem TAnyBasic.DeleteDirty_Frees (x : TAnyBasic Ty) (w : World Ty)
    (ht : x.Type_ = none → x.IsDynamic = false) :
    World.Frees w (x.DeleteDirty w).2 x.Block := by
  have htr := x.DeleteDirty_Trace w
  refine ⟨htr.2, ?_, ?_, ?_⟩
  · rw [htr.1, AllocatedBlocks_append, x.AllocatedBlocks_Teardown, List.append_nil]
  · rw [htr.1, Freed_append]
    congr 1
    unfold TAnyBasic.Teardown TAnyBasic.Block
    cases hT : x.Type_ with
    | none => simp [ht hT, Freed]
    | some T => cases x.IsDynamic <;> simp [Freed]
  · intro k
    unfold TAnyBasic.DeleteDirty TAnyBasic.Block
    cases hT : x.Type_ with
    | none => simp [ht hT]
    | some T =>
      cases hd : x.IsDynamic
      · simp [TTypeWrapper.Destroy, World.Log, World.Blocks]
      · simp only [if_true, Option.some.injEq]
        rw [World.Blocks_Free, World.Blocks_Store]
        rfl

theorem TAnyBasic.Clean_Block (x : TAnyBasic Ty) (w : World Ty) :
    (x.Clean w).1.Block = none ∧ (x.Clean w).1.IsDynamic = false := by
  simp [TAnyBasic.Clean, TAnyBasic.Reset, TAnyBasic.Block]

theorem World.Store_Trace (w : World Ty) (m : Nat) (o : Option (Object Ty)) :
    (w.Store m o).Trace = w.Trace := rfl

theorem World.Store_Next (w : World Ty) (m : Nat) (o : Option (Object Ty)) :
    (w.Store m o).Next = w.Next := rfl

theorem World.Blocks_Log (w : World Ty) (e : Event Ty) : (w.Log e).Blocks = w.Blocks := rfl

theorem World.Log_Trace (w : World Ty) (e : Event Ty) : (w.Log e).Trace = w.Trace ++ [e] := rfl

theorem World.Log_Next (w : World Ty) (e : Event Ty) : (w.Log e).Next = w.Next := rfl

theorem World.Blocks_Allocate (w : World Ty) (size : Nat) :
    (Allocator.Allocate size w).2.Blocks = w.Next :: w.Blocks := rfl

theorem World.Allocate_Trace (w : World Ty) (size : Nat) :
    (Allocator.Allocate size w).2.Trace = w.Trace ++ [Event.Allocate size w.Next] := rfl

theorem World.Allocate_Next (w : World Ty) (size : Nat) :
    (Allocator.Allocate size w).2.Next = w.Next + 1 := rfl

theorem World.Allocate_fst (w : World Ty) (size : Nat) :
    (Allocator.Allocate size w).1 = w.Next := rfl

theorem TAnyBasic.Copy_Allocs (x : TAnyBasic Ty) (T : Ty) (v : Target.Val T) (w : World Ty) :
    World.Allocs w (x.Copy T v w).2 (x.Copy T v w).1.Block := by
  unfold TAnyBasic.Copy
  split
  · simp [World.Allocs, TAnyBasic.CopyDynamic, TAnyBasic.InitDynamic, TTypeWrapper.Copy,
      TAnyBasic.Block, World.Blocks_Store, World.Store_Trace, World.Store_Next,
      World.Blocks_Log, World.Log_Trace, World.Log_Next, World.Blocks_Allocate,
      World.Allocate_Trace, World.Allocate_Next, World.Allocate_fst, AllocatedBlocks,
      Allocated_append, Allocated, Freed_append, Freed]
  · simp [World.Allocs, TAnyBasic.CopyStatic, TAnyBasic.InitStatic, TTypeWrapper.Copy,
      TAnyBasic.Block, World.Blocks_Log, World.Log_Trace, World.Log_Next, AllocatedBlocks,
      Allocated_append, Allocated, Freed_append, Freed]

theorem TAnyBasic.Move_Allocs (x : TAnyBasic Ty) (T : Ty) (v : Target.Val T) (w : World Ty) :
    World.Allocs w (x.Move T v w).2 (x.Move T v w).1.Block := by
  unfold TAnyBasic.Move
  split
  · simp [World.Allocs, TAnyBasic.MoveDynamic, TAnyBasic.InitDynamic, TTypeWrapper.Move,
      TAnyBasic.Block, World.Blocks_Store, World.Store_Trace, World.Store_Next,
      World.Blocks_Log, World.Log_Trace, World.Log_Next, World.Blocks_Allocate,
      World.Allocate_Trace, World.Allocate_Next, World.Allocate_fst, AllocatedBlocks,
      Allocated_append, Allocated, Freed_append, Freed]
  · simp [World.Allocs, TAnyBasic.MoveStatic, TAnyBasic.InitStatic, TTypeWrapper.Move,
      TAnyBasic.Block, World.Blocks_Log, World.Log_Trace, World.Log_Next, AllocatedBlocks,
      Allocated_append, Allocated, Freed_append, Freed]

theorem TAnyBasic.SetData_same (x : TAnyBasic Ty) (o : Option (Object Ty)) (w : World Ty) :
    (x.SetData o w).1.Block = x.Block ∧ (x.SetData o w).1.Type_ = x.Type_ ∧
    (x.SetData o w).1.IsDynamic = x.IsDynamic ∧
    (x.SetData o w).2.Next = w.Next ∧ (x.SetData o w).2.Trace = w.Trace ∧
    (x.SetData o w).2.Blocks = w.Blocks := by
  unfold TAnyBasic.SetData
  split
  · exact ⟨rfl, rfl, rfl, rfl, rfl, World.Blocks_Store w _ _⟩
  · rename_i h
    simp [TAnyBasic.Block, h]

theorem TAnyBasic.EmplaceUnsafe_Allocs (x : TAnyBasic Ty) (T : Ty) (v : Target.Val T)
    (w : World Ty) :
    World.Allocs w (x.EmplaceUnsafe T v w).2.2 (x.EmplaceUnsafe T v w).2.1.Block := by
  unfold TAnyBasic.EmplaceUnsafe
  by_cases h : Target.sizeof T > TAnyBasic.StaticCapacity Ty
  · simp [h, World.Allocs, TAnyBasic.SetData, TAnyBasic.InitDynamic,
      TAnyBasic.Block, World.Blocks_Store, World.Store_Trace, World.Store_Next,
      World.Blocks_Log, World.Log_Trace, World.Log_Next, World.Blocks_Allocate,
      World.Allocate_Trace, World.Allocate_Next, World.Allocate_fst, AllocatedBlocks,
      Allocated_append, Allocated, Freed_append, Freed]
  · simp [h, World.Allocs, TAnyBasic.SetData, TAnyBasic.InitStatic,
      TAnyBasic.Block, World.Blocks_Log, World.Log_Trace, World.Log_Next, AllocatedBlocks,
      Allocated_append, Allocated, Freed_append, Freed]

theorem TAnyBasic.EmplaceCArray_Allocs [StdArray Ty] (x : TAnyBasic Ty) (T : Ty) (N : Nat)
    (a : Fin N → Target.Val T) (w : World Ty) :
    World.Allocs w (x.EmplaceCArray T N a w).2 (x.EmplaceCArray T N a w).1.Block := by
  rw [TAnyBasic.EmplaceCArray_eq]
  have h := TAnyBasic.EmplaceUnsafe_Allocs x (StdArray.array T N) (StdArray.construct T N) w
  have hs := TAnyBasic.SetData_same
    (x.EmplaceUnsafe (StdArray.array T N) (StdArray.construct T N) w).2.1
    (some ⟨StdArray.array T N, StdArray.copy a (StdArray.construct T N)⟩)
    (x.EmplaceUnsafe (StdArray.array T N) (StdArray.construct T N) w).2.2
  unfold World.Allocs at *
  rw [hs.1, hs.2.2.2.1, hs.2.2.2.2.1, hs.2.2.2.2.2]
  exact h

theorem TAnyBasic.CopyAny_Allocs (x rhs : TAnyBasic Ty) (w : World Ty)
    (hx : x.IsDynamic = false) :
    World.Allocs w (x.CopyAny rhs w).2 (x.CopyAny rhs w).1.Block ∧
    ((x.CopyAny rhs w).1.Type_ = none → (x.CopyAny rhs w).1.IsDynamic = false) := by
  unfold TAnyBasic.CopyAny
  cases ht : rhs.Type_ with
  | none =>
    simp only [TAnyBasic.Empty, ht, Option.isNone_none, if_true]
    refine ⟨?_, fun _ => hx⟩
    have : x.Block = none := by simp [TAnyBasic.Block, hx]
    rw [this]
    exact World.Allocs_same w w rfl rfl rfl
  | some T =>
    cases hdyn : rhs.IsDynamic
    · simp [TAnyBasic.Empty, ht, hdyn, World.Allocs, TAnyBasic.CopyStatic,
        TAnyBasic.InitStatic, TTypeWrapper.Copy,
        TAnyBasic.Block, World.Blocks_Log, World.Log_Trace, World.Log_Next, AllocatedBlocks,
        Allocated_append, Allocated, Freed_append, Freed]
    · simp [TAnyBasic.Empty, ht, hdyn, World.Allocs, TAnyBasic.CopyDynamic,
        TAnyBasic.InitDynamic, TTypeWrapper.Copy,
        TAnyBasic.Block, World.Blocks_Store, World.Store_Trace, World.Store_Next,
        World.Blocks_Log, World.Log_Trace, World.Log_Next, World.Blocks_Allocate,
        World.Allocate_Trace, World.Allocate_Next, World.Allocate_fst, AllocatedBlocks,
        Allocated_append, Allocated, Freed_append, Freed]

theorem TAnyBasic.MoveAny_Block (x other : TAnyBasic Ty) (hx : x.IsDynamic = false)
    (ho : other.Type_ = none → other.IsDynamic = false) :
    (x.MoveAny other).1.Block = other.Block ∧ (x.MoveAny other).2.Block = none ∧
    ((x.MoveAny other).1.Type_ = none → (x.MoveAny other).1.IsDynamic = false) ∧
    ((x.MoveAny other).2.Type_ = none → (x.MoveAny other).2.IsDynamic = false) := by
  unfold TAnyBasic.MoveAny
  cases ht : other.Type_ with
  | none =>
    have hod := ho ht
    simp [TAnyBasic.Empty, ht, TAnyBasic.Block, hx, hod]
  | some T =>
    cases hdyn : other.IsDynamic <;>
      simp [TAnyBasic.Empty, ht, hdyn, TAnyBasic.Block, TAnyBasic.AssignStatic,
        TAnyBasic.InitStatic, TAnyBasic.AssignDynamic, TAnyBasic.Reset]

end LedgerOps
end WBMQTT

namespace WBMQTT
section LedgerSteps
variable {Ty : Type} [Target Ty] [DecidableEq Ty]

theorem Containers.Balanced_init : (Containers.init : Containers Ty).Balanced := by
  refine ⟨?_, ?_, ?_, ?_, ?_⟩ <;> intros <;>
    simp_all [Containers.init, Containers.Owned, World.Blocks, AllocatedBlocks, Allocated, Freed]

theorem Containers.Balanced_New (M : Containers Ty) (hM : M.Balanced)
    (r : TAnyBasic Ty × WBMQTT.World Ty) (hA : World.Allocs M.World r.2 r.1.Block)
    (ht : r.1.Type_ = none → r.1.IsDynamic = false) : (M.New r).Balanced := by
  apply Containers.Balanced_step M (M.New r) hM none r.1.Block M.World ?_ ?_
    (World.Frees_refl _) hA ?_
  · intro k
    simp [Containers.Owned, Containers.New, List.filterMap_append, List.filterMap_cons_toList]
  · intro k hk; cases hk
  · intro x hx
    rcases Containers.mem_New M r x hx with h | h
    · exact hM.typed x h
    · rw [h]; exact ht

theorem Containers.Balanced_Put (M : Containers Ty) (hM : M.Balanced) (i : Nat)
    (x : TAnyBasic Ty) (hx : M.Object i = some x) (w1 : WBMQTT.World Ty)
    (r : TAnyBasic Ty × WBMQTT.World Ty) (hF : World.Frees M.World w1 x.Block)
    (hA : World.Allocs w1 r.2 r.1.Block)
    (ht : r.1.Type_ = none → r.1.IsDynamic = false) : (M.Put i r).Balanced := by
  apply Containers.Balanced_step M (M.Put i r) hM x.Block r.1.Block w1 ?_ ?_ hF hA ?_
  · intro k
    exact Containers.Owned_set M i x (some r.1) hx k
  · intro k hk
    exact Containers.Owned_pos M i x hx k hk
  · intro y hy
    rcases Containers.mem_Put M i r y hy with h | h
    · exact hM.typed y h
    · rw [h]; exact ht

theorem Containers.Balanced_Put_same (M : Containers Ty) (hM : M.Balanced) (i : Nat)
    (x : TAnyBasic Ty) (hx : M.Object i = some x) (r : TAnyBasic Ty × WBMQTT.World Ty)
    (hb : r.1.Block = x.Block) (ht : r.1.Type_ = none → r.1.IsDynamic = false)
    (hn : r.2.Next = M.World.Next) (htr : r.2.Trace = M.World.Trace)
    (hbl : r.2.Blocks = M.World.Blocks) : (M.Put i r).Balanced := by
  apply Containers.Balanced_step M (M.Put i r) hM none none M.World ?_ ?_
    (World.Frees_refl _) (World.Allocs_same _ _ hn htr hbl) ?_
  · intro k
    have := Containers.Owned_set M i x (some r.1) hx k
    rw [show (some r.1).bind TAnyBasic.Block = x.Block from hb] at this
    have h2 : (M.Put i r).Owned.count k + x.Block.toList.count k =
        M.Owned.count k + x.Block.toList.count k := this
    simp only [Option.toList_none, List.count_nil]
    omega
  · intro k hk; cases hk
  · intro y hy
    rcases Containers.mem_Put M i r y hy with h | h
    · exact hM.typed y h
    · rw [h]; exact ht

theorem Containers.Balanced_fill (M : Containers Ty) (hM : M.Balanced) (i : Nat)
    (x : TAnyBasic Ty) (hx : M.Object i = some x) (r : TAnyBasic Ty × WBMQTT.World Ty)
    (hA : World.Allocs (x.Clean M.World).2 r.2 r.1.Block)
    (ht : r.1.Type_ = none → r.1.IsDynamic = false) : (M.Put i r).Balanced :=
  Containers.Balanced_Put M hM i x hx (x.Clean M.World).2 r
    (x.DeleteDirty_Frees M.World (hM.typed x (Containers.Object_mem M i x hx))) hA ht

end LedgerSteps
end WBMQTT

namespace WBMQTT
section LedgerRun
variable {Ty : Type} [Target Ty] [DecidableEq Ty]

theorem Containers.step_Balanced [StdString Ty] [StdArray Ty] (M : Containers Ty)
    (call : AnyCall Ty) (hM : M.Balanced) : (M.step call).Balanced := by
  cases call with
  | ctor raw =>
    apply Containers.Balanced_New M hM
    · have : (TAnyBasic.ctor raw).Block = none := by
        simp [TAnyBasic.ctor, TAnyBasic.Reset, TAnyBasic.Block]
      rw [this]
      exact World.Allocs_same _ _ rfl rfl rfl
    · intro _; rfl
  | ctorCopy raw T object =>
    apply Containers.Balanced_New M hM _ (TAnyBasic.Copy_Allocs _ T object _)
    intro h
    rw [(TAnyBasic.Copy_Is_As _ T object _).1] at h; cases h
  | ctorMove raw T object =>
    apply Containers.Balanced_New M hM _ (TAnyBasic.Move_Allocs _ T object _)
    intro h
    rw [(TAnyBasic.Move_Is_As _ T object _).1] at h; cases h
  | ctorCArray raw T N c_array =>
    apply Containers.Balanced_New M hM _ (TAnyBasic.EmplaceCArray_Allocs raw T N c_array _)
    intro h
    rw [(TAnyBasic.EmplaceCArray_As raw T N c_array _).1] at h; cases h
  | ctorCString raw c_string =>
    apply Containers.Balanced_New M hM _ (TAnyBasic.Move_Allocs _ _ _ _)
    intro h
    rw [(TAnyBasic.Move_Is_As _ _ _ _).1] at h; cases h
  | ctorCopyAny raw j =>
    cases hj : M.Object j with
    | none => simpa only [Containers.step, hj] using hM
    | some other =>
      simp only [Containers.step, hj]
      have h := TAnyBasic.CopyAny_Allocs (TAnyBasic.ctor raw) other M.World rfl
      exact Containers.Balanced_New M hM _ h.1 h.2
  | ctorMoveAny raw j =>
    cases hj : M.Object j with
    | none => simpa only [Containers.step, hj] using hM
    | some other =>
      simp only [Containers.step, hj]
      have hm := TAnyBasic.MoveAny_Block (TAnyBasic.ctor raw) other rfl
        (hM.typed other (Containers.Object_mem M j other hj))
      apply Containers.Balanced_step M
        { Objects := M.Objects.set j (some (TAnyBasic.ctorMoveAny raw other).2) ++
            [some (TAnyBasic.ctorMoveAny raw other).1],
          World := M.World } hM none none M.World ?_ ?_
        (World.Frees_refl _) (World.Allocs_same _ _ rfl rfl rfl) ?_
      · intro k
        have h1 := Containers.Owned_set M j other
          (some (TAnyBasic.ctorMoveAny raw other).2) hj k
        rw [show (some (TAnyBasic.ctorMoveAny raw other).2).bind TAnyBasic.Block = none
          from hm.2.1] at h1
        simp only [Containers.Owned, List.filterMap_append, List.filterMap_cons_toList,
          List.filterMap_nil, List.append_nil, List.count_append]
        rw [show (some (TAnyBasic.ctorMoveAny raw other).1).bind TAnyBasic.Block = other.Block
          from hm.1]
        simp only [Containers.Owned, Option.toList_none, List.count_nil] at h1 ⊢
        omega
      · intro k hk; cases hk
      · intro x hx
        simp only [List.mem_append, List.mem_singleton, Option.some.injEq] at hx
        rcases hx with hx | hx
        · rcases List.mem_or_eq_of_mem_set hx with h | h
          · exact hM.typed x h
          · rw [Option.some.inj h]; exact hm.2.2.2
        · rw [hx]; exact hm.2.2.1
  | Emplace i T object =>
    cases hi : M.Object i with
    | none => simpa only [Containers.step, hi] using hM
    | some self =>
      simp only [Containers.step, hi]
      apply Containers.Balanced_fill M hM i self hi _
        (TAnyBasic.EmplaceUnsafe_Allocs _ T object _)
      intro h
      rw [TAnyBasic.EmplaceUnsafe_Type] at h
      cases h
  | assignCopy i T object =>
    cases hi : M.Object i with
    | none => simpa only [Containers.step, hi] using hM
    | some self =>
      simp only [Containers.step, hi]
      apply Containers.Balanced_fill M hM i self hi _ (TAnyBasic.Copy_Allocs _ T object _)
      intro h
      rw [(TAnyBasic.Copy_Is_As _ T object _).1] at h
      cases h
  | assignMove i T object =>
    cases hi : M.Object i with
    | none => simpa only [Containers.step, hi] using hM
    | some self =>
      simp only [Containers.step, hi]
      apply Containers.Balanced_fill M hM i self hi _ (TAnyBasic.Move_Allocs _ T object _)
      intro h
      rw [(TAnyBasic.Move_Is_As _ T object _).1] at h
      cases h
  | assignCArray i T N c_array =>
    cases hi : M.Object i with
    | none => simpa only [Containers.step, hi] using hM
    | some self =>
      simp only [Containers.step, hi]
      apply Containers.Balanced_fill M hM i self hi _
        (TAnyBasic.EmplaceCArray_Allocs _ T N c_array _)
      intro h
      rw [(TAnyBasic.EmplaceCArray_As _ T N c_array _).1] at h
      cases h
  | assignCString i c_string =>
    cases hi : M.Object i with
    | none => simpa only [Containers.step, hi] using hM
    | some self =>
      simp only [Containers.step, hi]
      apply Containers.Balanced_fill M hM i self hi _ (TAnyBasic.Move_Allocs _ _ _ _)
      intro h
      rw [(TAnyBasic.Move_Is_As _ _ _ _).1] at h
      cases h
  | assignCopyAny i j =>
    cases hi : M.Object i with
    | none => simpa only [Containers.step, hi] using hM
    | some self =>
      cases hj : M.Object j with
      | none => simpa only [Containers.step, hi, hj] using hM
      | some rhs =>
        simp only [Containers.step, hi, hj]
        by_cases hij : i = j
        · simp only [hij, decide_True, TAnyBasic.assignCopyAny, Bool.not_true,
            Bool.false_eq_true, if_false]
          rw [← hij, Containers.Put_self M i self hi]
          exact hM
        · simp only [hij, decide_False, TAnyBasic.assignCopyAny, Bool.not_false, if_true]
          have h := TAnyBasic.CopyAny_Allocs (self.Clean M.World).1 rhs (self.Clean M.World).2
            (self.Clean_Block M.World).2
          exact Containers.Balanced_fill M hM i self hi _ h.1 h.2
  | assignMoveAny i j =>
    cases hi : M.Object i with
    | none => simpa only [Containers.step, hi] using hM
    | some self =>
      cases hj : M.Object j with
      | none => simpa only [Containers.step, hi, hj] using hM
      | some rhs =>
        simp only [Containers.step, hi, hj]
        by_cases hij : i = j
        · subst hij
          have ho := Containers.Objects_of_Object M i self hi
          simp only [decide_True, TAnyBasic.assignMoveAny, Bool.not_true,
            Bool.false_eq_true, if_false]
          rw [List.set_of_getElem _ _ _ ho, List.set_of_getElem _ _ _ ho]
          exact hM
        · simp only [hij, decide_False, TAnyBasic.assignMoveAny, Bool.not_false, if_true]
          have hm := TAnyBasic.MoveAny_Block (self.Clean M.World).1 rhs
            (self.Clean_Block M.World).2
            (hM.typed rhs (Containers.Object_mem M j rhs hj))
          apply Containers.Balanced_step M
            { Objects := (M.Objects.set j (some ((self.Clean M.World).1.MoveAny rhs).2)).set i
                (some ((self.Clean M.World).1.MoveAny rhs).1),
              World := (self.Clean M.World).2 } hM self.Block none (self.Clean M.World).2 ?_ ?_
            (self.DeleteDirty_Frees M.World (hM.typed self (Containers.Object_mem M i self hi)))
            (World.Allocs_same _ _ rfl rfl rfl) ?_
          · intro k
            have h1 := Containers.Owned_set M j rhs
              (some ((self.Clean M.World).1.MoveAny rhs).2) hj k
            rw [show (some ((self.Clean M.World).1.MoveAny rhs).2).bind TAnyBasic.Block = none
              from hm.2.1] at h1
            have hget : (M.Objects.set j (some ((self.Clean M.World).1.MoveAny rhs).2))[i]? =
                some (some self) := by
              rw [List.getElem?_set_ne (fun h => hij h.symm)]
              exact Containers.Objects_of_Object M i self hi
            have h2 := List.count_filterMap_set (fun o => o.bind TAnyBasic.Block) _ i
              (some self) (some ((self.Clean M.World).1.MoveAny rhs).1) hget k
            rw [show (some ((self.Clean M.World).1.MoveAny rhs).1).bind TAnyBasic.Block =
              rhs.Block from hm.1] at h2
            rw [show (some self).bind TAnyBasic.Block = self.Block from rfl] at h2
            simp only [Option.toList_none, List.count_nil, Containers.Owned] at h1 h2 ⊢
            omega
          · intro k hk
            exact Containers.Owned_pos M i self hi k hk
          · intro x hx
            rcases List.mem_or_eq_of_mem_set hx with h | h
            · rcases List.mem_or_eq_of_mem_set h with h | h
              · exact hM.typed x h
              · rw [Option.some.inj h]; exact hm.2.2.2
            · rw [Option.some.inj h]; exact hm.2.2.1
  | Clean i =>
    cases hi : M.Object i with
    | none => simpa only [Containers.step, hi] using hM
    | some self =>
      simp only [Containers.step, hi]
      apply Containers.Balanced_fill M hM i self hi
      · rw [(self.Clean_Block M.World).1]
        exact World.Allocs_same _ _ rfl rfl rfl
      · intro _; exact (self.Clean_Block M.World).2
  | AssignThrough i T value =>
    cases hi : M.Object i with
    | none => simpa only [Containers.step, hi] using hM
    | some self =>
      simp only [Containers.step, hi]
      have hself := hM.typed self (Containers.Object_mem M i self hi)
      have hs := self.SetData_same (some ⟨T, value⟩) M.World
      unfold TAnyBasic.AssignThrough
      split
      · exact Containers.Balanced_Put_same M hM i self hi _ hs.1
          (fun h => by rw [hs.2.2.1]; exact hself (by rw [← hs.2.1]; exact h))
          hs.2.2.2.1 hs.2.2.2.2.1 hs.2.2.2.2.2
      · exact Containers.Balanced_Put_same M hM i self hi _ rfl hself rfl rfl rfl
      · exact Containers.Balanced_Put_same M hM i self hi _ rfl hself rfl rfl rfl
      · exact Containers.Balanced_Put_same M hM i self hi _ rfl hself rfl rfl rfl
  | dtor i =>
    cases hi : M.Object i with
    | none => simpa only [Containers.step, hi] using hM
    | some self =>
      simp only [Containers.step, hi]
      apply Containers.Balanced_step M
        { Objects := M.Objects.set i none, World := self.dtor M.World } hM self.Block none
        (self.dtor M.World) ?_ ?_
        (self.DeleteDirty_Frees M.World (hM.typed self (Containers.Object_mem M i self hi)))
        (World.Allocs_same _ _ rfl rfl rfl) ?_
      · intro k
        exact Containers.Owned_set M i self none hi k
      · intro k hk
        exact Containers.Owned_pos M i self hi k hk
      · intro x hx
        rcases List.mem_or_eq_of_mem_set hx with h | h
        · exact hM.typed x h
        · cases h
  | Const i => exact hM

theorem Containers.run_Balanced [StdString Ty] [StdArray Ty] (M : Containers Ty)
    (calls : List (AnyCall Ty)) (hM : M.Balanced) : (M.run calls).Balanced := by
  induction calls generalizing M with
  | nil => exact hM
  | cons c cs ih => exact ih (M.step c) (Containers.step_Balanced M c hM)

end LedgerRun
end WBMQTT

namespace WBMQTT
section LedgerClaim
variable {Ty : Type} [Target Ty] [DecidableEq Ty]

theorem Containers.Balanced_counts (M : Containers Ty) (hM : M.Balanced) (k : Nat) :
    (AllocatedBlocks M.World.Trace).count k =
      (Freed M.World.Trace).count k + M.Owned.count k ∧
    (AllocatedBlocks M.World.Trace).count k ≤ 1 := by
  have h1 := hM.ledger k
  have h2 := hM.owned k
  exact ⟨by omega, hM.once k⟩

theorem Containers.Owned_AllDestroyed (M : Containers Ty) (h : M.AllDestroyed) :
    M.Owned = [] := by
  unfold Containers.Owned
  rw [List.filterMap_eq_nil_iff]
  intro o ho
  rw [h o ho]
  rfl

/-- C34. Ownership balance of heap blocks: after every finite sequence of calls of the public
surface made by a program that started with no container (constructions, copies, moves,
assignments, `Emplace`, `Clean`, destructions), over the allocator that hands out a new block
at each `Allocate`: the number of `Allocate` calls is the number of `Free` calls plus the
number of live containers in heap state; no block is owned by two live containers; no block
is freed twice, and a freed block has no live owner; no block is allocated twice; and once all
containers are destroyed, the freed blocks are the allocated blocks, each once. -/
theorem C34_ownership_balance [StdString Ty] [StdArray Ty] (calls : List (AnyCall Ty)) :
    (Allocated (Containers.init.run calls).World.Trace).length =
      (Freed (Containers.init.run calls).World.Trace).length +
        (Containers.init.run calls).Owned.length ∧
    (Containers.init.run calls).Owned.Nodup ∧
    (Freed (Containers.init.run calls).World.Trace).Nodup ∧
    (∀ m ∈ Freed (Containers.init.run calls).World.Trace,
      m ∉ (Containers.init.run calls).Owned) ∧
    (AllocatedBlocks (Containers.init.run calls).World.Trace).Nodup ∧
    ((Containers.init.run calls).AllDestroyed →
      (Freed (Containers.init.run calls).World.Trace).Perm
        (AllocatedBlocks (Containers.init.run calls).World.Trace)) := by
  have hB := Containers.run_Balanced Containers.init calls Containers.Balanced_init
  have hc := Containers.Balanced_counts _ hB
  have hperm : (AllocatedBlocks (Containers.init.run calls).World.Trace).Perm
      (Freed (Containers.init.run calls).World.Trace ++ (Containers.init.run calls).Owned) := by
    rw [List.perm_iff_count]
    intro k
    rw [List.count_append]
    exact (hc k).1
  refine ⟨?_, ?_, ?_, ?_, ?_, ?_⟩
  · have := hperm.length_eq
    rw [List.length_append] at this
    rw [← this]
    simp [AllocatedBlocks]
  · rw [List.nodup_iff_count_le_one]
    intro k
    have := hc k
    omega
  · rw [List.nodup_iff_count_le_one]
    intro k
    have := hc k
    omega
  · intro m hm ho
    have h1 : 1 ≤ (Freed (Containers.init.run calls).World.Trace).count m :=
      List.one_le_count_iff.mpr hm
    have h2 : 1 ≤ (Containers.init.run calls).Owned.count m := List.one_le_count_iff.mpr ho
    have := hc m
    omega
  · rw [List.nodup_iff_count_le_one]
    intro k
    exact (hc k).2
  · intro hall
    have h0 := Containers.Owned_AllDestroyed _ hall
    rw [h0, List.append_nil] at hperm
    exact hperm.symm

end LedgerClaim

/-- C34 at a concrete input: the worked example made three `Allocate` calls and one `Free`
call, and two of its containers are in heap state, owning the blocks 0 and 2. -/
theorem C34_ownership_balance_witness :
    Allocated ExampleProgram.World.Trace = [(32, 0), (32, 1), (32, 2)] ∧
    Freed ExampleProgram.World.Trace = [1] ∧
    ExampleProgram.Owned = [0, 2] ∧
    (Allocated (Containers.init.run ExampleCalls).World.Trace).length =
      (Freed (Containers.init.run ExampleCalls).World.Trace).length +
        (Containers.init.run ExampleCalls).Owned.length ∧
    (Containers.init.run ExampleCalls).Owned.Nodup :=
  ⟨rfl, rfl, rfl,
   (@C34_ownership_balance TypeExpr _ _ _ _ ExampleCalls).1,
   (@C34_ownership_balance TypeExpr _ _ _ _ ExampleCalls).2.1⟩

end WBMQTT
